import Mathlib

/-!
# A user-level thread scheduler (uthreads): embedding and verification

Shallow embedding of `Thread.h/.cpp`, `Scheduler.h/.cpp` and `uthreads.cpp`.

Representation choices:

* A `Thread*` is represented by the `_ID` of the record it points to; the
  record itself is stored once, in `_threadsMap`.  The source only ever
  registers a record under its own `_ID` (`addThreadsMap`), so the map is a
  list of records looked up by `_ID`.  Dereferencing an id that has no record
  yields `none`.
* `_func`, `_stack` and `env` (entry point, stack memory, saved context) are
  not part of the bookkeeping and are left out; stack allocation, `sigaction`,
  `sigprocmask` and `setitimer` are assumed to succeed (their failure exits the
  process).  `setitimer` does fail for a negative quantum, which a thread of a
  reachable state can have; the theorems on what a dispatch yields therefore
  assume `nextQuantumPositive`, which holds whenever all entries of the quantum
  array are positive.
* `int` values are integers; the counters `_totalQuantums` and
  `_countQuantums` are not bounded (reaching `INT_MAX` takes 2^31 quanta).  An
  array read outside the array is undefined in C++ and yields `none`.
* A context switch (`siglongjmp`) is modelled by its effect on the scheduler:
  the state when the switch hands control to the next thread.
-/

namespace UThreads

/-! ## Thread.h / Thread.cpp -/

/-- The `States` enumeration of `Thread.h`. -/
inductive States
  | RUNNING
  | BLOCKED
  | READY
  | TERMINATED
deriving DecidableEq, Repr

open States

/-- The bookkeeping fields of class `Thread`. -/
structure Thread where
  _ID : Int
  _quantum : Int
  _priority : Int
  _state : States
  _countQuantums : Int
deriving DecidableEq, Repr

/-- The constructor `Thread::Thread`, with the defaults `state = READY`,
`countQuantums = 0` spelled out by the callers. -/
def Thread.new (ID quantum priority : Int) (state : States) (countQuantums : Int) : Thread :=
  { _ID := ID, _quantum := quantum, _priority := priority, _state := state,
    _countQuantums := countQuantums }

def Thread.getID (t : Thread) : Int := t._ID

def Thread.getQuantum (t : Thread) : Int := t._quantum

def Thread.setPriority (t : Thread) (newPriority : Int) : Thread :=
  { t with _priority := newPriority }

def Thread.getState (t : Thread) : States := t._state

def Thread.setState (t : Thread) (state : States) : Thread :=
  { t with _state := state }

def Thread.getCountQuantums (t : Thread) : Int := t._countQuantums

/-- The method `Thread::setCountQuantums`: `_countQuantums++`. -/
def Thread.setCountQuantums (t : Thread) : Thread :=
  { t with _countQuantums := t._countQuantums + 1 }

/-! ## Scheduler.h / Scheduler.cpp -/

def MAIN_THREAD : Int := 0

def MAX_THREAD_NUM : Nat := 100

def FAIL : Int := -1

def SUCCESS : Int := 0

def INIT_TOTAL_QUANTUMS : Int := 1

/-- The fields of class `Scheduler`.  Pointers to thread records are ids. -/
structure Scheduler where
  _quantum_usecs_size : Int
  _quantum_usecs : List Int
  _totalQuantums : Int
  _runningThread : Option Int
  _threadsMap : List Thread
  _readyThreadsQueue : List Int
  _blockedThreadsMap : List Int
  _recentlyDeleted : List Thread
deriving DecidableEq, Repr

/-- The constructor `Scheduler::Scheduler`. -/
def Scheduler.new (quantum_usecs : List Int) (size : Int) : Scheduler :=
  { _quantum_usecs_size := size, _quantum_usecs := quantum_usecs,
    _totalQuantums := INIT_TOTAL_QUANTUMS, _runningThread := none,
    _threadsMap := [], _readyThreadsQueue := [], _blockedThreadsMap := [],
    _recentlyDeleted := [] }

/-- The record registered under `tid`: `(*getThreadsMap())[tid]` for a key that
is present, and the target of the pointer represented by `tid`. -/
def Scheduler.thread (s : Scheduler) (tid : Int) : Option Thread :=
  s._threadsMap.find? (fun t => decide (t._ID = tid))

def Scheduler.containsKeyThreadsMap (s : Scheduler) (key : Int) : Bool :=
  (s.thread key).isSome

/-- The method `Scheduler::getAvailableID`: first `i` in `0..99` that is not a key. -/
def Scheduler.getAvailableID (s : Scheduler) : Int :=
  match (List.range MAX_THREAD_NUM).find? (fun (i : Nat) => !s.containsKeyThreadsMap (i : Int)) with
  | some i => (i : Int)
  | none => FAIL

def Scheduler.getQuantum_usecs (s : Scheduler) : List Int := s._quantum_usecs

/-- Reading `a[i]` of a C array: undefined outside the array. -/
def arrayAt (a : List Int) (i : Int) : Option Int :=
  if 0 ≤ i then a[i.toNat]? else none

/-- The method `Scheduler::addThreadsMap`: `_threadsMap[newThread->getID()] = newThread`. -/
def Scheduler.addThreadsMap (s : Scheduler) (newThread : Thread) : Scheduler :=
  { s with _threadsMap :=
      newThread :: s._threadsMap.filter (fun t => decide (t._ID ≠ newThread.getID)) }

/-- The method `Scheduler::addReadyThreadsQueue`: `push_back`. -/
def Scheduler.addReadyThreadsQueue (s : Scheduler) (newThread : Int) : Scheduler :=
  { s with _readyThreadsQueue := s._readyThreadsQueue ++ [newThread] }

/-- The method `Scheduler::addBlockedThreadsMap`: `_blockedThreadsMap[id] = newThread`. -/
def Scheduler.addBlockedThreadsMap (s : Scheduler) (newThread : Int) : Scheduler :=
  { s with _blockedThreadsMap :=
      newThread :: s._blockedThreadsMap.filter (fun k => decide (k ≠ newThread)) }

/-- The method `Scheduler::removeFromReadyThreadsQueue`: erase the first entry
whose id is `tid`, if any. -/
def Scheduler.removeFromReadyThreadsQueue (s : Scheduler) (tid : Int) : Scheduler :=
  { s with _readyThreadsQueue := s._readyThreadsQueue.erase tid }

def Scheduler.removeFromBlockedThreadsMap (s : Scheduler) (tid : Int) : Scheduler :=
  { s with _blockedThreadsMap := s._blockedThreadsMap.filter (fun k => decide (k ≠ tid)) }

def Scheduler.removeFromThreadsMap (s : Scheduler) (tid : Int) : Scheduler :=
  { s with _threadsMap := s._threadsMap.filter (fun t => decide (t._ID ≠ tid)) }

def Scheduler.getRunningThread (s : Scheduler) : Option Int := s._runningThread

def Scheduler.getReadyThreadsQueue (s : Scheduler) : List Int := s._readyThreadsQueue

def Scheduler.getTotalQuantums (s : Scheduler) : Int := s._totalQuantums

/-- The method `Scheduler::setTotalQuantums`: `_totalQuantums++`. -/
def Scheduler.setTotalQuantums (s : Scheduler) : Scheduler :=
  { s with _totalQuantums := s._totalQuantums + 1 }

def Scheduler.setRunningThread (s : Scheduler) (newThread : Int) : Scheduler :=
  { s with _runningThread := some newThread }

def Scheduler.getBlockedMap (s : Scheduler) : List Int := s._blockedThreadsMap

/-- The method `Scheduler::getRecentlyDeleted` returns the vector BY VALUE: the
caller receives a copy. -/
def Scheduler.getRecentlyDeleted (s : Scheduler) : List Thread := s._recentlyDeleted

def Scheduler.addRecentlyDeletedVec (s : Scheduler) (newThread : Thread) : Scheduler :=
  { s with _recentlyDeleted := s._recentlyDeleted ++ [newThread] }

/-- A write through the pointer `p`: the record it points to is replaced by
`f` of it.  `none` when `p` has no record or `f` is undefined. -/
def Scheduler.update (s : Scheduler) (p : Int) (f : Thread → Option Thread) :
    Option Scheduler :=
  match s.thread p with
  | none => none
  | some t =>
    match f t with
    | none => none
    | some t' =>
      some { s with _threadsMap :=
               s._threadsMap.map (fun x => if x._ID = p then t' else x) }

/-- The call `p->setState(state)`. -/
def Scheduler.setState (s : Scheduler) (p : Int) (state : States) : Option Scheduler :=
  s.update p (fun t => some (t.setState state))

/-- The call `p->setPriority(priority)`. -/
def Scheduler.setPriority (s : Scheduler) (p : Int) (priority : Int) : Option Scheduler :=
  s.update p (fun t => some (t.setPriority priority))

/-- The call `p->setCountQuantums()`. -/
def Scheduler.setCountQuantums (s : Scheduler) (p : Int) : Option Scheduler :=
  s.update p (fun t => some t.setCountQuantums)

/-! ## uthreads.cpp -/

/-- A `struct timeval`. -/
structure Timeval where
  tv_sec : Int
  tv_usec : Int
deriving DecidableEq, Repr

/-- A `struct itimerval`. -/
structure Itimerval where
  it_interval : Timeval
  it_value : Timeval
deriving DecidableEq, Repr

/-- The globals of `uthreads.cpp` after `scheduler` has been allocated. -/
structure Globals where
  timer : Itimerval
  scheduler : Scheduler
deriving DecidableEq, Repr

/-- The function `setTimer`; C++ `/` and `%` truncate toward zero.  The
definition is the write of the four fields of `timer`.  The call of
`setitimer` and the `exit(EXIT_FAIL)` taken when it returns -1 are not part of
it: `setitimer` rejects an interval with a negative field, which `setTimer`
computes for a negative quantum, so what a dispatch yields is stated for an
incoming thread whose quantum is positive (`nextQuantumPositive`). -/
def setTimer (g : Globals) (quantum : Int) : Globals :=
  { g with timer :=
      { it_value := { tv_sec := Int.tdiv quantum 1000000, tv_usec := Int.tmod quantum 1000000 },
        it_interval := { tv_sec := Int.tdiv quantum 1000000, tv_usec := Int.tmod quantum 1000000 } } }

/-- The function `getNextThread`: returns the new running pointer and the state. -/
def getNextThread (g : Globals) : Option (Int × Globals) :=
  match g.scheduler.getReadyThreadsQueue.head? with
  | none => none
  | some nextToRun =>
    match g.scheduler.thread nextToRun with
    | none => none
    | some t =>
      match (g.scheduler.removeFromReadyThreadsQueue t.getID).setState nextToRun RUNNING with
      | none => none
      | some s => some (nextToRun, { g with scheduler := s.setRunningThread nextToRun })

/-- The function `setQuantums`. -/
def setQuantums (g : Globals) (curRunning : Int) : Option Globals :=
  match g.scheduler.setTotalQuantums.setCountQuantums curRunning with
  | none => none
  | some s' => some { g with scheduler := s' }

/-- The outgoing half of `switchThreads` when the ready queue is not empty:
a thread that terminated itself leaves the table and enters `_recentlyDeleted`;
otherwise `sigsetjmp` returns 0 and a RUNNING thread becomes READY at the back of
the queue. -/
def switchOut (s : Scheduler) (curRunning : Int) (cur : Thread) : Option Scheduler :=
  if cur.getState = TERMINATED then
    some ((s.removeFromThreadsMap cur.getID).addRecentlyDeletedVec cur)
  else if cur.getState = RUNNING then
    match s.setState curRunning READY with
    | none => none
    | some s' => some (s'.addReadyThreadsQueue curRunning)
  else some s

/-- The incoming half of `switchThreads`: `getNextThread`, `setTimer` with the
quantum of the new running thread, `setQuantums`. -/
def switchIn (g : Globals) : Option Globals :=
  match getNextThread g with
  | none => none
  | some (next, g1) =>
    match g1.scheduler.thread next with
    | none => none
    | some nextT => setQuantums (setTimer g1 nextT.getQuantum) next

/-- The function `switchThreads`.  `getRecentlyDeleted().clear()` clears the
copy returned by `getRecentlyDeleted` and leaves `_recentlyDeleted` as it is.
The result is the state when the function returns (empty queue) or jumps to
the next thread (`siglongjmp`). -/
def switchThreads (g : Globals) : Option Globals :=
  match g.scheduler.getRunningThread with
  | none => none
  | some curRunning =>
    match g.scheduler.thread curRunning with
    | none => none
    | some cur =>
      if g.scheduler.getReadyThreadsQueue.isEmpty then
        match (setTimer g cur.getQuantum).scheduler.setTotalQuantums.setCountQuantums
            curRunning with
        | none => none
        | some s' => some { setTimer g cur.getQuantum with scheduler := s' }
      else
        match switchOut g.scheduler curRunning cur with
        | none => none
        | some s => switchIn { g with scheduler := s }

/-- Whether `switchThreads` returns to its caller rather than jumping away. -/
def switchReturns (g : Globals) : Bool := g.scheduler.getReadyThreadsQueue.isEmpty

/-- The loop of `isNonPositive`, from index `i`, with `n` entries left. -/
def isNonPositiveFrom (quantum_usecs : List Int) : Nat → Nat → Option Bool
  | 0, _ => some false
  | n + 1, i =>
    match quantum_usecs[i]? with
    | none => none
    | some q => if q ≤ 0 then some true else isNonPositiveFrom quantum_usecs n (i + 1)

/-- The function `isNonPositive`. -/
def isNonPositive (quantum_usecs : List Int) (size : Int) : Option Bool :=
  isNonPositiveFrom quantum_usecs size.toNat 0

/-- The function `uthread_spawn`; the entry point `f` is not modelled. -/
def uthread_spawn (g : Globals) (priority : Int) : Option (Int × Globals) :=
  let newID := g.scheduler.getAvailableID
  if newID = FAIL then some (FAIL, g)
  else
    match arrayAt g.scheduler.getQuantum_usecs priority with
    | none => none
    | some q =>
      if newID = MAIN_THREAD then
        let newThread := Thread.new newID q priority RUNNING 1
        some (newID, { g with scheduler := g.scheduler.addThreadsMap newThread })
      else
        let newThread := Thread.new newID q priority READY 0
        some (newID, { g with scheduler :=
          (g.scheduler.addReadyThreadsQueue newThread.getID).addThreadsMap newThread })

/-- The function `uthread_init`: the return value and the globals it creates. -/
def uthread_init (quantum_usecs : List Int) (size : Int) : Option (Int × Option Globals) :=
  if size ≤ 0 then some (FAIL, none)
  else
    match isNonPositive quantum_usecs size with
    | none => none
    | some true => some (FAIL, none)
    | some false =>
      let g0 : Globals :=
        { timer := { it_interval := { tv_sec := 0, tv_usec := 0 },
                     it_value := { tv_sec := 0, tv_usec := 0 } },
          scheduler := Scheduler.new quantum_usecs size }
      match uthread_spawn g0 MAIN_THREAD with
      | none => none
      | some (_, g1) =>
        match g1.scheduler.thread MAIN_THREAD with
        | none => none
        | some main =>
          some (SUCCESS, some (setTimer
            { g1 with scheduler := g1.scheduler.setRunningThread main.getID } main.getQuantum))

/-- The function `uthread_change_priority`.  The source does not mask the
timer signal in this function; the call is taken as one step.  This gives the
same states: if a tick lets other threads run in the middle of the call, then
when the caller resumes either `tid` is live, and the write is that of a call
made at that moment, or it is not, and the write dereferences a null pointer. -/
def uthread_change_priority (g : Globals) (tid priority : Int) : Option (Int × Globals) :=
  if !g.scheduler.containsKeyThreadsMap tid then some (FAIL, g)
  else if priority < 0 then some (FAIL, g)
  else
    match g.scheduler.setPriority tid priority with
    | none => none
    | some s => some (SUCCESS, { g with scheduler := s })

/-- How a call of `uthread_terminate` ends. -/
inductive TerminateResult
  | returned (code : Int) (g : Globals)
  | switched (g : Globals)
  | exited (code : Int)
deriving DecidableEq, Repr

/-- The function `uthread_terminate`.  A thread that terminates itself while
the ready queue is not empty never comes back from `switchThreads`
(`switched`).  In the other RUNNING case, and for a record in state TERMINATED,
`delete toDelete` frees a record that the table still holds; the state keeps
the record as it was. -/
def uthread_terminate (g : Globals) (tid : Int) : Option TerminateResult :=
  if !g.scheduler.containsKeyThreadsMap tid then some (.returned FAIL g)
  else if tid ≠ MAIN_THREAD then
    match g.scheduler.thread tid with
    | none => none
    | some toDelete =>
      match toDelete.getState with
      | RUNNING =>
        match g.scheduler.setState tid TERMINATED with
        | none => none
        | some s =>
          match switchThreads { g with scheduler := s } with
          | none => none
          | some g' =>
            if switchReturns { g with scheduler := s } then some (.returned SUCCESS g')
            else some (.switched g')
      | BLOCKED =>
        some (.returned SUCCESS { g with scheduler :=
          (g.scheduler.removeFromBlockedThreadsMap tid).removeFromThreadsMap tid })
      | READY =>
        some (.returned SUCCESS { g with scheduler :=
          (g.scheduler.removeFromReadyThreadsQueue tid).removeFromThreadsMap tid })
      | TERMINATED => some (.returned SUCCESS g)
  else some (.exited SUCCESS)

/-- The function `blockThread`. -/
def blockThread (g : Globals) (tid : Int) : Option Globals :=
  match g.scheduler.thread tid with
  | none => none
  | some t =>
    match (g.scheduler.addBlockedThreadsMap t.getID).setState tid BLOCKED with
    | none => none
    | some s => some { g with scheduler := s }

/-- The function `uthread_block`.  For a thread that blocks itself the state is
the one after the switch; the call returns `SUCCESS` when the thread is next
resumed. -/
def uthread_block (g : Globals) (tid : Int) : Option (Int × Globals) :=
  if !g.scheduler.containsKeyThreadsMap tid then some (FAIL, g)
  else if tid = MAIN_THREAD then some (FAIL, g)
  else
    match g.scheduler.thread tid with
    | none => none
    | some t =>
      if t.getState = RUNNING then
        match blockThread g tid with
        | none => none
        | some g1 =>
          match switchThreads g1 with
          | none => none
          | some g2 => some (SUCCESS, g2)
      else if t.getState = READY then
        match blockThread { g with scheduler := g.scheduler.removeFromReadyThreadsQueue tid } tid with
        | none => none
        | some g1 => some (SUCCESS, g1)
      else some (SUCCESS, g)

/-- The function `resumeThread`. -/
def resumeThread (g : Globals) (tid : Int) : Option Globals :=
  match g.scheduler.setState tid READY with
  | none => none
  | some s =>
    match (s.removeFromBlockedThreadsMap tid).thread tid with
    | none => none
    | some t =>
      some { g with scheduler := (s.removeFromBlockedThreadsMap tid).addReadyThreadsQueue t.getID }

/-- The function `uthread_resume`. -/
def uthread_resume (g : Globals) (tid : Int) : Option (Int × Globals) :=
  if !g.scheduler.containsKeyThreadsMap tid then some (FAIL, g)
  else
    match g.scheduler.thread tid with
    | none => none
    | some t =>
      if t.getState = BLOCKED then
        match resumeThread g tid with
        | none => none
        | some g1 => some (SUCCESS, g1)
      else some (SUCCESS, g)

/-- The function `uthread_get_tid`. -/
def uthread_get_tid (g : Globals) : Option Int :=
  match g.scheduler.getRunningThread with
  | none => none
  | some p => (g.scheduler.thread p).map Thread.getID

/-- The function `uthread_get_total_quantums`. -/
def uthread_get_total_quantums (g : Globals) : Int := g.scheduler.getTotalQuantums

/-- The function `uthread_get_quantums`. -/
def uthread_get_quantums (g : Globals) (tid : Int) : Option Int :=
  if !g.scheduler.containsKeyThreadsMap tid then some FAIL
  else (g.scheduler.thread tid).map Thread.getCountQuantums

/-! ## Executions -/

/-- One state change of the library: a public call made by the running thread,
or a timer tick (`switchThreads` as the handler of `SIGVTALRM`).  Calls that end
the process (`uthread_terminate(0)`) have no successor state; the getters
`uthread_get_tid`, `uthread_get_total_quantums` and `uthread_get_quantums` do
not change the state. -/
inductive Step : Globals → Globals → Prop
  | spawn (g : Globals) (priority r : Int) (g' : Globals) :
      uthread_spawn g priority = some (r, g') → Step g g'
  | terminate (g : Globals) (tid r : Int) (g' : Globals) :
      uthread_terminate g tid = some (.returned r g') → Step g g'
  | terminateSelf (g : Globals) (tid : Int) (g' : Globals) :
      uthread_terminate g tid = some (.switched g') → Step g g'
  | block (g : Globals) (tid r : Int) (g' : Globals) :
      uthread_block g tid = some (r, g') → Step g g'
  | resume (g : Globals) (tid r : Int) (g' : Globals) :
      uthread_resume g tid = some (r, g') → Step g g'
  | changePriority (g : Globals) (tid priority r : Int) (g' : Globals) :
      uthread_change_priority g tid priority = some (r, g') → Step g g'
  | tick (g g' : Globals) : switchThreads g = some g' → Step g g'

/-- States reachable from a successful `uthread_init`. -/
inductive Reachable : Globals → Prop
  | init (quantum_usecs : List Int) (size : Int) (g : Globals) :
      uthread_init quantum_usecs size = some (SUCCESS, some g) → Reachable g
  | step (g g' : Globals) : Reachable g → Step g g' → Reachable g'

/-! ## Auxiliary definitions for the proofs -/

/-- The table with the record that has the id of `t` replaced by `t`. -/
def Scheduler.put (s : Scheduler) (t : Thread) : Scheduler :=
  { s with _threadsMap := s._threadsMap.map (fun x => if x._ID = t._ID then t else x) }

/-- The state of the record registered under `id`, if any. -/
def stateOf (g : Globals) (id : Int) : Option States :=
  (g.scheduler.thread id).map Thread.getState

/-- The quantum count of the record registered under `id`, if any. -/
def countOf (g : Globals) (id : Int) : Option Int :=
  (g.scheduler.thread id).map Thread.getCountQuantums

/-- The state after the next thread `h`, whose record is `hT`, has been
switched in from `g`, `rest` being the ready queue without `h`. -/
def dispatched (g : Globals) (h : Int) (hT : Thread) (rest : List Int) : Globals :=
  { timer := (setTimer g hT._quantum).timer,
    scheduler :=
      ({ g.scheduler with
          _readyThreadsQueue := rest,
          _runningThread := some h,
          _totalQuantums := g.scheduler._totalQuantums + 1 } : Scheduler).put
        { hT with _state := RUNNING, _countQuantums := hT._countQuantums + 1 } }

/-- The state after a switch that found the ready queue empty, `curT` being
the record of the running thread. -/
def stayed (g : Globals) (curT : Thread) : Globals :=
  { timer := (setTimer g curT._quantum).timer,
    scheduler :=
      ({ g.scheduler with _totalQuantums := g.scheduler._totalQuantums + 1 } : Scheduler).put
        { curT with _countQuantums := curT._countQuantums + 1 } }

/-- The state after `switchThreads` has put away a RUNNING thread `cur` with
record `curT`: READY, at the back of the queue. -/
def preempted (g : Globals) (cur : Int) (curT : Thread) : Globals :=
  { g with scheduler := (g.scheduler.put (curT.setState READY)).addReadyThreadsQueue cur }

/-- The state after `blockThread(tid)`, `t` being the record of `tid`. -/
def blockedState (g : Globals) (tid : Int) (t : Thread) : Globals :=
  { g with scheduler := (g.scheduler.addBlockedThreadsMap tid).put (t.setState BLOCKED) }

/-- The state after `resumeThread(tid)`, `t` being the record of `tid`. -/
def resumedState (g : Globals) (tid : Int) (t : Thread) : Globals :=
  { timer := g.timer,
    scheduler := Scheduler.addReadyThreadsQueue
      ((g.scheduler.put (t.setState READY)).removeFromBlockedThreadsMap tid) tid }

/-- The state after a thread `tid` with record `t` has marked itself
TERMINATED and `switchThreads` has taken it out of the table. -/
def retiredState (g : Globals) (tid : Int) (t : Thread) : Globals :=
  { timer := g.timer,
    scheduler := Scheduler.addRecentlyDeletedVec
      ((g.scheduler.put (t.setState TERMINATED)).removeFromThreadsMap tid)
      (t.setState TERMINATED) }

/-- The state a successful `uthread_init` creates, `q` being `quantum_usecs[0]`. -/
def initState (quantum_usecs : List Int) (size q : Int) : Globals :=
  setTimer
    { timer := { it_interval := { tv_sec := 0, tv_usec := 0 },
                 it_value := { tv_sec := 0, tv_usec := 0 } },
      scheduler := ((Scheduler.new quantum_usecs size).addThreadsMap
        (Thread.new MAIN_THREAD q MAIN_THREAD RUNNING 1)).setRunningThread MAIN_THREAD } q

/-- The state after `uthread_spawn` has created thread `r` with quantum `q`. -/
def spawnedState (g : Globals) (r q priority : Int) : Globals :=
  { timer := g.timer,
    scheduler := (g.scheduler.addReadyThreadsQueue r).addThreadsMap
      (Thread.new r q priority READY 0) }

/-- The state after `uthread_terminate` has removed a BLOCKED thread `tid`. -/
def removedBlocked (g : Globals) (tid : Int) : Globals :=
  { timer := g.timer,
    scheduler := (g.scheduler.removeFromBlockedThreadsMap tid).removeFromThreadsMap tid }

/-- The state after `uthread_terminate` has removed a READY thread `tid`. -/
def removedReady (g : Globals) (tid : Int) : Globals :=
  { timer := g.timer,
    scheduler := (g.scheduler.removeFromReadyThreadsQueue tid).removeFromThreadsMap tid }

/-- Well-formedness of the thread table: one record per id, ids in `0..99`,
and every quantum count between 0 and the total, which is at least 1. -/
def Scheduler.WF (s : Scheduler) : Prop :=
  (s._threadsMap.map Thread._ID).Nodup ∧
  (∀ t ∈ s._threadsMap, 0 ≤ t._ID ∧ t._ID < 100 ∧
      0 ≤ t._countQuantums ∧ t._countQuantums ≤ s._totalQuantums) ∧
  1 ≤ s._totalQuantums

/-- The operations that change the state: the public calls and the timer tick. -/
inductive Op
  | spawn (priority : Int)
  | terminate (tid : Int)
  | block (tid : Int)
  | resume (tid : Int)
  | changePriority (tid priority : Int)
  | tick
deriving DecidableEq, Repr

/-- The state after an operation, when there is one (`uthread_terminate(0)`
exits the process; undefined behaviour has no state). -/
def applyOp (g : Globals) : Op → Option Globals
  | .spawn priority => (uthread_spawn g priority).map Prod.snd
  | .terminate tid =>
    match uthread_terminate g tid with
    | some (.returned _ g') => some g'
    | some (.switched g') => some g'
    | _ => none
  | .block tid => (uthread_block g tid).map Prod.snd
  | .resume tid => (uthread_resume g tid).map Prod.snd
  | .changePriority tid priority => (uthread_change_priority g tid priority).map Prod.snd
  | .tick => switchThreads g

/-- Whether the operation reaches a call of `switchThreads`: the timer tick,
and `uthread_block` and `uthread_terminate` of a thread other than main whose
state is RUNNING. -/
def invokesSwitch (g : Globals) : Op → Bool
  | .tick => true
  | .block tid => decide (tid ≠ MAIN_THREAD) && decide (stateOf g tid = some RUNNING)
  | .terminate tid => decide (tid ≠ MAIN_THREAD) && decide (stateOf g tid = some RUNNING)
  | _ => false

/-- The state after a list of operations, when all of them have one. -/
def run (g : Globals) : List Op → Option Globals
  | [] => some g
  | op :: ops =>
    match applyOp g op with
    | none => none
    | some g' => run g' ops

/-- The number of operations of a run that reach a call of `switchThreads`. -/
def switchCount (g : Globals) : List Op → Nat
  | [] => 0
  | op :: ops =>
    match applyOp g op with
    | none => 0
    | some g' => (if invokesSwitch g op then 1 else 0) + switchCount g' ops

/-- What an operation does to a consistent state; the flag tells whether
`switchThreads` was called. -/
inductive Effect (g : Globals) : Bool → Globals → Prop
  | unchanged : Effect g false g
  | spawned (r q priority : Int) (hfree : g.scheduler.thread r = none)
      (hid : g.scheduler.getAvailableID = r) (hr : 0 < r ∧ r < 100)
      (hq : arrayAt g.scheduler._quantum_usecs priority = some q) :
      Effect g false (spawnedState g r q priority)
  | removedBlocked (tid : Int) (t : Thread) (ht : g.scheduler.thread tid = some t)
      (hs : t._state = BLOCKED) : Effect g false (removedBlocked g tid)
  | removedReady (tid : Int) (t : Thread) (ht : g.scheduler.thread tid = some t)
      (hs : t._state = READY) (hne : tid ≠ MAIN_THREAD) : Effect g false (removedReady g tid)
  | blockedReady (tid : Int) (t : Thread) (ht : g.scheduler.thread tid = some t)
      (hs : t._state = READY) (hne : tid ≠ MAIN_THREAD) :
      Effect g false (blockedState
        { timer := g.timer, scheduler := g.scheduler.removeFromReadyThreadsQueue tid } tid t)
  | resumed (tid : Int) (t : Thread) (ht : g.scheduler.thread tid = some t)
      (hs : t._state = BLOCKED) : Effect g false (resumedState g tid t)
  | reprioritised (tid : Int) (t : Thread) (priority : Int)
      (ht : g.scheduler.thread tid = some t) (hp : 0 ≤ priority) :
      Effect g false { timer := g.timer, scheduler := g.scheduler.put (t.setPriority priority) }
  | selfTerminated (tid : Int) (t : Thread) (h : Int) (tl : List Int) (hT : Thread)
      (hr : g.scheduler._runningThread = some tid) (ht : g.scheduler.thread tid = some t)
      (hne : tid ≠ MAIN_THREAD) (hq : g.scheduler._readyThreadsQueue = h :: tl)
      (hh : g.scheduler.thread h = some hT) (hne2 : h ≠ tid) :
      Effect g true (dispatched (retiredState g tid t) h hT tl)
  | selfBlocked (tid : Int) (t : Thread) (h : Int) (tl : List Int) (hT : Thread)
      (hr : g.scheduler._runningThread = some tid) (ht : g.scheduler.thread tid = some t)
      (hne : tid ≠ MAIN_THREAD) (hq : g.scheduler._readyThreadsQueue = h :: tl)
      (hh : g.scheduler.thread h = some hT) (hne2 : h ≠ tid) :
      Effect g true (dispatched (blockedState g tid t) h hT tl)
  | stayed (cur : Int) (curT : Thread) (hr : g.scheduler._runningThread = some cur)
      (hc : g.scheduler.thread cur = some curT) (hq : g.scheduler._readyThreadsQueue = []) :
      Effect g true (stayed g curT)
  | preempted (cur : Int) (curT : Thread) (h : Int) (tl : List Int) (hT : Thread)
      (hr : g.scheduler._runningThread = some cur) (hc : g.scheduler.thread cur = some curT)
      (hq : g.scheduler._readyThreadsQueue = h :: tl)
      (hh : g.scheduler.thread h = some hT) (hne2 : h ≠ cur) :
      Effect g true (dispatched (preempted g cur curT) h hT (tl ++ [cur]))

/-- The state after `uthread_init(quantum_usecs, size)` followed by the
operations `ops`, when all of them succeed. -/
def runFromInit (quantum_usecs : List Int) (size : Int) (ops : List Op) : Option Globals :=
  match uthread_init quantum_usecs size with
  | some (_, some g) => run g ops
  | _ => none

/-- Example state: `init([100000, 200000])`, one spawn, two ticks.  Thread 0
runs its second quantum and thread 1 waits. -/
def exRoundRobin : Globals :=
  { timer := { it_interval := { tv_sec := 0, tv_usec := 100000 },
               it_value := { tv_sec := 0, tv_usec := 100000 } },
    scheduler :=
      { _quantum_usecs_size := 2, _quantum_usecs := [100000, 200000], _totalQuantums := 3,
        _runningThread := some 0,
        _threadsMap :=
          [{ _ID := 1, _quantum := 100000, _priority := 0, _state := READY, _countQuantums := 1 },
           { _ID := 0, _quantum := 100000, _priority := 0, _state := RUNNING,
             _countQuantums := 2 }],
        _readyThreadsQueue := [1], _blockedThreadsMap := [], _recentlyDeleted := [] } }

/-- Example state: `init([100000, 200000])`, two spawns, two ticks.  Threads 0,
1 and 2 are live and thread 2 runs. -/
def exThree : Globals :=
  { timer := { it_interval := { tv_sec := 0, tv_usec := 100000 },
               it_value := { tv_sec := 0, tv_usec := 100000 } },
    scheduler :=
      { _quantum_usecs_size := 2, _quantum_usecs := [100000, 200000], _totalQuantums := 3,
        _runningThread := some 2,
        _threadsMap :=
          [{ _ID := 2, _quantum := 100000, _priority := 0, _state := RUNNING,
             _countQuantums := 1 },
           { _ID := 1, _quantum := 100000, _priority := 0, _state := READY, _countQuantums := 1 },
           { _ID := 0, _quantum := 100000, _priority := 0, _state := READY,
             _countQuantums := 1 }],
        _readyThreadsQueue := [0, 1], _blockedThreadsMap := [], _recentlyDeleted := [] } }

/-- Example state: `init([1000000])`, three spawns, a tick, thread 1 blocks
itself, a tick.  Thread 3 runs, thread 1 is blocked, the queue is `[0, 2]`. -/
def exBlocked : Globals :=
  { timer := { it_interval := { tv_sec := 1, tv_usec := 0 },
               it_value := { tv_sec := 1, tv_usec := 0 } },
    scheduler :=
      { _quantum_usecs_size := 1, _quantum_usecs := [1000000], _totalQuantums := 4,
        _runningThread := some 3,
        _threadsMap :=
          [{ _ID := 3, _quantum := 1000000, _priority := 0, _state := RUNNING,
             _countQuantums := 1 },
           { _ID := 2, _quantum := 1000000, _priority := 0, _state := READY,
             _countQuantums := 1 },
           { _ID := 1, _quantum := 1000000, _priority := 0, _state := BLOCKED,
             _countQuantums := 1 },
           { _ID := 0, _quantum := 1000000, _priority := 0, _state := READY,
             _countQuantums := 1 }],
        _readyThreadsQueue := [0, 2], _blockedThreadsMap := [1], _recentlyDeleted := [] } }

/-- Example execution: the state `i` timer ticks after `exThree`. -/
def exTicks (i : Nat) : Globals :=
  (run exThree (List.replicate i Op.tick)).getD exThree

/-- The sum of the quantum counts of the records in the thread table. -/
def liveQuantums (s : Scheduler) : Int :=
  (s._threadsMap.map Thread.getCountQuantums).sum

/-- The quantum counts that leave the table between `g` and `g'`: the sum of
the counts of the records of `g` whose id has no record in `g'`. -/
def retiredQuantums (g g' : Globals) : Int :=
  ((g.scheduler._threadsMap.filter
      (fun t => !g'.scheduler.containsKeyThreadsMap t._ID)).map Thread.getCountQuantums).sum

/-- The quantum counts that have left the table along a run. -/
def retiredAlong (g : Globals) : List Op → Int
  | [] => 0
  | op :: ops =>
    match applyOp g op with
    | none => 0
    | some g' => retiredQuantums g g' + retiredAlong g' ops

/-- The right-hand side of invariant 5 of the specification,
`1 + Σ_id (quantum_count - 1_{has_run})`, a thread having run when its count
is at least 1. -/
def specTotalQuantums (g : Globals) : Int :=
  1 + (g.scheduler._threadsMap.map
        (fun t => t.getCountQuantums - (if 1 ≤ t.getCountQuantums then 1 else 0))).sum

/-- What a public function does, in program order, as far as the timer signal
is concerned: the calls of `blockSig` and `unblockSig`, and the reads and
writes of the scheduler state (the `scheduler` pointer and all it reaches). -/
inductive SigEvent
  | blockSig
  | unblockSig
  | read
  | write
deriving DecidableEq, Repr

/-- The "timer signal masked" flag after a sequence of events, starting from
`masked`; `none` when the scheduler state is read or written while the flag is
off.  `sigprocmask` keeps no count: one `unblockSig` undoes any number of
`blockSig`. -/
def maskAfter : Bool → List SigEvent → Option Bool
  | masked, [] => some masked
  | _, .blockSig :: es => maskAfter true es
  | _, .unblockSig :: es => maskAfter false es
  | masked, .read :: es => if masked then maskAfter masked es else none
  | masked, .write :: es => if masked then maskAfter masked es else none

/-- A call entered with the signal unmasked touches the scheduler state only
while the signal is masked and returns with the signal unmasked. -/
def disciplined (es : List SigEvent) : Bool := maskAfter false es == some false

/-- Some write of the sequence happens while the flag is off. -/
def writesUnmasked : Bool → List SigEvent → Bool
  | _, [] => false
  | _, .blockSig :: es => writesUnmasked true es
  | _, .unblockSig :: es => writesUnmasked false es
  | masked, .read :: es => writesUnmasked masked es
  | masked, .write :: es => !masked || writesUnmasked masked es

/-- The events of `uthread_spawn`: `blockSig`, `getAvailableID`, then either the
error return, or the read of `quantum_usecs[priority]`, `addReadyThreadsQueue`
for a thread other than main, `addThreadsMap`, `unblockSig`. -/
def uthread_spawn_events (g : Globals) (_priority : Int) : List SigEvent :=
  [.blockSig, .read] ++
    (if g.scheduler.getAvailableID = FAIL then [.unblockSig]
     else
       .read ::
         ((if g.scheduler.getAvailableID = MAIN_THREAD then [] else [.write])
           ++ [.write, .unblockSig]))

/-- The events of `uthread_init`: `blockSig`, then either the error return, or
the allocation of the scheduler, the nested call of `uthread_spawn`,
`setRunningThread` and `setTimer` with their reads of the table, `unblockSig`. -/
def uthread_init_events (quantum_usecs : List Int) (size : Int) : List SigEvent :=
  .blockSig ::
    (if size ≤ 0 then [.unblockSig]
     else
       match isNonPositive quantum_usecs size with
       | some false =>
         .write ::
           (uthread_spawn_events
               { timer := { it_interval := { tv_sec := 0, tv_usec := 0 },
                            it_value := { tv_sec := 0, tv_usec := 0 } },
                 scheduler := Scheduler.new quantum_usecs size } MAIN_THREAD
             ++ [.read, .write, .read, .unblockSig])
       | _ => [.unblockSig])

/-- The events of `uthread_change_priority`: `containsKeyThreadsMap`, and on
the success path the lookup of the record and `setPriority`.  The function
calls neither `blockSig` nor `unblockSig`. -/
def uthread_change_priority_events (g : Globals) (tid priority : Int) : List SigEvent :=
  .read ::
    (if !g.scheduler.containsKeyThreadsMap tid then []
     else if priority < 0 then []
     else [.read, .write])

/-- The events of `uthread_resume`. -/
def uthread_resume_events (g : Globals) (tid : Int) : List SigEvent :=
  [.blockSig, .read] ++
    (if !g.scheduler.containsKeyThreadsMap tid then [.unblockSig]
     else
       .read ::
         ((if stateOf g tid = some BLOCKED then [.write, .write, .read, .write] else [])
           ++ [.unblockSig]))

/-- The events of `uthread_get_tid`: no call of `blockSig`. -/
def uthread_get_tid_events : List SigEvent := [.read, .read]

/-- The events of `uthread_get_total_quantums`: no call of `blockSig`. -/
def uthread_get_total_quantums_events : List SigEvent := [.read]

/-- The events of `uthread_get_quantums`: on the success path `unblockSig`
comes before the read of the count. -/
def uthread_get_quantums_events (g : Globals) (tid : Int) : List SigEvent :=
  [.blockSig, .read] ++
    (if !g.scheduler.containsKeyThreadsMap tid then [.unblockSig]
     else [.unblockSig, .read, .read])

/-- Whether the operation is a call of `uthread_terminate` that does not
return -1: `tid` is a key of the table. -/
def terminateSucceeds (g : Globals) : Op → Bool
  | .terminate tid => g.scheduler.containsKeyThreadsMap tid
  | _ => false

/-- No call of `uthread_terminate` succeeds along the run. -/
def noTerminateAlong (g : Globals) : List Op → Bool
  | [] => true
  | op :: ops =>
    !terminateSucceeds g op &&
      (match applyOp g op with
       | none => true
       | some g' => noTerminateAlong g' ops)

/-- The thread at the front of the ready queue, if there is one, has a
positive quantum: the condition under which the `setitimer` call of the next
dispatch gets a valid interval. -/
def nextQuantumPositive (g : Globals) : Bool :=
  match g.scheduler.getReadyThreadsQueue.head? with
  | none => true
  | some h =>
    match g.scheduler.thread h with
    | none => true
    | some hT => decide (0 < hT.getQuantum)

/-- Consistency of the bookkeeping in the middle of a switch, when the outgoing
thread has been put away and no thread has been switched in yet: every record
is READY or BLOCKED. -/
structure Parked (g : Globals) : Prop where
  ready_iff : ∀ id, id ∈ g.scheduler._readyThreadsQueue ↔
    ∃ t, g.scheduler.thread id = some t ∧ t._state = READY
  blocked_iff : ∀ id, id ∈ g.scheduler._blockedThreadsMap ↔
    ∃ t, g.scheduler.thread id = some t ∧ t._state = BLOCKED
  parked : ∀ id t, g.scheduler.thread id = some t → t._state = READY ∨ t._state = BLOCKED
  ready_nodup : g.scheduler._readyThreadsQueue.Nodup
  main_ready : ∃ t, g.scheduler.thread MAIN_THREAD = some t ∧ t._state = READY

/-- Consistency of the bookkeeping between two operations. -/
structure Inv (g : Globals) : Prop where
  has_running : ∃ r, g.scheduler._runningThread = some r
  running_iff : ∀ id, g.scheduler._runningThread = some id ↔
    ∃ t, g.scheduler.thread id = some t ∧ t._state = RUNNING
  ready_iff : ∀ id, id ∈ g.scheduler._readyThreadsQueue ↔
    ∃ t, g.scheduler.thread id = some t ∧ t._state = READY
  blocked_iff : ∀ id, id ∈ g.scheduler._blockedThreadsMap ↔
    ∃ t, g.scheduler.thread id = some t ∧ t._state = BLOCKED
  not_terminated : ∀ id t, g.scheduler.thread id = some t → t._state ≠ TERMINATED
  ready_nodup : g.scheduler._readyThreadsQueue.Nodup
  main_runnable : ∃ t, g.scheduler.thread MAIN_THREAD = some t ∧
    (t._state = RUNNING ∨ t._state = READY)

/-! ## Lookup lemmas -/

theorem find_id_eq (l : List Thread) (id : Int) (t : Thread)
    (h : l.find? (fun t => decide (t._ID = id)) = some t) : t._ID = id := by
  have := List.find?_some h
  simpa using this

theorem find_replace (l : List Thread) (p : Int) (t' : Thread) (hid : t'._ID = p) (id : Int) :
    (l.map (fun x => if x._ID = p then t' else x)).find? (fun t => decide (t._ID = id))
      = if id = p then (l.find? (fun t => decide (t._ID = p))).map (fun _ => t')
        else l.find? (fun t => decide (t._ID = id)) := by
  induction l with
  | nil => simp
  | cons a l ih =>
    simp only [List.map_cons, List.find?_cons]
    by_cases ha : a._ID = p
    · by_cases hip : id = p
      · subst hip; simp [ha, hid]
      · have : ¬ p = id := fun h => hip h.symm
        simp [ha, hid, hip, this, ih]
    · by_cases hip : id = p
      · subst hip; simp [ha, ih]
      · simp only [ha, if_false, hip]
        by_cases hai : a._ID = id
        · simp [hai]
        · simp [hai, ih, hip]

theorem find_remove (l : List Thread) (p id : Int) :
    (l.filter (fun t => decide (t._ID ≠ p))).find? (fun t => decide (t._ID = id))
      = if id = p then none else l.find? (fun t => decide (t._ID = id)) := by
  induction l with
  | nil => simp
  | cons a l ih =>
    simp only [List.filter_cons, List.find?_cons]
    by_cases ha : a._ID = p
    · simp only [ha, ne_eq, not_true_eq_false, decide_False, Bool.false_eq_true, if_false, ih]
      by_cases hip : id = p
      · simp [hip]
      · have : ¬ p = id := fun h => hip h.symm
        simp [hip, this]
    · simp only [ha, ne_eq, not_false_eq_true, decide_True, if_true, List.find?_cons, ih]
      by_cases hai : a._ID = id
      · have : ¬ id = p := fun h => ha (hai.trans h)
        simp [hai, this]
      · simp [hai]

theorem thread_id {s : Scheduler} {id : Int} {t : Thread} (h : s.thread id = some t) :
    t._ID = id := find_id_eq _ _ _ h

theorem thread_addThreadsMap (s : Scheduler) (t : Thread) (id : Int) :
    (s.addThreadsMap t).thread id = if id = t._ID then some t else s.thread id := by
  unfold Scheduler.thread Scheduler.addThreadsMap Thread.getID
  by_cases h : id = t._ID
  · subst h; simp
  · have : ¬ t._ID = id := fun e => h e.symm
    simp only [List.find?_cons, this, decide_False, find_remove, h, if_false]

theorem thread_removeFromThreadsMap (s : Scheduler) (tid id : Int) :
    (s.removeFromThreadsMap tid).thread id = if id = tid then none else s.thread id := by
  unfold Scheduler.thread Scheduler.removeFromThreadsMap
  exact find_remove _ _ _

theorem update_spec {s s' : Scheduler} {p : Int} {f : Thread → Option Thread}
    (h : s.update p f = some s') :
    ∃ t t', s.thread p = some t ∧ f t = some t' ∧
      s' = { s with _threadsMap := s._threadsMap.map (fun x => if x._ID = p then t' else x) } := by
  unfold Scheduler.update at h
  split at h
  · exact absurd h (by simp)
  · rename_i t ht
    split at h
    · exact absurd h (by simp)
    · rename_i t' ht'
      exact ⟨t, t', ht, ht', (Option.some.inj h).symm⟩

theorem thread_replace (s : Scheduler) (p : Int) (t' : Thread) (hid : t'._ID = p) (id : Int) :
    ({ s with _threadsMap := s._threadsMap.map (fun x => if x._ID = p then t' else x) } :
        Scheduler).thread id
      = if id = p then (s.thread p).map (fun _ => t') else s.thread id := by
  unfold Scheduler.thread
  exact find_replace _ _ _ hid _

theorem thread_put (s : Scheduler) (t : Thread) (id : Int) :
    (s.put t).thread id = if id = t._ID then (s.thread t._ID).map (fun _ => t) else s.thread id :=
  thread_replace s t._ID t rfl id

theorem put_put (s : Scheduler) (t1 t2 : Thread) (h : t1._ID = t2._ID) :
    (s.put t1).put t2 = s.put t2 := by
  unfold Scheduler.put
  simp only [List.map_map, h]
  congr 1
  apply List.map_congr_left
  intro x _
  by_cases hx : x._ID = t2._ID
  · simp [hx, h]
  · simp [hx]

theorem update_iff (s s' : Scheduler) (p : Int) (f : Thread → Option Thread)
    (hf : ∀ t t', f t = some t' → t'._ID = t._ID) :
    s.update p f = some s' ↔ ∃ t t', s.thread p = some t ∧ f t = some t' ∧ s' = s.put t' := by
  constructor
  · intro h
    obtain ⟨t, t', ht, hft, hs⟩ := update_spec h
    refine ⟨t, t', ht, hft, ?_⟩
    rw [hs]
    unfold Scheduler.put
    rw [hf t t' hft, thread_id ht]
  · rintro ⟨t, t', ht, hft, hs⟩
    unfold Scheduler.update
    rw [ht]
    simp only [hft]
    rw [hs]
    unfold Scheduler.put
    rw [hf t t' hft, thread_id ht]

theorem setState_iff (s s' : Scheduler) (p : Int) (st : States) :
    s.setState p st = some s' ↔ ∃ t, s.thread p = some t ∧ s' = s.put (t.setState st) := by
  unfold Scheduler.setState
  rw [update_iff _ _ _ _ (by intro t t' h; cases h; rfl)]
  constructor
  · rintro ⟨t, t', ht, hft, hs⟩
    cases hft
    exact ⟨t, ht, hs⟩
  · rintro ⟨t, ht, hs⟩
    exact ⟨t, _, ht, rfl, hs⟩

theorem setPriority_iff (s s' : Scheduler) (p : Int) (pr : Int) :
    s.setPriority p pr = some s' ↔ ∃ t, s.thread p = some t ∧ s' = s.put (t.setPriority pr) := by
  unfold Scheduler.setPriority
  rw [update_iff _ _ _ _ (by intro t t' h; cases h; rfl)]
  constructor
  · rintro ⟨t, t', ht, hft, hs⟩
    cases hft
    exact ⟨t, ht, hs⟩
  · rintro ⟨t, ht, hs⟩
    exact ⟨t, _, ht, rfl, hs⟩

theorem setCountQuantums_iff (s s' : Scheduler) (p : Int) :
    s.setCountQuantums p = some s' ↔ ∃ t, s.thread p = some t ∧
      s' = s.put { t with _countQuantums := t._countQuantums + 1 } := by
  unfold Scheduler.setCountQuantums
  rw [update_iff _ _ _ _ (by intro t t' h; cases h; rfl)]
  constructor
  · rintro ⟨t, t', ht, hft, hs⟩
    cases hft
    exact ⟨t, ht, hs⟩
  · rintro ⟨t, ht, hs⟩
    exact ⟨t, _, ht, rfl, hs⟩

theorem setState_eq {s : Scheduler} {p : Int} {t : Thread} (st : States)
    (h : s.thread p = some t) : s.setState p st = some (s.put (t.setState st)) :=
  (setState_iff _ _ _ _).2 ⟨t, h, rfl⟩

theorem setCountQuantums_eq {s : Scheduler} {p : Int} {t : Thread}
    (h : s.thread p = some t) :
    s.setCountQuantums p = some (s.put { t with _countQuantums := t._countQuantums + 1 }) :=
  (setCountQuantums_iff _ _ _).2 ⟨t, h, rfl⟩

theorem switchIn_eq (g : Globals) (h : Int) (rest : List Int) (hT : Thread)
    (hq : g.scheduler._readyThreadsQueue = h :: rest)
    (hh : g.scheduler.thread h = some hT) :
    switchIn g = some (dispatched g h hT rest) := by
  have hid : hT._ID = h := thread_id hh
  have h1 : (g.scheduler.removeFromReadyThreadsQueue hT.getID).thread h = some hT := hh
  have e1 := setState_eq RUNNING h1
  have h2 : (((g.scheduler.removeFromReadyThreadsQueue hT.getID).put
      (hT.setState RUNNING)).setRunningThread h).thread h = some (hT.setState RUNNING) := by
    show ((g.scheduler.removeFromReadyThreadsQueue hT.getID).put (hT.setState RUNNING)).thread h = _
    rw [thread_put]
    simp [Thread.setState, hid, h1]
  unfold switchIn getNextThread
  simp only [Scheduler.getReadyThreadsQueue, hq, List.head?_cons, hh, e1, h2]
  unfold setQuantums
  have h3 : ((setTimer { g with scheduler := ((g.scheduler.removeFromReadyThreadsQueue
      hT.getID).put (hT.setState RUNNING)).setRunningThread h }
        (hT.setState RUNNING).getQuantum).scheduler.setTotalQuantums).thread h
      = some (hT.setState RUNNING) := h2
  rw [setCountQuantums_eq h3]
  simp only [dispatched, Option.some.injEq]
  unfold Scheduler.put setTimer Scheduler.setRunningThread Scheduler.removeFromReadyThreadsQueue
    Thread.setState Thread.getID Thread.getQuantum Scheduler.setTotalQuantums
  simp [hq, hid, List.map_map]
  intro x _
  by_cases hx : x._ID = h <;> simp [hx]

theorem switchIn_iff (g g' : Globals) (h : Int) (rest : List Int)
    (hq : g.scheduler._readyThreadsQueue = h :: rest) :
    switchIn g = some g' ↔ ∃ hT, g.scheduler.thread h = some hT ∧
      g' = dispatched g h hT rest := by
  constructor
  · intro hsw
    cases hh : g.scheduler.thread h with
    | none =>
      unfold switchIn getNextThread at hsw
      simp [Scheduler.getReadyThreadsQueue, hq, hh] at hsw
    | some hT =>
      rw [switchIn_eq g h rest hT hq hh] at hsw
      exact ⟨hT, rfl, (Option.some.inj hsw).symm⟩
  · rintro ⟨hT, hh, rfl⟩
    exact switchIn_eq g h rest hT hq hh

theorem switchOut_eq (s : Scheduler) (cur : Int) (curT : Thread)
    (h : s.thread cur = some curT) :
    switchOut s cur curT = some
      (if curT._state = TERMINATED then
        (s.removeFromThreadsMap cur).addRecentlyDeletedVec curT
      else if curT._state = RUNNING then (s.put (curT.setState READY)).addReadyThreadsQueue cur
      else s) := by
  unfold switchOut
  simp only [Thread.getState, Thread.getID, thread_id h, setState_eq READY h]
  split
  · rfl
  · split <;> rfl

theorem switchThreads_iff (g g' : Globals) :
    switchThreads g = some g' ↔
      ∃ cur curT, g.scheduler._runningThread = some cur ∧ g.scheduler.thread cur = some curT ∧
        ((g.scheduler._readyThreadsQueue = [] ∧ g' = stayed g curT) ∨
         (g.scheduler._readyThreadsQueue ≠ [] ∧ ∃ s1, switchOut g.scheduler cur curT = some s1 ∧
            switchIn { g with scheduler := s1 } = some g')) := by
  constructor
  · intro h
    unfold switchThreads at h
    simp only [Scheduler.getRunningThread, Scheduler.getReadyThreadsQueue] at h
    split at h
    · cases h
    · rename_i cur hr
      split at h
      · cases h
      · rename_i curT hc
        refine ⟨cur, curT, hr, hc, ?_⟩
        split at h
        · rename_i hq
          left
          split at h
          · cases h
          · rename_i s2 hs2
            obtain ⟨t, ht2, rfl⟩ := (setCountQuantums_iff _ _ _).1 hs2
            have : t = curT := Option.some.inj (ht2.symm.trans hc)
            subst this
            exact ⟨by simpa using hq, (Option.some.inj h).symm⟩
        · rename_i hq
          right
          split at h
          · cases h
          · rename_i s1 hs1
            exact ⟨by simpa using hq, s1, hs1, h⟩
  · rintro ⟨cur, curT, hr, hc, hcase⟩
    unfold switchThreads
    simp only [Scheduler.getRunningThread, Scheduler.getReadyThreadsQueue, hr, hc]
    rcases hcase with ⟨hq, rfl⟩ | ⟨hq, s1, hs1, hsw⟩
    · have h3 : ((setTimer g curT.getQuantum).scheduler.setTotalQuantums).thread cur
          = some curT := hc
      have he : g.scheduler._readyThreadsQueue.isEmpty = true := by simp [hq]
      simp only [he, if_true]
      rw [setCountQuantums_eq h3]
      rfl
    · have : g.scheduler._readyThreadsQueue.isEmpty = false := by
        cases hl : g.scheduler._readyThreadsQueue with
        | nil => exact absurd hl hq
        | cons a l => rfl
      simp only [this, hs1, hsw]
      simp

theorem thread_put_of (t0 : Thread) {s : Scheduler} {t : Thread}
    (h : s.thread t._ID = some t0) (id : Int) :
    (s.put t).thread id = if id = t._ID then some t else s.thread id := by
  rw [thread_put, h]; rfl

theorem thread_dispatched {g : Globals} {h : Int} {hT : Thread} (rest : List Int)
    (hh : g.scheduler.thread h = some hT) (id : Int) :
    (dispatched g h hT rest).scheduler.thread id =
      if id = h then some { hT with _state := RUNNING, _countQuantums := hT._countQuantums + 1 }
      else g.scheduler.thread id := by
  have hid : hT._ID = h := thread_id hh
  unfold dispatched
  simp only
  rw [thread_put_of hT]
  · simp only [hid]; rfl
  · simp only [hid]; exact hh

theorem thread_stayed {g : Globals} {cur : Int} {curT : Thread}
    (hc : g.scheduler.thread cur = some curT) (id : Int) :
    (stayed g curT).scheduler.thread id =
      if id = cur then some { curT with _countQuantums := curT._countQuantums + 1 }
      else g.scheduler.thread id := by
  have hid : curT._ID = cur := thread_id hc
  unfold stayed
  simp only
  rw [thread_put_of curT]
  · simp only [hid]; rfl
  · simp only [hid]; exact hc

theorem dispatched_inv {g : Globals} {h : Int} {hT : Thread} {rest : List Int}
    (hP : Parked g) (hq : g.scheduler._readyThreadsQueue = h :: rest)
    (hh : g.scheduler.thread h = some hT) : Inv (dispatched g h hT rest) := by
  have hnd : (h :: rest).Nodup := hq ▸ hP.ready_nodup
  have hnot : h ∉ rest := (List.nodup_cons.1 hnd).1
  have hready : hT._state = READY := by
    obtain ⟨t, ht, hst⟩ := (hP.ready_iff h).1 (by rw [hq]; simp)
    rw [hh] at ht; cases ht; exact hst
  have hr : (dispatched g h hT rest).scheduler._runningThread = some h := rfl
  have hrq : (dispatched g h hT rest).scheduler._readyThreadsQueue = rest := rfl
  have hbl : (dispatched g h hT rest).scheduler._blockedThreadsMap
      = g.scheduler._blockedThreadsMap := rfl
  refine ⟨⟨h, hr⟩, ?_, ?_, ?_, ?_, ?_, ?_⟩
  · intro id
    rw [hr, thread_dispatched rest hh]
    by_cases hid : id = h
    · simp [hid]
    · have : ¬ h = id := fun e => hid e.symm
      simp only [Option.some.injEq, this, hid, if_false, false_iff]
      rintro ⟨t, ht, hst⟩
      rcases hP.parked id t ht with h1 | h1 <;> rw [h1] at hst <;> cases hst
  · intro id
    rw [hrq, thread_dispatched rest hh]
    by_cases hid : id = h
    · subst hid; simp [hnot]
    · simp only [hid, if_false]
      rw [← hP.ready_iff id, hq]
      simp [hid]
  · intro id
    rw [hbl, thread_dispatched rest hh]
    by_cases hid : id = h
    · subst hid
      simp only [if_true, Option.some.injEq]
      constructor
      · intro hb
        obtain ⟨t, ht, hst⟩ := (hP.blocked_iff id).1 hb
        rw [hh] at ht; cases ht; rw [hready] at hst; cases hst
      · rintro ⟨t, rfl, hst⟩; cases hst
    · simp only [hid, if_false]
      exact hP.blocked_iff id
  · intro id t
    rw [thread_dispatched rest hh]
    by_cases hid : id = h
    · simp only [hid, if_true, Option.some.injEq]
      rintro rfl; simp
    · simp only [hid, if_false]
      intro ht hst
      rcases hP.parked id t ht with h1 | h1 <;> rw [h1] at hst <;> cases hst
  · rw [hrq]; exact (List.nodup_cons.1 hnd).2
  · rw [thread_dispatched rest hh]
    by_cases hid : MAIN_THREAD = h
    · simp [hid]
    · obtain ⟨t, ht, hst⟩ := hP.main_ready
      simp only [hid, if_false]
      exact ⟨t, ht, Or.inr hst⟩

theorem stayed_inv {g : Globals} {cur : Int} {curT : Thread} (hI : Inv g)
    (hr : g.scheduler._runningThread = some cur) (hc : g.scheduler.thread cur = some curT) :
    Inv (stayed g curT) := by
  have hr' : (stayed g curT).scheduler._runningThread = g.scheduler._runningThread := rfl
  have hrq : (stayed g curT).scheduler._readyThreadsQueue = g.scheduler._readyThreadsQueue := rfl
  have hbl : (stayed g curT).scheduler._blockedThreadsMap
      = g.scheduler._blockedThreadsMap := rfl
  have key : ∀ id st, (∃ t, (stayed g curT).scheduler.thread id = some t ∧ t._state = st) ↔
      ∃ t, g.scheduler.thread id = some t ∧ t._state = st := by
    intro id st
    rw [thread_stayed hc]
    by_cases hid : id = cur
    · subst hid; simp [hc]
    · simp [hid]
  refine ⟨⟨cur, hr⟩, ?_, ?_, ?_, ?_, ?_, ?_⟩
  · intro id; rw [hr', key]; exact hI.running_iff id
  · intro id; rw [hrq, key]; exact hI.ready_iff id
  · intro id; rw [hbl, key]; exact hI.blocked_iff id
  · intro id t ht hst
    obtain ⟨t0, ht0, hst0⟩ := (key id TERMINATED).1 ⟨t, ht, hst⟩
    exact hI.not_terminated id t0 ht0 hst0
  · rw [hrq]; exact hI.ready_nodup
  · obtain ⟨t, ht, hst⟩ := hI.main_runnable
    rcases hst with h1 | h1
    · obtain ⟨t', ht', hst'⟩ := (key MAIN_THREAD RUNNING).2 ⟨t, ht, h1⟩
      exact ⟨t', ht', Or.inl hst'⟩
    · obtain ⟨t', ht', hst'⟩ := (key MAIN_THREAD READY).2 ⟨t, ht, h1⟩
      exact ⟨t', ht', Or.inr hst'⟩

theorem contains_iff (s : Scheduler) (k : Int) :
    s.containsKeyThreadsMap k = true ↔ ∃ t, s.thread k = some t := by
  unfold Scheduler.containsKeyThreadsMap
  exact Option.isSome_iff_exists

theorem contains_false_iff (s : Scheduler) (k : Int) :
    s.containsKeyThreadsMap k = false ↔ s.thread k = none := by
  unfold Scheduler.containsKeyThreadsMap
  cases s.thread k <;> simp

theorem blockThread_iff (g g1 : Globals) (tid : Int) :
    blockThread g tid = some g1 ↔ ∃ t, g.scheduler.thread tid = some t ∧
      g1 = blockedState g tid t := by
  unfold blockThread
  cases ht : g.scheduler.thread tid with
  | none => simp
  | some t =>
    have h1 : (g.scheduler.addBlockedThreadsMap t.getID).thread tid = some t := ht
    simp only [setState_eq BLOCKED h1, Option.some.injEq, exists_eq_left']
    unfold blockedState
    rw [show t.getID = tid from thread_id ht]
    exact eq_comm

theorem resumeThread_iff (g g1 : Globals) (tid : Int) :
    resumeThread g tid = some g1 ↔ ∃ t, g.scheduler.thread tid = some t ∧
      g1 = resumedState g tid t := by
  unfold resumeThread
  cases ht : g.scheduler.thread tid with
  | none =>
    have : g.scheduler.setState tid READY = none := by
      cases h : g.scheduler.setState tid READY with
      | none => rfl
      | some s' =>
        obtain ⟨t, h1, _⟩ := (setState_iff _ _ _ _).1 h
        rw [ht] at h1; cases h1
    simp [this]
  | some t =>
    have hid : t._ID = tid := thread_id ht
    have h2 : ((g.scheduler.put (t.setState READY)).removeFromBlockedThreadsMap tid).thread tid
        = some (t.setState READY) := by
      show (g.scheduler.put (t.setState READY)).thread tid = _
      rw [thread_put]
      simp [Thread.setState, hid, ht]
    simp only [setState_eq READY ht, h2, Option.some.injEq, exists_eq_left']
    unfold resumedState
    rw [show (t.setState READY).getID = tid from hid]
    exact eq_comm

theorem uthread_resume_iff (g g' : Globals) (tid r : Int) :
    uthread_resume g tid = some (r, g') ↔
      (g.scheduler.thread tid = none ∧ r = FAIL ∧ g' = g) ∨
      (∃ t, g.scheduler.thread tid = some t ∧ r = SUCCESS ∧
        ((t._state = BLOCKED ∧ g' = resumedState g tid t) ∨ (t._state ≠ BLOCKED ∧ g' = g))) := by
  unfold uthread_resume
  cases ht : g.scheduler.thread tid with
  | none =>
    have := (contains_false_iff g.scheduler tid).2 ht
    simp only [this, Bool.not_false, if_true, Option.some.injEq, Prod.mk.injEq]
    constructor
    · rintro ⟨rfl, rfl⟩; simp
    · rintro (⟨_, rfl, rfl⟩ | ⟨t, h, _⟩)
      · simp
      · cases h
  | some t =>
    have := (contains_iff g.scheduler tid).2 ⟨t, ht⟩
    simp only [this, Bool.not_true, Bool.false_eq_true, if_false, Thread.getState]
    by_cases hb : t._state = BLOCKED
    · have e : resumeThread g tid = some (resumedState g tid t) :=
        (resumeThread_iff _ _ _).2 ⟨t, ht, rfl⟩
      simp only [hb, if_true, e, Option.some.injEq, Prod.mk.injEq]
      constructor
      · rintro ⟨rfl, rfl⟩; simp [hb]
      · rintro (⟨h, _⟩ | ⟨t', h, rfl, hc⟩)
        · cases h
        · cases h
          rcases hc with ⟨_, rfl⟩ | ⟨h1, _⟩
          · simp
          · exact absurd hb h1
    · simp only [hb, if_false, Option.some.injEq, Prod.mk.injEq]
      constructor
      · rintro ⟨rfl, rfl⟩; simp [hb]
      · rintro (⟨h, _⟩ | ⟨t', h, rfl, hc⟩)
        · cases h
        · cases h
          rcases hc with ⟨h1, _⟩ | ⟨_, rfl⟩
          · exact absurd h1 hb
          · simp

theorem uthread_change_priority_iff (g g' : Globals) (tid priority r : Int) :
    uthread_change_priority g tid priority = some (r, g') ↔
      (g.scheduler.thread tid = none ∧ r = FAIL ∧ g' = g) ∨
      (∃ t, g.scheduler.thread tid = some t ∧
        ((priority < 0 ∧ r = FAIL ∧ g' = g) ∨
         (0 ≤ priority ∧ r = SUCCESS ∧
            g' = { g with scheduler := g.scheduler.put (t.setPriority priority) }))) := by
  unfold uthread_change_priority
  cases ht : g.scheduler.thread tid with
  | none =>
    have := (contains_false_iff g.scheduler tid).2 ht
    simp only [this, Bool.not_false, if_true, Option.some.injEq, Prod.mk.injEq]
    constructor
    · rintro ⟨rfl, rfl⟩; simp
    · rintro (⟨_, rfl, rfl⟩ | ⟨t, h, _⟩)
      · simp
      · cases h
  | some t =>
    have := (contains_iff g.scheduler tid).2 ⟨t, ht⟩
    simp only [this, Bool.not_true, Bool.false_eq_true, if_false]
    by_cases hp : priority < 0
    · simp only [hp, if_true, Option.some.injEq, Prod.mk.injEq]
      constructor
      · rintro ⟨rfl, rfl⟩; simp [hp]
      · rintro (⟨h, _⟩ | ⟨t', h, hc⟩)
        · cases h
        · rcases hc with ⟨_, rfl, rfl⟩ | ⟨h1, _⟩
          · simp
          · omega
    · have e : g.scheduler.setPriority tid priority
          = some (g.scheduler.put (t.setPriority priority)) :=
        (setPriority_iff _ _ _ _).2 ⟨t, ht, rfl⟩
      simp only [hp, if_false, e, Option.some.injEq, Prod.mk.injEq]
      constructor
      · rintro ⟨rfl, rfl⟩
        right
        exact ⟨t, rfl, Or.inr ⟨by omega, rfl, rfl⟩⟩
      · rintro (⟨h, _⟩ | ⟨t', h, hc⟩)
        · cases h
        · cases h
          rcases hc with ⟨h1, _⟩ | ⟨_, rfl, rfl⟩
          · exact h1.elim
          · simp

theorem uthread_block_iff (g g' : Globals) (tid r : Int) :
    uthread_block g tid = some (r, g') ↔
      (g.scheduler.thread tid = none ∧ r = FAIL ∧ g' = g) ∨
      (∃ t, g.scheduler.thread tid = some t ∧
        ((tid = MAIN_THREAD ∧ r = FAIL ∧ g' = g) ∨
         (tid ≠ MAIN_THREAD ∧ r = SUCCESS ∧
           ((t._state = RUNNING ∧ switchThreads (blockedState g tid t) = some g') ∨
            (t._state = READY ∧ g' = blockedState
              { g with scheduler := g.scheduler.removeFromReadyThreadsQueue tid } tid t) ∨
            (t._state ≠ RUNNING ∧ t._state ≠ READY ∧ g' = g))))) := by
  unfold uthread_block
  cases ht : g.scheduler.thread tid with
  | none =>
    have := (contains_false_iff g.scheduler tid).2 ht
    simp only [this, Bool.not_false, if_true, Option.some.injEq, Prod.mk.injEq]
    constructor
    · rintro ⟨rfl, rfl⟩; simp
    · rintro (⟨_, rfl, rfl⟩ | ⟨t, h, _⟩)
      · simp
      · cases h
  | some t =>
    have := (contains_iff g.scheduler tid).2 ⟨t, ht⟩
    simp only [this, Bool.not_true, Bool.false_eq_true, if_false, Thread.getState]
    by_cases hm : tid = MAIN_THREAD
    · simp only [hm, if_true, Option.some.injEq, Prod.mk.injEq]
      constructor
      · rintro ⟨rfl, rfl⟩; simp
      · rintro (⟨h, _⟩ | ⟨t', _, hc⟩)
        · cases h
        · rcases hc with ⟨_, rfl, rfl⟩ | ⟨h1, _⟩
          · simp
          · exact absurd rfl h1
    · simp only [hm, if_false]
      by_cases hs : t._state = RUNNING
      · have e : blockThread g tid = some (blockedState g tid t) :=
          (blockThread_iff _ _ _).2 ⟨t, ht, rfl⟩
        simp only [hs, if_true, e]
        constructor
        · intro h
          right
          refine ⟨t, rfl, Or.inr ⟨hm, ?_⟩⟩
          cases hsw : switchThreads (blockedState g tid t) with
          | none => rw [hsw] at h; cases h
          | some g2 =>
            rw [hsw] at h
            simp only [Option.some.injEq, Prod.mk.injEq] at h
            obtain ⟨rfl, rfl⟩ := h
            exact ⟨rfl, Or.inl ⟨hs, rfl⟩⟩
        · rintro (⟨h, _⟩ | ⟨t', h, hc⟩)
          · cases h
          · cases h
            rcases hc with ⟨h1, _⟩ | ⟨_, rfl, hc⟩
            · exact h1.elim
            · rcases hc with ⟨_, hsw⟩ | ⟨h1, _⟩ | ⟨h1, _⟩
              · rw [hsw]
              · rw [hs] at h1; cases h1
              · exact absurd hs h1
      · by_cases hs2 : t._state = READY
        · have e : blockThread { g with scheduler := g.scheduler.removeFromReadyThreadsQueue tid }
              tid = some (blockedState
                { g with scheduler := g.scheduler.removeFromReadyThreadsQueue tid } tid t) :=
            (blockThread_iff _ _ _).2 ⟨t, ht, rfl⟩
          simp only [hs, if_false, hs2, if_true, e, Option.some.injEq, Prod.mk.injEq]
          constructor
          · rintro ⟨rfl, rfl⟩
            right
            exact ⟨t, rfl, Or.inr ⟨hm, rfl, Or.inr (Or.inl ⟨hs2, rfl⟩)⟩⟩
          · rintro (⟨h, _⟩ | ⟨t', h, hc⟩)
            · cases h
            · cases h
              rcases hc with ⟨h1, _⟩ | ⟨_, rfl, hc⟩
              · exact h1.elim
              · rcases hc with ⟨h1, _⟩ | ⟨_, rfl⟩ | ⟨_, h1, _⟩
                · exact absurd h1 hs
                · simp
                · exact absurd hs2 h1
        · simp only [hs, if_false, hs2, Option.some.injEq, Prod.mk.injEq]
          constructor
          · rintro ⟨rfl, rfl⟩
            right
            exact ⟨t, rfl, Or.inr ⟨hm, rfl, Or.inr (Or.inr ⟨hs, hs2, rfl⟩)⟩⟩
          · rintro (⟨h, _⟩ | ⟨t', h, hc⟩)
            · cases h
            · cases h
              rcases hc with ⟨h1, _⟩ | ⟨_, rfl, hc⟩
              · exact h1.elim
              · rcases hc with ⟨h1, _⟩ | ⟨h1, _⟩ | ⟨_, _, rfl⟩
                · exact absurd h1 hs
                · exact absurd h1 hs2
                · simp

theorem uthread_terminate_iff (g : Globals) (tid : Int) (res : TerminateResult) :
    uthread_terminate g tid = some res ↔
      (g.scheduler.thread tid = none ∧ res = .returned FAIL g) ∨
      (∃ t, g.scheduler.thread tid = some t ∧
        ((tid = MAIN_THREAD ∧ res = .exited SUCCESS) ∨
         (tid ≠ MAIN_THREAD ∧
           ((t._state = RUNNING ∧ ∃ g', switchThreads
                { g with scheduler := g.scheduler.put (t.setState TERMINATED) } = some g' ∧
                res = if g.scheduler._readyThreadsQueue = [] then .returned SUCCESS g'
                      else .switched g') ∨
            (t._state = BLOCKED ∧ res = .returned SUCCESS (removedBlocked g tid)) ∨
            (t._state = READY ∧ res = .returned SUCCESS (removedReady g tid)) ∨
            (t._state = TERMINATED ∧ res = .returned SUCCESS g))))) := by
  unfold uthread_terminate
  cases ht : g.scheduler.thread tid with
  | none =>
    have := (contains_false_iff g.scheduler tid).2 ht
    simp only [this, Bool.not_false, if_true, Option.some.injEq]
    constructor
    · rintro rfl; simp
    · rintro (⟨_, rfl⟩ | ⟨t, h, _⟩)
      · rfl
      · cases h
  | some t =>
    have := (contains_iff g.scheduler tid).2 ⟨t, ht⟩
    simp only [this, Bool.not_true, Bool.false_eq_true, if_false, Thread.getState]
    by_cases hm : tid = MAIN_THREAD
    · simp only [hm, ne_eq, not_true_eq_false, if_false, Option.some.injEq]
      constructor
      · rintro rfl; simp
      · rintro (⟨h, _⟩ | ⟨t', _, hc⟩)
        · cases h
        · rcases hc with ⟨_, rfl⟩ | ⟨h1, _⟩
          · rfl
          · exact h1.elim
    · simp only [hm, ne_eq, not_false_eq_true, if_true]
      have e := setState_eq TERMINATED ht
      cases hs : t._state with
      | RUNNING =>
        simp only [e, switchReturns, Scheduler.getReadyThreadsQueue, List.isEmpty_iff]
        have hq : (g.scheduler.put (t.setState TERMINATED))._readyThreadsQueue
            = g.scheduler._readyThreadsQueue := rfl
        simp only [hq]
        constructor
        · intro h
          right
          refine ⟨t, rfl, Or.inr ⟨trivial, Or.inl ⟨hs, ?_⟩⟩⟩
          cases hsw : switchThreads { g with scheduler := g.scheduler.put (t.setState TERMINATED) } with
          | none => rw [hsw] at h; cases h
          | some g2 =>
            rw [hsw] at h
            simp only at h
            refine ⟨g2, rfl, ?_⟩
            split at h
            · rename_i hq2; rw [if_pos hq2]; exact (Option.some.inj h).symm
            · rename_i hq2; rw [if_neg hq2]; exact (Option.some.inj h).symm
        · rintro (⟨h, _⟩ | ⟨t', h, hc⟩)
          · cases h
          · cases h
            rcases hc with ⟨h1, _⟩ | ⟨_, hc⟩
            · exact h1.elim
            · rcases hc with ⟨_, g2, hsw, rfl⟩ | ⟨h1, _⟩ | ⟨h1, _⟩ | ⟨h1, _⟩
              · rw [hsw]
                simp only
                split <;> rfl
              · rw [hs] at h1; cases h1
              · rw [hs] at h1; cases h1
              · rw [hs] at h1; cases h1
      | BLOCKED =>
        simp only [Option.some.injEq]
        constructor
        · rintro rfl
          right
          exact ⟨t, rfl, Or.inr ⟨trivial, Or.inr (Or.inl ⟨hs, rfl⟩)⟩⟩
        · rintro (⟨h, _⟩ | ⟨t', h, hc⟩)
          · cases h
          · cases h
            rcases hc with ⟨h1, _⟩ | ⟨_, hc⟩
            · exact h1.elim
            · rcases hc with ⟨h1, _⟩ | ⟨_, rfl⟩ | ⟨h1, _⟩ | ⟨h1, _⟩
              · rw [hs] at h1; cases h1
              · rfl
              · rw [hs] at h1; cases h1
              · rw [hs] at h1; cases h1
      | READY =>
        simp only [Option.some.injEq]
        constructor
        · rintro rfl
          right
          exact ⟨t, rfl, Or.inr ⟨trivial, Or.inr (Or.inr (Or.inl ⟨hs, rfl⟩))⟩⟩
        · rintro (⟨h, _⟩ | ⟨t', h, hc⟩)
          · cases h
          · cases h
            rcases hc with ⟨h1, _⟩ | ⟨_, hc⟩
            · exact h1.elim
            · rcases hc with ⟨h1, _⟩ | ⟨h1, _⟩ | ⟨_, rfl⟩ | ⟨h1, _⟩
              · rw [hs] at h1; cases h1
              · rw [hs] at h1; cases h1
              · rfl
              · rw [hs] at h1; cases h1
      | TERMINATED =>
        simp only [Option.some.injEq]
        constructor
        · rintro rfl
          right
          exact ⟨t, rfl, Or.inr ⟨trivial, Or.inr (Or.inr (Or.inr ⟨hs, rfl⟩))⟩⟩
        · rintro (⟨h, _⟩ | ⟨t', h, hc⟩)
          · cases h
          · cases h
            rcases hc with ⟨h1, _⟩ | ⟨_, hc⟩
            · exact h1.elim
            · rcases hc with ⟨h1, _⟩ | ⟨h1, _⟩ | ⟨h1, _⟩ | ⟨_, rfl⟩
              · rw [hs] at h1; cases h1
              · rw [hs] at h1; cases h1
              · rw [hs] at h1; cases h1
              · rfl

theorem uthread_spawn_iff (g g' : Globals) (priority r : Int) :
    uthread_spawn g priority = some (r, g') ↔
      (g.scheduler.getAvailableID = FAIL ∧ r = FAIL ∧ g' = g) ∨
      (g.scheduler.getAvailableID ≠ FAIL ∧ r = g.scheduler.getAvailableID ∧
        ∃ q, arrayAt g.scheduler._quantum_usecs priority = some q ∧
          ((r = MAIN_THREAD ∧ g' =
  { g with scheduler := g.scheduler.addThreadsMap (Thread.new r q priority RUNNING 1) }) ∨
           (r ≠ MAIN_THREAD ∧ g' = spawnedState g r q priority))) := by
  unfold uthread_spawn
  simp only [Scheduler.getQuantum_usecs]
  by_cases hf : g.scheduler.getAvailableID = FAIL
  · simp only [hf, if_true, Option.some.injEq, Prod.mk.injEq, ne_eq, not_true_eq_false,
      false_and, or_false, true_and]
    constructor
    · rintro ⟨rfl, rfl⟩; exact ⟨rfl, rfl⟩
    · rintro ⟨rfl, rfl⟩; exact ⟨rfl, rfl⟩
  · simp only [hf, if_false, ne_eq, not_false_eq_true, true_and, false_and, false_or]
    cases hq : arrayAt g.scheduler._quantum_usecs priority with
    | none => simp
    | some q =>
      simp only [Option.some.injEq, exists_eq_left']
      by_cases hm : g.scheduler.getAvailableID = MAIN_THREAD
      · simp only [hm, if_true, Option.some.injEq, Prod.mk.injEq]
        constructor
        · rintro ⟨rfl, rfl⟩; exact ⟨rfl, Or.inl ⟨rfl, rfl⟩⟩
        · rintro ⟨rfl, hc⟩
          rcases hc with ⟨_, rfl⟩ | ⟨h1, _⟩
          · exact ⟨rfl, rfl⟩
          · exact absurd rfl h1
      · simp only [hm, if_false, Option.some.injEq, Prod.mk.injEq, Thread.getID, Thread.new]
        constructor
        · rintro ⟨rfl, rfl⟩; exact ⟨rfl, Or.inr ⟨hm, rfl⟩⟩
        · rintro ⟨rfl, hc⟩
          rcases hc with ⟨h1, _⟩ | ⟨_, rfl⟩
          · exact absurd h1 hm
          · exact ⟨rfl, rfl⟩

theorem find_range_some (p : Nat → Bool) (n i : Nat)
    (h : (List.range n).find? p = some i) :
    i < n ∧ p i = true ∧ ∀ j, j < i → p j = false := by
  induction n with
  | zero => simp at h
  | succ n ih =>
    rw [List.range_succ, List.find?_append] at h
    cases hf : (List.range n).find? p with
    | some k =>
      rw [hf] at h
      simp only [Option.or, Option.some.injEq] at h
      subst h
      obtain ⟨h1, h2, h3⟩ := ih hf
      exact ⟨by omega, h2, h3⟩
    | none =>
      rw [hf] at h
      simp only [Option.or, List.find?_cons, List.find?_nil] at h
      have hall : ∀ j, j < n → p j = false := by
        intro j hj
        have := (List.find?_eq_none.1 hf) j (List.mem_range.2 hj)
        simpa using this
      cases hpn : p n with
      | true =>
        rw [hpn] at h
        simp only [Option.some.injEq] at h
        subst h
        exact ⟨by omega, hpn, hall⟩
      | false =>
        rw [hpn] at h
        cases h

theorem getAvailableID_fail_iff (s : Scheduler) :
    s.getAvailableID = FAIL ↔ ∀ i : Nat, i < 100 → s.containsKeyThreadsMap (i : Int) = true := by
  unfold Scheduler.getAvailableID
  cases hf : (List.range MAX_THREAD_NUM).find?
      (fun (i : Nat) => !s.containsKeyThreadsMap (i : Int)) with
  | none =>
    simp only [true_iff]
    intro i hi
    have := (List.find?_eq_none.1 hf) i (List.mem_range.2 hi)
    simpa using this
  | some k =>
    obtain ⟨h1, h2, _⟩ := find_range_some _ _ _ hf
    simp only [FAIL]
    constructor
    · intro h; omega
    · intro h
      have := h k h1
      simp [this] at h2

theorem getAvailableID_spec (s : Scheduler) (h : s.getAvailableID ≠ FAIL) :
    0 ≤ s.getAvailableID ∧ s.getAvailableID < 100 ∧
      s.containsKeyThreadsMap s.getAvailableID = false ∧
      ∀ j : Int, 0 ≤ j → j < s.getAvailableID → s.containsKeyThreadsMap j = true := by
  unfold Scheduler.getAvailableID at h ⊢
  cases hf : (List.range MAX_THREAD_NUM).find?
      (fun (i : Nat) => !s.containsKeyThreadsMap (i : Int)) with
  | none => rw [hf] at h; exact absurd rfl h
  | some k =>
    obtain ⟨h1, h2, h3⟩ := find_range_some _ _ _ hf
    simp only [MAX_THREAD_NUM] at h1
    refine ⟨by simp, by simp; omega, by simpa using h2, ?_⟩
    intro j hj0 hjk
    simp only at hjk
    have := h3 j.toNat (by omega)
    simp only [Bool.not_eq_false', Int.toNat_of_nonneg hj0] at this
    exact this

theorem exists_state_iff (g : Globals) (id : Int) (st : States) :
    (∃ t, g.scheduler.thread id = some t ∧ t._state = st) ↔ stateOf g id = some st := by
  unfold stateOf
  cases g.scheduler.thread id with
  | none => simp
  | some t => simp [Thread.getState]

theorem stateOf_of_thread {g : Globals} {id : Int} {t : Thread}
    (h : g.scheduler.thread id = some t) : stateOf g id = some t._state := by
  unfold stateOf; rw [h]; rfl

/-- The invariant `Inv` in terms of `stateOf`. -/
theorem inv_iff (g : Globals) :
    Inv g ↔
      (∃ r, g.scheduler._runningThread = some r) ∧
      (∀ id, g.scheduler._runningThread = some id ↔ stateOf g id = some RUNNING) ∧
      (∀ id, id ∈ g.scheduler._readyThreadsQueue ↔ stateOf g id = some READY) ∧
      (∀ id, id ∈ g.scheduler._blockedThreadsMap ↔ stateOf g id = some BLOCKED) ∧
      (∀ id, stateOf g id ≠ some TERMINATED) ∧
      g.scheduler._readyThreadsQueue.Nodup ∧
      (stateOf g MAIN_THREAD = some RUNNING ∨ stateOf g MAIN_THREAD = some READY) := by
  constructor
  · intro h
    refine ⟨h.has_running, ?_, ?_, ?_, ?_, h.ready_nodup, ?_⟩
    · intro id; rw [← exists_state_iff]; exact h.running_iff id
    · intro id; rw [← exists_state_iff]; exact h.ready_iff id
    · intro id; rw [← exists_state_iff]; exact h.blocked_iff id
    · intro id hst
      obtain ⟨t, ht, hs⟩ := (exists_state_iff _ _ _).2 hst
      exact h.not_terminated id t ht hs
    · obtain ⟨t, ht, hs⟩ := h.main_runnable
      rcases hs with hs | hs
      · exact Or.inl ((exists_state_iff _ _ _).1 ⟨t, ht, hs⟩)
      · exact Or.inr ((exists_state_iff _ _ _).1 ⟨t, ht, hs⟩)
  · rintro ⟨h1, h2, h3, h4, h5, h6, h7⟩
    refine ⟨h1, ?_, ?_, ?_, ?_, h6, ?_⟩
    · intro id; rw [exists_state_iff]; exact h2 id
    · intro id; rw [exists_state_iff]; exact h3 id
    · intro id; rw [exists_state_iff]; exact h4 id
    · intro id t ht hs
      exact h5 id ((exists_state_iff _ _ _).1 ⟨t, ht, hs⟩)
    · rcases h7 with h | h
      · obtain ⟨t, ht, hs⟩ := (exists_state_iff _ _ _).2 h
        exact ⟨t, ht, Or.inl hs⟩
      · obtain ⟨t, ht, hs⟩ := (exists_state_iff _ _ _).2 h
        exact ⟨t, ht, Or.inr hs⟩

/-- The invariant `Parked` in terms of `stateOf`. -/
theorem parked_iff (g : Globals) :
    Parked g ↔
      (∀ id, id ∈ g.scheduler._readyThreadsQueue ↔ stateOf g id = some READY) ∧
      (∀ id, id ∈ g.scheduler._blockedThreadsMap ↔ stateOf g id = some BLOCKED) ∧
      (∀ id, stateOf g id ≠ some RUNNING ∧ stateOf g id ≠ some TERMINATED) ∧
      g.scheduler._readyThreadsQueue.Nodup ∧
      stateOf g MAIN_THREAD = some READY := by
  constructor
  · intro h
    refine ⟨?_, ?_, ?_, h.ready_nodup, ?_⟩
    · intro id; rw [← exists_state_iff]; exact h.ready_iff id
    · intro id; rw [← exists_state_iff]; exact h.blocked_iff id
    · intro id
      constructor
      · intro hst
        obtain ⟨t, ht, hs⟩ := (exists_state_iff _ _ _).2 hst
        rcases h.parked id t ht with h1 | h1 <;> rw [h1] at hs <;> cases hs
      · intro hst
        obtain ⟨t, ht, hs⟩ := (exists_state_iff _ _ _).2 hst
        rcases h.parked id t ht with h1 | h1 <;> rw [h1] at hs <;> cases hs
    · obtain ⟨t, ht, hs⟩ := h.main_ready
      exact (exists_state_iff _ _ _).1 ⟨t, ht, hs⟩
  · rintro ⟨h1, h2, h3, h4, h5⟩
    refine ⟨?_, ?_, ?_, h4, ?_⟩
    · intro id; rw [exists_state_iff]; exact h1 id
    · intro id; rw [exists_state_iff]; exact h2 id
    · intro id t ht
      have hs := stateOf_of_thread ht
      have := h3 id
      rw [hs] at this
      cases hst : t._state with
      | RUNNING => rw [hst] at this; exact absurd rfl this.1
      | BLOCKED => exact Or.inr rfl
      | READY => exact Or.inl rfl
      | TERMINATED => rw [hst] at this; exact absurd rfl this.2
    · exact (exists_state_iff _ _ _).2 h5

theorem stateOf_blockedState {g : Globals} {tid : Int} {t : Thread}
    (ht : g.scheduler.thread tid = some t) (id : Int) :
    stateOf (blockedState g tid t) id = if id = tid then some BLOCKED else stateOf g id := by
  have hid : t._ID = tid := thread_id ht
  unfold stateOf blockedState
  simp only
  rw [thread_put_of t]
  · simp only [Thread.setState, hid]
    by_cases h : id = tid
    · simp [h, Thread.getState]
    · simp only [h, if_false]; rfl
  · simp only [Thread.setState, hid]; exact ht

theorem stateOf_resumedState {g : Globals} {tid : Int} {t : Thread}
    (ht : g.scheduler.thread tid = some t) (id : Int) :
    stateOf (resumedState g tid t) id = if id = tid then some READY else stateOf g id := by
  have hid : t._ID = tid := thread_id ht
  unfold stateOf resumedState
  simp only
  show Option.map Thread.getState ((g.scheduler.put (t.setState READY)).thread id) = _
  rw [thread_put_of t]
  · simp only [Thread.setState, hid]
    by_cases h : id = tid
    · simp [h, Thread.getState]
    · simp only [h, if_false]
  · simp only [Thread.setState, hid]; exact ht

theorem stateOf_preempted {g : Globals} {cur : Int} {curT : Thread}
    (ht : g.scheduler.thread cur = some curT) (id : Int) :
    stateOf (preempted g cur curT) id = if id = cur then some READY else stateOf g id := by
  have hid : curT._ID = cur := thread_id ht
  unfold stateOf preempted
  simp only
  show Option.map Thread.getState ((g.scheduler.put (curT.setState READY)).thread id) = _
  rw [thread_put_of curT]
  · simp only [Thread.setState, hid]
    by_cases h : id = cur
    · simp [h, Thread.getState]
    · simp only [h, if_false]
  · simp only [Thread.setState, hid]; exact ht

theorem stateOf_retiredState (g : Globals) (tid : Int) (t : Thread)
    (id : Int) (hid : t._ID = tid) :
    stateOf (retiredState g tid t) id = if id = tid then none else stateOf g id := by
  unfold stateOf retiredState
  simp only
  show Option.map Thread.getState
    (((g.scheduler.put (t.setState TERMINATED)).removeFromThreadsMap tid).thread id) = _
  rw [thread_removeFromThreadsMap]
  by_cases h : id = tid
  · simp [h]
  · simp only [h, if_false]
    rw [thread_put]
    simp [Thread.setState, hid, h]

theorem stateOf_dispatched {g : Globals} {h : Int} {hT : Thread} (rest : List Int)
    (hh : g.scheduler.thread h = some hT) (id : Int) :
    stateOf (dispatched g h hT rest) id = if id = h then some RUNNING else stateOf g id := by
  unfold stateOf
  rw [thread_dispatched rest hh]
  by_cases hid : id = h
  · simp [hid, Thread.getState]
  · simp [hid]

theorem parked_preempted {g : Globals} {cur : Int} {curT : Thread} (hI : Inv g)
    (hr : g.scheduler._runningThread = some cur) (hc : g.scheduler.thread cur = some curT) :
    Parked (preempted g cur curT) := by
  obtain ⟨_, h2, h3, h4, h5, h6, h7⟩ := (inv_iff g).1 hI
  have hcur : stateOf g cur = some RUNNING := (h2 cur).1 hr
  have hrq : (preempted g cur curT).scheduler._readyThreadsQueue
      = g.scheduler._readyThreadsQueue ++ [cur] := rfl
  have hbl : (preempted g cur curT).scheduler._blockedThreadsMap
      = g.scheduler._blockedThreadsMap := rfl
  have hnr : cur ∉ g.scheduler._readyThreadsQueue := by
    intro hm; have := (h3 cur).1 hm; rw [hcur] at this; cases this
  have hnb : cur ∉ g.scheduler._blockedThreadsMap := by
    intro hm; have := (h4 cur).1 hm; rw [hcur] at this; cases this
  rw [parked_iff]
  refine ⟨?_, ?_, ?_, ?_, ?_⟩
  · intro id
    rw [hrq, stateOf_preempted hc]
    by_cases hid : id = cur
    · simp [hid]
    · simp only [hid, if_false, List.mem_append, List.mem_singleton, or_false]
      exact h3 id
  · intro id
    rw [hbl, stateOf_preempted hc]
    by_cases hid : id = cur
    · subst hid; simp [hnb]
    · simp only [hid, if_false]; exact h4 id
  · intro id
    rw [stateOf_preempted hc]
    by_cases hid : id = cur
    · simp [hid]
    · simp only [hid, if_false]
      refine ⟨?_, h5 id⟩
      intro hst
      have := (h2 id).2 hst
      rw [hr] at this
      exact hid (Option.some.inj this).symm
  · rw [hrq]
    exact List.Nodup.append h6 (List.nodup_singleton cur) (by simpa using hnr)
  · rw [stateOf_preempted hc]
    by_cases hid : MAIN_THREAD = cur
    · simp [hid]
    · simp only [hid, if_false]
      rcases h7 with h | h
      · have := (h2 MAIN_THREAD).2 h
        rw [hr] at this
        exact absurd (Option.some.inj this).symm hid
      · exact h

theorem parked_blockedState {g : Globals} {tid : Int} {t : Thread} (hI : Inv g)
    (hr : g.scheduler._runningThread = some tid) (ht : g.scheduler.thread tid = some t)
    (hne : tid ≠ MAIN_THREAD) : Parked (blockedState g tid t) := by
  obtain ⟨_, h2, h3, h4, h5, h6, h7⟩ := (inv_iff g).1 hI
  have hcur : stateOf g tid = some RUNNING := (h2 tid).1 hr
  have hrq : (blockedState g tid t).scheduler._readyThreadsQueue
      = g.scheduler._readyThreadsQueue := rfl
  have hbl : (blockedState g tid t).scheduler._blockedThreadsMap
      = tid :: g.scheduler._blockedThreadsMap.filter (fun k => decide (k ≠ tid)) := rfl
  have hnr : tid ∉ g.scheduler._readyThreadsQueue := by
    intro hm; have := (h3 tid).1 hm; rw [hcur] at this; cases this
  rw [parked_iff]
  refine ⟨?_, ?_, ?_, ?_, ?_⟩
  · intro id
    rw [hrq, stateOf_blockedState ht]
    by_cases hid : id = tid
    · subst hid; simp [hnr]
    · simp only [hid, if_false]; exact h3 id
  · intro id
    rw [hbl, stateOf_blockedState ht]
    by_cases hid : id = tid
    · simp [hid]
    · simp only [hid, if_false, List.mem_cons, false_or, List.mem_filter, ne_eq,
        not_false_eq_true, decide_True, and_true]
      exact h4 id
  · intro id
    rw [stateOf_blockedState ht]
    by_cases hid : id = tid
    · simp [hid]
    · simp only [hid, if_false]
      refine ⟨?_, h5 id⟩
      intro hst
      have := (h2 id).2 hst
      rw [hr] at this
      exact hid (Option.some.inj this).symm
  · rw [hrq]; exact h6
  · rw [stateOf_blockedState ht]
    have hid : ¬ MAIN_THREAD = tid := fun e => hne e.symm
    simp only [hid, if_false]
    rcases h7 with h | h
    · have := (h2 MAIN_THREAD).2 h
      rw [hr] at this
      exact absurd (Option.some.inj this).symm hid
    · exact h

theorem parked_retiredState {g : Globals} {tid : Int} {t : Thread} (hI : Inv g)
    (hr : g.scheduler._runningThread = some tid) (ht : g.scheduler.thread tid = some t)
    (hne : tid ≠ MAIN_THREAD) : Parked (retiredState g tid t) := by
  obtain ⟨_, h2, h3, h4, h5, h6, h7⟩ := (inv_iff g).1 hI
  have hcur : stateOf g tid = some RUNNING := (h2 tid).1 hr
  have hrq : (retiredState g tid t).scheduler._readyThreadsQueue
      = g.scheduler._readyThreadsQueue := rfl
  have hbl : (retiredState g tid t).scheduler._blockedThreadsMap
      = g.scheduler._blockedThreadsMap := rfl
  have hnr : tid ∉ g.scheduler._readyThreadsQueue := by
    intro hm; have := (h3 tid).1 hm; rw [hcur] at this; cases this
  have hnb : tid ∉ g.scheduler._blockedThreadsMap := by
    intro hm; have := (h4 tid).1 hm; rw [hcur] at this; cases this
  have hst := fun id => stateOf_retiredState g tid t id (thread_id ht)
  rw [parked_iff]
  refine ⟨?_, ?_, ?_, ?_, ?_⟩
  · intro id
    rw [hrq, hst]
    by_cases hid : id = tid
    · subst hid; simp [hnr]
    · simp only [hid, if_false]; exact h3 id
  · intro id
    rw [hbl, hst]
    by_cases hid : id = tid
    · subst hid; simp [hnb]
    · simp only [hid, if_false]; exact h4 id
  · intro id
    rw [hst]
    by_cases hid : id = tid
    · simp [hid]
    · simp only [hid, if_false]
      refine ⟨?_, h5 id⟩
      intro hs
      have := (h2 id).2 hs
      rw [hr] at this
      exact hid (Option.some.inj this).symm
  · rw [hrq]; exact h6
  · rw [hst]
    have hid : ¬ MAIN_THREAD = tid := fun e => hne e.symm
    simp only [hid, if_false]
    rcases h7 with h | h
    · have := (h2 MAIN_THREAD).2 h
      rw [hr] at this
      exact absurd (Option.some.inj this).symm hid
    · exact h

theorem parked_ready_main {g : Globals} (hP : Parked g) :
    MAIN_THREAD ∈ g.scheduler._readyThreadsQueue :=
  (hP.ready_iff MAIN_THREAD).2 hP.main_ready

theorem inv_running_state {g : Globals} {cur : Int} {curT : Thread} (hI : Inv g)
    (hr : g.scheduler._runningThread = some cur) (hc : g.scheduler.thread cur = some curT) :
    curT._state = RUNNING := by
  obtain ⟨t, ht, hs⟩ := (hI.running_iff cur).1 hr
  rw [hc] at ht; cases ht; exact hs

theorem inv_running_of_state {g : Globals} {tid : Int} {t : Thread} (hI : Inv g)
    (ht : g.scheduler.thread tid = some t) (hs : t._state = RUNNING) :
    g.scheduler._runningThread = some tid :=
  (hI.running_iff tid).2 ⟨t, ht, hs⟩

/-- A timer tick in a consistent state: either the queue is empty and the
running thread stays, or the running thread goes to the back of the queue and
the front of the queue is switched in. -/
theorem tick_iff {g : Globals} (hI : Inv g) (g' : Globals) :
    switchThreads g = some g' ↔
      ∃ cur curT, g.scheduler._runningThread = some cur ∧ g.scheduler.thread cur = some curT ∧
        ((g.scheduler._readyThreadsQueue = [] ∧ g' = stayed g curT) ∨
         (∃ h tl hT, g.scheduler._readyThreadsQueue = h :: tl ∧
            g.scheduler.thread h = some hT ∧
            g' = dispatched (preempted g cur curT) h hT (tl ++ [cur]))) := by
  rw [switchThreads_iff]
  constructor
  · rintro ⟨cur, curT, hr, hc, hcase⟩
    have hst := inv_running_state hI hr hc
    rcases hcase with ⟨hq, rfl⟩ | ⟨hq, s1, hs1, hsw⟩
    · exact ⟨cur, curT, hr, hc, Or.inl ⟨hq, rfl⟩⟩
    · rw [switchOut_eq _ _ _ hc] at hs1
      simp only [hst, if_true, Option.some.injEq] at hs1
      rw [if_neg (by decide)] at hs1
      subst hs1
      cases hl : g.scheduler._readyThreadsQueue with
      | nil => exact absurd hl hq
      | cons h tl =>
        have hq1 : (preempted g cur curT).scheduler._readyThreadsQueue = h :: (tl ++ [cur]) := by
          show g.scheduler._readyThreadsQueue ++ [cur] = _
          rw [hl]; rfl
        obtain ⟨hT, hh, rfl⟩ := (switchIn_iff (preempted g cur curT) g' h _ hq1).1 hsw
        have hne : h ≠ cur := by
          intro e
          obtain ⟨t, ht1, hs1⟩ := (hI.ready_iff h).1 (by rw [hl]; simp)
          rw [e, hc] at ht1; cases ht1; rw [hst] at hs1; cases hs1
        have hh' : g.scheduler.thread h = some hT := by
          have : (preempted g cur curT).scheduler.thread h
              = (g.scheduler.put (curT.setState READY)).thread h := rfl
          rw [this, thread_put] at hh
          simpa [Thread.setState, thread_id hc, hne] using hh
        exact ⟨cur, curT, hr, hc, Or.inr ⟨h, tl, hT, rfl, hh', rfl⟩⟩
  · rintro ⟨cur, curT, hr, hc, hcase⟩
    have hst := inv_running_state hI hr hc
    refine ⟨cur, curT, hr, hc, ?_⟩
    rcases hcase with ⟨hq, rfl⟩ | ⟨h, tl, hT, hl, hh, rfl⟩
    · exact Or.inl ⟨hq, rfl⟩
    · right
      refine ⟨by rw [hl]; simp, (preempted g cur curT).scheduler, ?_, ?_⟩
      · rw [switchOut_eq _ _ _ hc]
        simp only [hst, if_true]
        rw [if_neg (by decide)]
        rfl
      · have hq1 : (preempted g cur curT).scheduler._readyThreadsQueue = h :: (tl ++ [cur]) := by
          show g.scheduler._readyThreadsQueue ++ [cur] = _
          rw [hl]; rfl
        have hne : h ≠ cur := by
          intro e
          obtain ⟨t, ht1, hs1⟩ := (hI.ready_iff h).1 (by rw [hl]; simp)
          rw [e, hc] at ht1; cases ht1; rw [hst] at hs1; cases hs1
        have hh' : (preempted g cur curT).scheduler.thread h = some hT := by
          have : (preempted g cur curT).scheduler.thread h
              = (g.scheduler.put (curT.setState READY)).thread h := rfl
          rw [this, thread_put]
          simpa [Thread.setState, thread_id hc, hne] using hh
        exact (switchIn_iff (preempted g cur curT) _ h _ hq1).2 ⟨hT, hh', rfl⟩

/-- The switch made by a thread that has just blocked itself. -/
theorem blockSelf_iff {g : Globals} {tid : Int} {t : Thread} (hI : Inv g)
    (hr : g.scheduler._runningThread = some tid) (ht : g.scheduler.thread tid = some t)
    (hne : tid ≠ MAIN_THREAD) (g' : Globals) :
    switchThreads (blockedState g tid t) = some g' ↔
      ∃ h tl hT, g.scheduler._readyThreadsQueue = h :: tl ∧ g.scheduler.thread h = some hT ∧
        g' = dispatched (blockedState g tid t) h hT tl := by
  have hP := parked_blockedState hI hr ht hne
  have hst := inv_running_state hI hr ht
  have hid : t._ID = tid := thread_id ht
  have hr1 : (blockedState g tid t).scheduler._runningThread = some tid := hr
  have hq0 : (blockedState g tid t).scheduler._readyThreadsQueue
      = g.scheduler._readyThreadsQueue := rfl
  have hth : ∀ id, (blockedState g tid t).scheduler.thread id
      = if id = tid then some (t.setState BLOCKED) else g.scheduler.thread id := by
    intro id
    show ((g.scheduler.addBlockedThreadsMap tid).put (t.setState BLOCKED)).thread id = _
    rw [thread_put_of t]
    · simp only [Thread.setState, hid]; rfl
    · simp only [Thread.setState, hid]; exact ht
  have hc1 : (blockedState g tid t).scheduler.thread tid = some (t.setState BLOCKED) := by
    rw [hth]; simp
  have hmem := parked_ready_main hP
  rw [hq0] at hmem
  have hout : switchOut (blockedState g tid t).scheduler tid (t.setState BLOCKED)
      = some (blockedState g tid t).scheduler := by
    rw [switchOut_eq _ _ _ hc1]
    simp [Thread.setState]
  have hnr : ∀ h, h ∈ g.scheduler._readyThreadsQueue → h ≠ tid := by
    intro h hm e
    obtain ⟨t1, ht1, hs1⟩ := (hI.ready_iff h).1 hm
    rw [e, ht] at ht1; cases ht1; rw [hst] at hs1; cases hs1
  rw [switchThreads_iff]
  constructor
  · rintro ⟨cur, curT, hr2, hc2, hcase⟩
    rw [hr1] at hr2; cases hr2
    rw [hc1] at hc2; cases hc2
    rcases hcase with ⟨hq, _⟩ | ⟨hq, s1, hs1, hsw⟩
    · rw [hq0] at hq; rw [hq] at hmem; cases hmem
    · rw [hout] at hs1; cases hs1
      cases hl : g.scheduler._readyThreadsQueue with
      | nil => rw [hl] at hmem; cases hmem
      | cons h tl =>
        have hq1 : (blockedState g tid t).scheduler._readyThreadsQueue = h :: tl := hl
        obtain ⟨hT, hh, rfl⟩ := (switchIn_iff (blockedState g tid t) g' h _ hq1).1 hsw
        have hne2 := hnr h (by rw [hl]; simp)
        rw [hth] at hh
        simp only [hne2, if_false] at hh
        exact ⟨h, tl, hT, rfl, hh, rfl⟩
  · rintro ⟨h, tl, hT, hl, hh, rfl⟩
    refine ⟨tid, t.setState BLOCKED, hr1, hc1, Or.inr ⟨?_, _, hout, ?_⟩⟩
    · rw [hq0, hl]; simp
    · have hq1 : (blockedState g tid t).scheduler._readyThreadsQueue = h :: tl := hl
      have hne2 := hnr h (by rw [hl]; simp)
      have hh' : (blockedState g tid t).scheduler.thread h = some hT := by
        rw [hth]; simp only [hne2, if_false]; exact hh
      exact (switchIn_iff (blockedState g tid t) _ h _ hq1).2 ⟨hT, hh', rfl⟩

/-- The switch made by a thread that has just marked itself TERMINATED. -/
theorem terminateSelf_iff {g : Globals} {tid : Int} {t : Thread} (hI : Inv g)
    (hr : g.scheduler._runningThread = some tid) (ht : g.scheduler.thread tid = some t)
    (hne : tid ≠ MAIN_THREAD) (g' : Globals) :
    switchThreads { g with scheduler := g.scheduler.put (t.setState TERMINATED) } = some g' ↔
      ∃ h tl hT, g.scheduler._readyThreadsQueue = h :: tl ∧ g.scheduler.thread h = some hT ∧
        g' = dispatched (retiredState g tid t) h hT tl := by
  have hP := parked_retiredState hI hr ht hne
  have hst := inv_running_state hI hr ht
  have hid : t._ID = tid := thread_id ht
  have hq0 : (retiredState g tid t).scheduler._readyThreadsQueue
      = g.scheduler._readyThreadsQueue := rfl
  have hc1 : (g.scheduler.put (t.setState TERMINATED)).thread tid
      = some (t.setState TERMINATED) := by
    rw [thread_put_of t]
    · simp [Thread.setState, hid]
    · simp only [Thread.setState, hid]; exact ht
  have hth : ∀ id, (retiredState g tid t).scheduler.thread id
      = if id = tid then none else g.scheduler.thread id := by
    intro id
    show ((g.scheduler.put (t.setState TERMINATED)).removeFromThreadsMap tid).thread id = _
    rw [thread_removeFromThreadsMap]
    by_cases h : id = tid
    · simp [h]
    · simp only [h, if_false]
      rw [thread_put]
      simp [Thread.setState, hid, h]
  have hmem := parked_ready_main hP
  rw [hq0] at hmem
  have hout : switchOut (g.scheduler.put (t.setState TERMINATED)) tid (t.setState TERMINATED)
      = some (retiredState g tid t).scheduler := by
    rw [switchOut_eq _ _ _ hc1]
    simp [Thread.setState, retiredState]
  have hnr : ∀ h, h ∈ g.scheduler._readyThreadsQueue → h ≠ tid := by
    intro h hm e
    obtain ⟨t1, ht1, hs1⟩ := (hI.ready_iff h).1 hm
    rw [e, ht] at ht1; cases ht1; rw [hst] at hs1; cases hs1
  have hg1 : ({ { g with scheduler := g.scheduler.put (t.setState TERMINATED) } with
      scheduler := (retiredState g tid t).scheduler } : Globals) = retiredState g tid t := rfl
  rw [switchThreads_iff]
  constructor
  · rintro ⟨cur, curT, hr2, hc2, hcase⟩
    have hr3 : g.scheduler._runningThread = some cur := hr2
    rw [hr] at hr3; cases hr3
    simp only at hc2
    rw [hc1] at hc2; cases hc2
    rcases hcase with ⟨hq, _⟩ | ⟨hq, s1, hs1, hsw⟩
    · have hq2 : g.scheduler._readyThreadsQueue = [] := hq
      rw [hq2] at hmem; cases hmem
    · simp only at hs1
      rw [hout] at hs1; cases hs1
      rw [hg1] at hsw
      cases hl : g.scheduler._readyThreadsQueue with
      | nil => rw [hl] at hmem; cases hmem
      | cons h tl =>
        have hq1 : (retiredState g tid t).scheduler._readyThreadsQueue = h :: tl := hl
        obtain ⟨hT, hh, rfl⟩ := (switchIn_iff (retiredState g tid t) g' h _ hq1).1 hsw
        have hne2 := hnr h (by rw [hl]; simp)
        rw [hth] at hh
        simp only [hne2, if_false] at hh
        exact ⟨h, tl, hT, rfl, hh, rfl⟩
  · rintro ⟨h, tl, hT, hl, hh, rfl⟩
    refine ⟨tid, t.setState TERMINATED, hr, hc1, Or.inr ⟨?_, _, hout, ?_⟩⟩
    · show g.scheduler._readyThreadsQueue ≠ []
      rw [hl]; simp
    · rw [hg1]
      have hq1 : (retiredState g tid t).scheduler._readyThreadsQueue = h :: tl := hl
      have hne2 := hnr h (by rw [hl]; simp)
      have hh' : (retiredState g tid t).scheduler.thread h = some hT := by
        rw [hth]; simp only [hne2, if_false]; exact hh
      exact (switchIn_iff (retiredState g tid t) _ h _ hq1).2 ⟨hT, hh', rfl⟩

theorem thread_preempted_ne {g : Globals} {cur : Int} {curT : Thread}
    (hc : g.scheduler.thread cur = some curT) {id : Int} (hne : id ≠ cur) :
    (preempted g cur curT).scheduler.thread id = g.scheduler.thread id := by
  show (g.scheduler.put (curT.setState READY)).thread id = _
  rw [thread_put]
  simp [Thread.setState, thread_id hc, hne]

theorem thread_blockedState_ne {g : Globals} {tid : Int} {t : Thread}
    (ht : g.scheduler.thread tid = some t) {id : Int} (hne : id ≠ tid) :
    (blockedState g tid t).scheduler.thread id = g.scheduler.thread id := by
  show ((g.scheduler.addBlockedThreadsMap tid).put (t.setState BLOCKED)).thread id = _
  rw [thread_put]
  simp only [Thread.setState, thread_id ht, hne, if_false]
  rfl

theorem thread_retiredState_ne {g : Globals} {tid : Int} {t : Thread}
    (ht : g.scheduler.thread tid = some t) {id : Int} (hne : id ≠ tid) :
    (retiredState g tid t).scheduler.thread id = g.scheduler.thread id := by
  show ((g.scheduler.put (t.setState TERMINATED)).removeFromThreadsMap tid).thread id = _
  rw [thread_removeFromThreadsMap, thread_put]
  simp [Thread.setState, thread_id ht, hne]

theorem ready_ne_running {g : Globals} (hI : Inv g) {cur h : Int}
    (hr : g.scheduler._runningThread = some cur) (hm : h ∈ g.scheduler._readyThreadsQueue) :
    h ≠ cur := by
  intro e
  obtain ⟨t1, ht1, hs1⟩ := (hI.ready_iff h).1 hm
  obtain ⟨t2, ht2, hs2⟩ := (hI.running_iff cur).1 hr
  rw [e, ht2] at ht1; cases ht1; rw [hs2] at hs1; cases hs1

theorem tick_inv {g g' : Globals} (hI : Inv g) (hsw : switchThreads g = some g') : Inv g' := by
  obtain ⟨cur, curT, hr, hc, hcase⟩ := (tick_iff hI g').1 hsw
  rcases hcase with ⟨_, _, rfl⟩ | ⟨h, tl, hT, hl, hh, _, rfl⟩
  · exact stayed_inv hI hr hc
  · have hne := ready_ne_running hI hr (show h ∈ g.scheduler._readyThreadsQueue by rw [hl]; simp)
    refine dispatched_inv (parked_preempted hI hr hc) ?_ ?_
    · show g.scheduler._readyThreadsQueue ++ [cur] = _
      rw [hl]; rfl
    · rw [thread_preempted_ne hc hne]; exact hh

theorem inv_of_stateOf_eq {g g' : Globals} (hI : Inv g)
    (hr : g'.scheduler._runningThread = g.scheduler._runningThread)
    (hq : g'.scheduler._readyThreadsQueue = g.scheduler._readyThreadsQueue)
    (hb : g'.scheduler._blockedThreadsMap = g.scheduler._blockedThreadsMap)
    (hs : ∀ id, stateOf g' id = stateOf g id) : Inv g' := by
  rw [inv_iff] at hI ⊢
  simp only [hr, hq, hb, hs]
  exact hI

theorem block_inv {g g' : Globals} {tid r : Int} (hI : Inv g)
    (hb : uthread_block g tid = some (r, g')) : Inv g' := by
  rcases (uthread_block_iff g g' tid r).1 hb with ⟨_, _, rfl⟩ | ⟨t, ht, hcase⟩
  · exact hI
  · rcases hcase with ⟨_, _, rfl⟩ | ⟨hne, _, hcase⟩
    · exact hI
    · rcases hcase with ⟨hs, hsw⟩ | ⟨hs, rfl⟩ | ⟨_, _, rfl⟩
      · have hr := inv_running_of_state hI ht hs
        obtain ⟨h, tl, hT, hl, hh, rfl⟩ := (blockSelf_iff hI hr ht hne g').1 hsw
        have hne2 := ready_ne_running hI hr
          (show h ∈ g.scheduler._readyThreadsQueue by rw [hl]; simp)
        refine dispatched_inv (parked_blockedState hI hr ht hne) hl ?_
        rw [thread_blockedState_ne ht hne2]; exact hh
      · obtain ⟨h1, h2, h3, h4, h5, h6, h7⟩ := (inv_iff g).1 hI
        have hst : stateOf g tid = some READY := by rw [stateOf_of_thread ht, hs]
        have ht' : ({ g with scheduler := g.scheduler.removeFromReadyThreadsQueue tid } :
            Globals).scheduler.thread tid = some t := ht
        have hso : ∀ id, stateOf (blockedState
            { g with scheduler := g.scheduler.removeFromReadyThreadsQueue tid } tid t) id
            = if id = tid then some BLOCKED else stateOf g id := by
          intro id; rw [stateOf_blockedState ht']; rfl
        rw [inv_iff]
        refine ⟨h1, ?_, ?_, ?_, ?_, ?_, ?_⟩
        · intro id
          rw [hso]
          show g.scheduler._runningThread = some id ↔ _
          by_cases hid : id = tid
          · subst hid
            simp only [if_true, Option.some.injEq]
            constructor
            · intro hr; have := (h2 id).1 hr; rw [hst] at this; cases this
            · intro hc; cases hc
          · simp only [hid, if_false]; exact h2 id
        · intro id
          rw [hso]
          show id ∈ g.scheduler._readyThreadsQueue.erase tid ↔ _
          rw [List.Nodup.mem_erase_iff h6]
          by_cases hid : id = tid
          · simp [hid]
          · simp only [hid, if_false, ne_eq, not_false_eq_true, true_and]; exact h3 id
        · intro id
          rw [hso]
          show id ∈ tid :: g.scheduler._blockedThreadsMap.filter (fun k => decide (k ≠ tid)) ↔ _
          by_cases hid : id = tid
          · simp [hid]
          · simp only [hid, if_false, List.mem_cons, false_or, List.mem_filter, ne_eq,
              not_false_eq_true, decide_True, and_true]
            exact h4 id
        · intro id
          rw [hso]
          by_cases hid : id = tid
          · simp [hid]
          · simp only [hid, if_false]; exact h5 id
        · exact List.Nodup.erase tid h6
        · rw [hso]
          have hid : ¬ MAIN_THREAD = tid := fun e => hne e.symm
          simp only [hid, if_false]
          exact h7
      · exact hI

theorem resume_inv {g g' : Globals} {tid r : Int} (hI : Inv g)
    (h : uthread_resume g tid = some (r, g')) : Inv g' := by
  rcases (uthread_resume_iff g g' tid r).1 h with ⟨_, _, rfl⟩ | ⟨t, ht, _, hcase⟩
  · exact hI
  · rcases hcase with ⟨hs, rfl⟩ | ⟨_, rfl⟩
    · obtain ⟨h1, h2, h3, h4, h5, h6, h7⟩ := (inv_iff g).1 hI
      have hst : stateOf g tid = some BLOCKED := by rw [stateOf_of_thread ht, hs]
      have hnr : tid ∉ g.scheduler._readyThreadsQueue := by
        intro hm; have := (h3 tid).1 hm; rw [hst] at this; cases this
      rw [inv_iff]
      refine ⟨h1, ?_, ?_, ?_, ?_, ?_, ?_⟩
      · intro id
        rw [stateOf_resumedState ht]
        show g.scheduler._runningThread = some id ↔ _
        by_cases hid : id = tid
        · subst hid
          simp only [if_true, Option.some.injEq]
          constructor
          · intro hr; have := (h2 id).1 hr; rw [hst] at this; cases this
          · intro hc; cases hc
        · simp only [hid, if_false]; exact h2 id
      · intro id
        rw [stateOf_resumedState ht]
        show id ∈ g.scheduler._readyThreadsQueue ++ [tid] ↔ _
        by_cases hid : id = tid
        · simp [hid]
        · simp only [hid, if_false, List.mem_append, List.mem_singleton, or_false]
          exact h3 id
      · intro id
        rw [stateOf_resumedState ht]
        show id ∈ g.scheduler._blockedThreadsMap.filter (fun k => decide (k ≠ tid)) ↔ _
        by_cases hid : id = tid
        · simp [hid]
        · simp only [hid, if_false, List.mem_filter, ne_eq, not_false_eq_true, decide_True,
            and_true]
          exact h4 id
      · intro id
        rw [stateOf_resumedState ht]
        by_cases hid : id = tid
        · simp [hid]
        · simp only [hid, if_false]; exact h5 id
      · show (g.scheduler._readyThreadsQueue ++ [tid]).Nodup
        exact List.Nodup.append h6 (List.nodup_singleton tid) (by simpa using hnr)
      · rw [stateOf_resumedState ht]
        by_cases hid : MAIN_THREAD = tid
        · simp [hid]
        · simp only [hid, if_false]; exact h7
    · exact hI

theorem change_priority_inv {g g' : Globals} {tid priority r : Int} (hI : Inv g)
    (h : uthread_change_priority g tid priority = some (r, g')) : Inv g' := by
  rcases (uthread_change_priority_iff g g' tid priority r).1 h with
    ⟨_, _, rfl⟩ | ⟨t, ht, hcase⟩
  · exact hI
  · rcases hcase with ⟨_, _, rfl⟩ | ⟨_, _, rfl⟩
    · exact hI
    · refine inv_of_stateOf_eq hI rfl rfl rfl ?_
      intro id
      unfold stateOf
      simp only
      rw [thread_put_of t]
      · by_cases hid : id = tid
        · subst hid
          simp [Thread.setPriority, thread_id ht, ht, Thread.getState]
        · simp [Thread.setPriority, thread_id ht, hid]
      · simp only [Thread.setPriority, thread_id ht]; exact ht

theorem getAvailableID_new (quantum_usecs : List Int) (size : Int) :
    (Scheduler.new quantum_usecs size).getAvailableID = MAIN_THREAD := by
  rfl

theorem isNonPositive_zero {a : List Int} {size : Int} (hs : 0 < size)
    (h : isNonPositive a size = some false) : ∃ q, arrayAt a 0 = some q ∧ 0 < q := by
  unfold isNonPositive at h
  obtain ⟨n, hn⟩ : ∃ n, size.toNat = n + 1 := ⟨size.toNat - 1, by omega⟩
  rw [hn] at h
  unfold isNonPositiveFrom at h
  split at h
  · cases h
  · rename_i q hq
    split at h
    · cases h
    · rename_i hpos
      refine ⟨q, ?_, by omega⟩
      simp [arrayAt, hq]

theorem uthread_init_iff (quantum_usecs : List Int) (size : Int) (g : Globals) :
    uthread_init quantum_usecs size = some (SUCCESS, some g) ↔
      0 < size ∧ isNonPositive quantum_usecs size = some false ∧
      ∃ q, arrayAt quantum_usecs 0 = some q ∧ g = initState quantum_usecs size q := by
  unfold uthread_init
  by_cases hs : size ≤ 0
  · have : ¬ 0 < size := by omega
    simp [hs, this, FAIL, SUCCESS]
  · have hpos : 0 < size := by omega
    simp only [hs, if_false, hpos, true_and]
    cases hnp : isNonPositive quantum_usecs size with
    | none => simp
    | some b =>
      cases b with
      | true => simp [FAIL, SUCCESS]
      | false =>
        obtain ⟨q, hq, _⟩ := isNonPositive_zero hpos hnp
        simp only [true_and]
        have hsp : uthread_spawn
            { timer := { it_interval := { tv_sec := 0, tv_usec := 0 },
                         it_value := { tv_sec := 0, tv_usec := 0 } },
              scheduler := Scheduler.new quantum_usecs size } MAIN_THREAD
            = some (MAIN_THREAD,
                { timer := { it_interval := { tv_sec := 0, tv_usec := 0 },
                             it_value := { tv_sec := 0, tv_usec := 0 } },
                  scheduler := (Scheduler.new quantum_usecs size).addThreadsMap
                    (Thread.new MAIN_THREAD q MAIN_THREAD RUNNING 1) }) := by
          unfold uthread_spawn
          simp only [getAvailableID_new]
          rw [if_neg (by decide)]
          have : arrayAt (Scheduler.new quantum_usecs size).getQuantum_usecs MAIN_THREAD
              = some q := hq
          simp only [this, if_true]
        simp only [hsp]
        have hth : ((Scheduler.new quantum_usecs size).addThreadsMap
            (Thread.new MAIN_THREAD q MAIN_THREAD RUNNING 1)).thread MAIN_THREAD
            = some (Thread.new MAIN_THREAD q MAIN_THREAD RUNNING 1) := by
          rw [thread_addThreadsMap]; simp [Thread.new]
        simp only [hth, Option.some.injEq, Prod.mk.injEq, true_and]
        constructor
        · intro h
          exact ⟨q, hq, h.symm⟩
        · rintro ⟨q', hq', rfl⟩
          rw [hq] at hq'
          cases hq'
          rfl

theorem init_inv {quantum_usecs : List Int} {size : Int} {g : Globals}
    (h : uthread_init quantum_usecs size = some (SUCCESS, some g)) : Inv g := by
  obtain ⟨_, _, q, _, rfl⟩ := (uthread_init_iff _ _ _).1 h
  have hth : ∀ id, (initState quantum_usecs size q).scheduler.thread id
      = if id = MAIN_THREAD then some (Thread.new MAIN_THREAD q MAIN_THREAD RUNNING 1)
        else none := by
    intro id
    show ((Scheduler.new quantum_usecs size).addThreadsMap
      (Thread.new MAIN_THREAD q MAIN_THREAD RUNNING 1)).thread id = _
    rw [thread_addThreadsMap]
    rfl
  have hso : ∀ id, stateOf (initState quantum_usecs size q) id
      = if id = MAIN_THREAD then some RUNNING else none := by
    intro id
    unfold stateOf
    rw [hth]
    by_cases hid : id = MAIN_THREAD <;> simp [hid, Thread.new, Thread.getState]
  rw [inv_iff]
  refine ⟨⟨MAIN_THREAD, rfl⟩, ?_, ?_, ?_, ?_, ?_, ?_⟩
  · intro id
    rw [hso]
    show some MAIN_THREAD = some id ↔ _
    by_cases hid : id = MAIN_THREAD
    · simp [hid]
    · have : ¬ MAIN_THREAD = id := fun e => hid e.symm
      simp [hid, this]
  · intro id
    rw [hso]
    show id ∈ ([] : List Int) ↔ _
    by_cases hid : id = MAIN_THREAD <;> simp [hid]
  · intro id
    rw [hso]
    show id ∈ ([] : List Int) ↔ _
    by_cases hid : id = MAIN_THREAD <;> simp [hid]
  · intro id
    rw [hso]
    by_cases hid : id = MAIN_THREAD <;> simp [hid]
  · exact List.nodup_nil
  · rw [hso]; simp

theorem stateOf_removedBlocked (g : Globals) (tid id : Int) :
    stateOf (removedBlocked g tid) id = if id = tid then none else stateOf g id := by
  unfold stateOf removedBlocked
  simp only
  rw [thread_removeFromThreadsMap]
  by_cases hid : id = tid
  · simp [hid]
  · simp only [hid, if_false]; rfl

theorem stateOf_removedReady (g : Globals) (tid id : Int) :
    stateOf (removedReady g tid) id = if id = tid then none else stateOf g id := by
  unfold stateOf removedReady
  simp only
  rw [thread_removeFromThreadsMap]
  by_cases hid : id = tid
  · simp [hid]
  · simp only [hid, if_false]; rfl

theorem stateOf_spawnedState (g : Globals) (r q priority id : Int) :
    stateOf (spawnedState g r q priority) id = if id = r then some READY else stateOf g id := by
  unfold stateOf spawnedState
  simp only
  rw [thread_addThreadsMap]
  by_cases hid : id = r
  · simp [hid, Thread.new, Thread.getState]
  · simp only [Thread.new, hid, if_false]; rfl

theorem removedBlocked_inv {g : Globals} {tid : Int} {t : Thread} (hI : Inv g)
    (ht : g.scheduler.thread tid = some t) (hs : t._state = BLOCKED) :
    Inv (removedBlocked g tid) := by
  obtain ⟨h1, h2, h3, h4, h5, h6, h7⟩ := (inv_iff g).1 hI
  have hst : stateOf g tid = some BLOCKED := by rw [stateOf_of_thread ht, hs]
  rw [inv_iff]
  refine ⟨h1, ?_, ?_, ?_, ?_, h6, ?_⟩
  · intro id
    rw [stateOf_removedBlocked]
    show g.scheduler._runningThread = some id ↔ _
    by_cases hid : id = tid
    · subst hid
      simp only [if_true]
      constructor
      · intro hr; have := (h2 id).1 hr; rw [hst] at this; cases this
      · intro hc; cases hc
    · simp only [hid, if_false]; exact h2 id
  · intro id
    rw [stateOf_removedBlocked]
    show id ∈ g.scheduler._readyThreadsQueue ↔ _
    by_cases hid : id = tid
    · subst hid
      simp only [if_true]
      constructor
      · intro hr; have := (h3 id).1 hr; rw [hst] at this; cases this
      · intro hc; cases hc
    · simp only [hid, if_false]; exact h3 id
  · intro id
    rw [stateOf_removedBlocked]
    show id ∈ g.scheduler._blockedThreadsMap.filter (fun k => decide (k ≠ tid)) ↔ _
    by_cases hid : id = tid
    · simp [hid]
    · simp only [hid, if_false, List.mem_filter, ne_eq, not_false_eq_true, decide_True,
        and_true]
      exact h4 id
  · intro id
    rw [stateOf_removedBlocked]
    by_cases hid : id = tid
    · simp [hid]
    · simp only [hid, if_false]; exact h5 id
  · rw [stateOf_removedBlocked]
    have hid : ¬ MAIN_THREAD = tid := by
      intro e
      rw [e, hst] at h7
      rcases h7 with h | h <;> cases h
    simp only [hid, if_false]
    exact h7

theorem removedReady_inv {g : Globals} {tid : Int} {t : Thread} (hI : Inv g)
    (ht : g.scheduler.thread tid = some t) (hs : t._state = READY) (hne : tid ≠ MAIN_THREAD) :
    Inv (removedReady g tid) := by
  obtain ⟨h1, h2, h3, h4, h5, h6, h7⟩ := (inv_iff g).1 hI
  have hst : stateOf g tid = some READY := by rw [stateOf_of_thread ht, hs]
  rw [inv_iff]
  refine ⟨h1, ?_, ?_, ?_, ?_, ?_, ?_⟩
  · intro id
    rw [stateOf_removedReady]
    show g.scheduler._runningThread = some id ↔ _
    by_cases hid : id = tid
    · subst hid
      simp only [if_true]
      constructor
      · intro hr; have := (h2 id).1 hr; rw [hst] at this; cases this
      · intro hc; cases hc
    · simp only [hid, if_false]; exact h2 id
  · intro id
    rw [stateOf_removedReady]
    show id ∈ g.scheduler._readyThreadsQueue.erase tid ↔ _
    rw [List.Nodup.mem_erase_iff h6]
    by_cases hid : id = tid
    · simp [hid]
    · simp only [hid, if_false, ne_eq, not_false_eq_true, true_and]; exact h3 id
  · intro id
    rw [stateOf_removedReady]
    show id ∈ g.scheduler._blockedThreadsMap ↔ _
    by_cases hid : id = tid
    · subst hid
      simp only [if_true]
      constructor
      · intro hr; have := (h4 id).1 hr; rw [hst] at this; cases this
      · intro hc; cases hc
    · simp only [hid, if_false]; exact h4 id
  · intro id
    rw [stateOf_removedReady]
    by_cases hid : id = tid
    · simp [hid]
    · simp only [hid, if_false]; exact h5 id
  · exact List.Nodup.erase tid h6
  · rw [stateOf_removedReady]
    have hid : ¬ MAIN_THREAD = tid := fun e => hne e.symm
    simp only [hid, if_false]
    exact h7

theorem terminate_inv {g : Globals} {tid : Int} {res : TerminateResult} (hI : Inv g)
    (h : uthread_terminate g tid = some res) :
    (∀ r g', res = .returned r g' → Inv g') ∧ (∀ g', res = .switched g' → Inv g') := by
  rcases (uthread_terminate_iff g tid res).1 h with ⟨_, rfl⟩ | ⟨t, ht, hcase⟩
  · refine ⟨?_, ?_⟩
    · intro r g' e; cases e; exact hI
    · intro g' e; cases e
  · rcases hcase with ⟨_, rfl⟩ | ⟨hne, hcase⟩
    · refine ⟨?_, ?_⟩
      · intro r g' e; cases e
      · intro g' e; cases e
    · rcases hcase with ⟨hs, g2, hsw, rfl⟩ | ⟨hs, rfl⟩ | ⟨hs, rfl⟩ | ⟨hs, rfl⟩
      · have hr := inv_running_of_state hI ht hs
        obtain ⟨hd, tl, hT, hl, hh, rfl⟩ := (terminateSelf_iff hI hr ht hne g2).1 hsw
        have hne2 := ready_ne_running hI hr
          (show hd ∈ g.scheduler._readyThreadsQueue by rw [hl]; simp)
        have hinv : Inv (dispatched (retiredState g tid t) hd hT tl) := by
          refine dispatched_inv (parked_retiredState hI hr ht hne) hl ?_
          rw [thread_retiredState_ne ht hne2]; exact hh
        rw [hl]
        simp only [reduceCtorEq, if_false]
        refine ⟨?_, ?_⟩
        · intro r g' e; cases e
        · intro g' e; cases e; exact hinv
      · refine ⟨?_, ?_⟩
        · intro r g' e; cases e; exact removedBlocked_inv hI ht hs
        · intro g' e; cases e
      · refine ⟨?_, ?_⟩
        · intro r g' e; cases e; exact removedReady_inv hI ht hs hne
        · intro g' e; cases e
      · exact absurd hs (hI.not_terminated tid t ht)

theorem inv_main_live {g : Globals} (hI : Inv g) :
    g.scheduler.containsKeyThreadsMap MAIN_THREAD = true := by
  obtain ⟨t, ht, _⟩ := hI.main_runnable
  exact (contains_iff _ _).2 ⟨t, ht⟩

theorem spawn_inv {g g' : Globals} {priority r : Int} (hI : Inv g)
    (h : uthread_spawn g priority = some (r, g')) : Inv g' := by
  rcases (uthread_spawn_iff g g' priority r).1 h with ⟨_, _, rfl⟩ | ⟨hf, hr, q, _, hcase⟩
  · exact hI
  · obtain ⟨_, _, hfree, _⟩ := getAvailableID_spec g.scheduler hf
    rw [← hr] at hfree
    rcases hcase with ⟨hm, _⟩ | ⟨hm, rfl⟩
    · rw [hm, inv_main_live hI] at hfree; cases hfree
    · obtain ⟨h1, h2, h3, h4, h5, h6, h7⟩ := (inv_iff g).1 hI
      have hst : stateOf g r = none := by
        unfold stateOf
        rw [(contains_false_iff _ _).1 hfree]; rfl
      have hnr : r ∉ g.scheduler._readyThreadsQueue := by
        intro hm; have := (h3 r).1 hm; rw [hst] at this; cases this
      rw [inv_iff]
      refine ⟨h1, ?_, ?_, ?_, ?_, ?_, ?_⟩
      · intro id
        rw [stateOf_spawnedState]
        show g.scheduler._runningThread = some id ↔ _
        by_cases hid : id = r
        · subst hid
          simp only [if_true, Option.some.injEq]
          constructor
          · intro hr; have := (h2 id).1 hr; rw [hst] at this; cases this
          · intro hc; cases hc
        · simp only [hid, if_false]; exact h2 id
      · intro id
        rw [stateOf_spawnedState]
        show id ∈ g.scheduler._readyThreadsQueue ++ [r] ↔ _
        by_cases hid : id = r
        · simp [hid]
        · simp only [hid, if_false, List.mem_append, List.mem_singleton, or_false]
          exact h3 id
      · intro id
        rw [stateOf_spawnedState]
        show id ∈ g.scheduler._blockedThreadsMap ↔ _
        by_cases hid : id = r
        · subst hid
          simp only [if_true, Option.some.injEq]
          constructor
          · intro hr; have := (h4 id).1 hr; rw [hst] at this; cases this
          · intro hc; cases hc
        · simp only [hid, if_false]; exact h4 id
      · intro id
        rw [stateOf_spawnedState]
        by_cases hid : id = r
        · simp [hid]
        · simp only [hid, if_false]; exact h5 id
      · show (g.scheduler._readyThreadsQueue ++ [r]).Nodup
        exact List.Nodup.append h6 (List.nodup_singleton r) (by simpa using hnr)
      · rw [stateOf_spawnedState]
        have hid : ¬ MAIN_THREAD = r := fun e => hm e.symm
        simp only [hid, if_false]
        exact h7

theorem step_inv {g g' : Globals} (hI : Inv g) (hs : Step g g') : Inv g' := by
  cases hs with
  | spawn _ priority r h => exact spawn_inv hI h
  | terminate _ tid r h => exact (terminate_inv hI h).1 _ g' rfl
  | terminateSelf _ tid h => exact (terminate_inv hI h).2 g' rfl
  | block _ tid r h => exact block_inv hI h
  | resume _ tid r h => exact resume_inv hI h
  | changePriority _ tid priority r h => exact change_priority_inv hI h
  | tick _ h => exact tick_inv hI h

theorem reachable_inv {g : Globals} (h : Reachable g) : Inv g := by
  induction h with
  | init quantum_usecs size g h => exact init_inv h
  | step g g' _ hs ih => exact step_inv ih hs

theorem thread_mem {s : Scheduler} {id : Int} {t : Thread} (h : s.thread id = some t) :
    t ∈ s._threadsMap := List.mem_of_find?_eq_some h

theorem put_keys (s : Scheduler) (t : Thread) :
    (s.put t)._threadsMap.map Thread._ID = s._threadsMap.map Thread._ID := by
  unfold Scheduler.put
  simp only [List.map_map]
  apply List.map_congr_left
  intro x _
  by_cases hx : x._ID = t._ID <;> simp [hx]

theorem mem_put {s : Scheduler} {t x : Thread} (h : x ∈ (s.put t)._threadsMap) :
    x ∈ s._threadsMap ∨ (x = t ∧ ∃ t0 ∈ s._threadsMap, t0._ID = t._ID) := by
  unfold Scheduler.put at h
  simp only [List.mem_map] at h
  obtain ⟨y, hy, rfl⟩ := h
  by_cases hx : y._ID = t._ID
  · rw [if_pos hx]
    exact Or.inr ⟨rfl, y, hy, hx⟩
  · rw [if_neg hx]
    exact Or.inl hy

theorem wf_congr {s u : Scheduler} (h1 : u._threadsMap = s._threadsMap)
    (h2 : u._totalQuantums = s._totalQuantums) (h : s.WF) : u.WF := by
  unfold Scheduler.WF at h ⊢
  rw [h1, h2]; exact h

theorem wf_put {s : Scheduler} {t : Thread} (h : s.WF)
    (hc : 0 ≤ t._countQuantums ∧ t._countQuantums ≤ s._totalQuantums) : (s.put t).WF := by
  obtain ⟨h1, h2, h3⟩ := h
  refine ⟨?_, ?_, h3⟩
  · rw [put_keys]; exact h1
  · intro x hx
    rcases mem_put hx with hm | ⟨rfl, t0, ht0, hid⟩
    · exact h2 x hm
    · obtain ⟨a, b, _, _⟩ := h2 t0 ht0
      rw [hid] at a b
      exact ⟨a, b, hc.1, hc.2⟩

theorem wf_incr {s : Scheduler} (h : s.WF) :
    ({ s with _totalQuantums := s._totalQuantums + 1 } : Scheduler).WF := by
  obtain ⟨h1, h2, h3⟩ := h
  refine ⟨h1, ?_, ?_⟩
  · intro x hx
    obtain ⟨a, b, c, d⟩ := h2 x hx
    exact ⟨a, b, c, by show x._countQuantums ≤ s._totalQuantums + 1; omega⟩
  · show 1 ≤ s._totalQuantums + 1; omega

theorem wf_remove {s : Scheduler} (tid : Int) (h : s.WF) : (s.removeFromThreadsMap tid).WF := by
  obtain ⟨h1, h2, h3⟩ := h
  refine ⟨?_, ?_, h3⟩
  · exact List.Nodup.sublist (List.Sublist.map _ (List.filter_sublist _)) h1
  · intro x hx
    exact h2 x (List.mem_of_mem_filter hx)

theorem wf_add {s : Scheduler} {t : Thread} (h : s.WF)
    (hid : 0 ≤ t._ID ∧ t._ID < 100)
    (hc : 0 ≤ t._countQuantums ∧ t._countQuantums ≤ s._totalQuantums) :
    (s.addThreadsMap t).WF := by
  obtain ⟨h1, h2, h3⟩ := h
  refine ⟨?_, ?_, h3⟩
  · show (t._ID :: (s._threadsMap.filter (fun x => decide (x._ID ≠ t.getID))).map Thread._ID).Nodup
    rw [List.nodup_cons]
    refine ⟨?_, List.Nodup.sublist (List.Sublist.map _ (List.filter_sublist _)) h1⟩
    intro hm
    simp only [List.mem_map, List.mem_filter] at hm
    obtain ⟨x, ⟨_, hx⟩, he⟩ := hm
    simp [Thread.getID, he] at hx
  · intro x hx
    have hx' : x = t ∨ x ∈ s._threadsMap.filter (fun x => decide (x._ID ≠ t.getID)) :=
      List.mem_cons.1 hx
    rcases hx' with rfl | hm
    · exact ⟨hid.1, hid.2, hc.1, hc.2⟩
    · exact h2 x (List.mem_of_mem_filter hm)

theorem wf_thread {s : Scheduler} (h : s.WF) {id : Int} {t : Thread}
    (ht : s.thread id = some t) :
    0 ≤ id ∧ id < 100 ∧ 0 ≤ t._countQuantums ∧ t._countQuantums ≤ s._totalQuantums := by
  have := h.2.1 t (thread_mem ht)
  rw [thread_id ht] at this
  exact this

theorem wf_stayed {g : Globals} {cur : Int} {curT : Thread} (h : g.scheduler.WF)
    (hc : g.scheduler.thread cur = some curT) : (stayed g curT).scheduler.WF := by
  obtain ⟨_, _, c, d⟩ := wf_thread h hc
  refine wf_put (wf_incr h) ⟨?_, ?_⟩
  · show 0 ≤ curT._countQuantums + 1; omega
  · show curT._countQuantums + 1 ≤ g.scheduler._totalQuantums + 1; omega

theorem wf_dispatched {g : Globals} {h : Int} {hT : Thread} (rest : List Int)
    (hw : g.scheduler.WF) (hh : g.scheduler.thread h = some hT) :
    (dispatched g h hT rest).scheduler.WF := by
  obtain ⟨_, _, c, d⟩ := wf_thread hw hh
  refine wf_put (wf_congr rfl rfl (wf_incr hw)) ⟨?_, ?_⟩
  · show 0 ≤ hT._countQuantums + 1; omega
  · show hT._countQuantums + 1 ≤ g.scheduler._totalQuantums + 1; omega

theorem wf_preempted {g : Globals} {cur : Int} {curT : Thread} (h : g.scheduler.WF)
    (hc : g.scheduler.thread cur = some curT) : (preempted g cur curT).scheduler.WF := by
  obtain ⟨_, _, c, d⟩ := wf_thread h hc
  exact wf_congr rfl rfl (wf_put (t := curT.setState READY) h ⟨c, d⟩)

theorem wf_blockedState {g : Globals} {tid : Int} {t : Thread} (h : g.scheduler.WF)
    (ht : g.scheduler.thread tid = some t) : (blockedState g tid t).scheduler.WF := by
  obtain ⟨_, _, c, d⟩ := wf_thread h ht
  exact wf_put (t := t.setState BLOCKED)
    (wf_congr (s := g.scheduler) (u := g.scheduler.addBlockedThreadsMap tid) rfl rfl h) ⟨c, d⟩

theorem wf_resumedState {g : Globals} {tid : Int} {t : Thread} (h : g.scheduler.WF)
    (ht : g.scheduler.thread tid = some t) : (resumedState g tid t).scheduler.WF := by
  obtain ⟨_, _, c, d⟩ := wf_thread h ht
  exact wf_congr rfl rfl (wf_put (t := t.setState READY) h ⟨c, d⟩)

theorem wf_retiredState {g : Globals} {tid : Int} {t : Thread} (h : g.scheduler.WF)
    (ht : g.scheduler.thread tid = some t) : (retiredState g tid t).scheduler.WF := by
  obtain ⟨_, _, c, d⟩ := wf_thread h ht
  exact wf_congr rfl rfl (wf_remove tid (wf_put (t := t.setState TERMINATED) h ⟨c, d⟩))

theorem wf_removedBlocked {g : Globals} (tid : Int) (h : g.scheduler.WF) :
    (removedBlocked g tid).scheduler.WF :=
  wf_remove tid (wf_congr (s := g.scheduler)
    (u := g.scheduler.removeFromBlockedThreadsMap tid) rfl rfl h)

theorem wf_removedReady {g : Globals} (tid : Int) (h : g.scheduler.WF) :
    (removedReady g tid).scheduler.WF :=
  wf_remove tid (wf_congr (s := g.scheduler)
    (u := g.scheduler.removeFromReadyThreadsQueue tid) rfl rfl h)

theorem wf_spawnedState {g : Globals} {r : Int} (q priority : Int) (h : g.scheduler.WF)
    (hr : 0 ≤ r ∧ r < 100) : (spawnedState g r q priority).scheduler.WF := by
  have h3 := h.2.2
  refine wf_add (wf_congr (s := g.scheduler) (u := g.scheduler.addReadyThreadsQueue r)
    rfl rfl h) hr ⟨?_, ?_⟩
  · show (0 : Int) ≤ 0; omega
  · show (0 : Int) ≤ g.scheduler._totalQuantums; omega

theorem wf_initState (quantum_usecs : List Int) (size q : Int) :
    (initState quantum_usecs size q).scheduler.WF := by
  refine ⟨?_, ?_, ?_⟩
  · show ([MAIN_THREAD] : List Int).Nodup
    simp
  · intro x hx
    have : x = Thread.new MAIN_THREAD q MAIN_THREAD RUNNING 1 := by
      have h' : x ∈ [Thread.new MAIN_THREAD q MAIN_THREAD RUNNING 1] := hx
      simpa using h'
    subst this
    simp [Thread.new, MAIN_THREAD]
    show (1 : Int) ≤ INIT_TOTAL_QUANTUMS
    decide
  · show (1 : Int) ≤ INIT_TOTAL_QUANTUMS
    decide

theorem step_iff_applyOp (g g' : Globals) : Step g g' ↔ ∃ op, applyOp g op = some g' := by
  constructor
  · intro h
    cases h with
    | spawn priority r _ h => exact ⟨.spawn priority, by simp [applyOp, h]⟩
    | terminate tid r _ h => exact ⟨.terminate tid, by simp [applyOp, h]⟩
    | terminateSelf tid _ h => exact ⟨.terminate tid, by simp [applyOp, h]⟩
    | block tid r _ h => exact ⟨.block tid, by simp [applyOp, h]⟩
    | resume tid r _ h => exact ⟨.resume tid, by simp [applyOp, h]⟩
    | changePriority tid priority r _ h =>
      exact ⟨.changePriority tid priority, by simp [applyOp, h]⟩
    | tick _ h => exact ⟨.tick, h⟩
  · rintro ⟨op, h⟩
    cases op with
    | spawn priority =>
      simp only [applyOp, Option.map_eq_some', Prod.exists, exists_eq_right] at h
      obtain ⟨r, h⟩ := h
      exact Step.spawn g priority r g' h
    | terminate tid =>
      simp only [applyOp] at h
      split at h
      · rename_i r g1 he
        cases h
        exact Step.terminate g tid r g' he
      · rename_i g1 he
        cases h
        exact Step.terminateSelf g tid g' he
      · cases h
    | block tid =>
      simp only [applyOp, Option.map_eq_some', Prod.exists, exists_eq_right] at h
      obtain ⟨r, h⟩ := h
      exact Step.block g tid r g' h
    | resume tid =>
      simp only [applyOp, Option.map_eq_some', Prod.exists, exists_eq_right] at h
      obtain ⟨r, h⟩ := h
      exact Step.resume g tid r g' h
    | changePriority tid priority =>
      simp only [applyOp, Option.map_eq_some', Prod.exists, exists_eq_right] at h
      obtain ⟨r, h⟩ := h
      exact Step.changePriority g tid priority r g' h
    | tick => exact Step.tick g g' h

theorem invokes_false_of_state {g : Globals} {tid : Int} {t : Thread}
    (ht : g.scheduler.thread tid = some t) (hs : t._state ≠ RUNNING) :
    (decide (tid ≠ MAIN_THREAD) && decide (stateOf g tid = some RUNNING)) = false := by
  rw [stateOf_of_thread ht]
  simp [hs]

theorem invokes_true_of_state {g : Globals} {tid : Int} {t : Thread}
    (ht : g.scheduler.thread tid = some t) (hs : t._state = RUNNING) (hne : tid ≠ MAIN_THREAD) :
    (decide (tid ≠ MAIN_THREAD) && decide (stateOf g tid = some RUNNING)) = true := by
  rw [stateOf_of_thread ht]
  simp [hs, hne]

theorem invokes_false_of_none {g : Globals} {tid : Int}
    (ht : g.scheduler.thread tid = none) :
    (decide (tid ≠ MAIN_THREAD) && decide (stateOf g tid = some RUNNING)) = false := by
  unfold stateOf
  rw [ht]
  simp

theorem op_effect {g g' : Globals} {op : Op} (hI : Inv g) (h : applyOp g op = some g') :
    Effect g (invokesSwitch g op) g' := by
  cases op with
  | spawn priority =>
    simp only [applyOp, Option.map_eq_some', Prod.exists, exists_eq_right] at h
    obtain ⟨r, h⟩ := h
    simp only [invokesSwitch]
    rcases (uthread_spawn_iff g g' priority r).1 h with ⟨_, _, rfl⟩ | ⟨hf, hr, q, hq, hcase⟩
    · exact Effect.unchanged
    · obtain ⟨h0, h100, hfree, _⟩ := getAvailableID_spec g.scheduler hf
      rw [← hr] at hfree h0 h100
      rcases hcase with ⟨hm, _⟩ | ⟨hm, rfl⟩
      · rw [hm, inv_main_live hI] at hfree; cases hfree
      · have hpos : 0 < r := by
          have : r ≠ 0 := hm
          omega
        exact Effect.spawned r q priority ((contains_false_iff _ _).1 hfree) hr.symm
          ⟨hpos, h100⟩ hq
  | terminate tid =>
    simp only [applyOp] at h
    simp only [invokesSwitch]
    cases hres : uthread_terminate g tid with
    | none => rw [hres] at h; cases h
    | some res =>
      rw [hres] at h
      rcases (uthread_terminate_iff g tid res).1 hres with ⟨hn, rfl⟩ | ⟨t, ht, hcase⟩
      · simp only [Option.some.injEq] at h
        subst h
        rw [invokes_false_of_none hn]
        exact Effect.unchanged
      · rcases hcase with ⟨_, rfl⟩ | ⟨hne, hcase⟩
        · cases h
        · rcases hcase with ⟨hs, g2, hsw, rfl⟩ | ⟨hs, rfl⟩ | ⟨hs, rfl⟩ | ⟨hs, rfl⟩
          · have hr := inv_running_of_state hI ht hs
            obtain ⟨hd, tl, hT, hl, hh, rfl⟩ := (terminateSelf_iff hI hr ht hne g2).1 hsw
            have hne2 := ready_ne_running hI hr
              (show hd ∈ g.scheduler._readyThreadsQueue by rw [hl]; simp)
            rw [hl] at h
            simp only [reduceCtorEq, if_false, Option.some.injEq] at h
            subst h
            rw [invokes_true_of_state ht hs hne]
            exact Effect.selfTerminated tid t hd tl hT hr ht hne hl hh hne2
          · simp only [Option.some.injEq] at h
            subst h
            rw [invokes_false_of_state ht (by rw [hs]; decide)]
            exact Effect.removedBlocked tid t ht hs
          · simp only [Option.some.injEq] at h
            subst h
            rw [invokes_false_of_state ht (by rw [hs]; decide)]
            exact Effect.removedReady tid t ht hs hne
          · exact absurd hs (hI.not_terminated tid t ht)
  | block tid =>
    simp only [applyOp, Option.map_eq_some', Prod.exists, exists_eq_right] at h
    obtain ⟨r, h⟩ := h
    simp only [invokesSwitch]
    rcases (uthread_block_iff g g' tid r).1 h with ⟨hn, _, rfl⟩ | ⟨t, ht, hcase⟩
    · rw [invokes_false_of_none hn]
      exact Effect.unchanged
    · rcases hcase with ⟨hm, _, rfl⟩ | ⟨hne, _, hcase⟩
      · simp only [hm, ne_eq, not_true_eq_false, decide_False, Bool.false_and]
        exact Effect.unchanged
      · rcases hcase with ⟨hs, hsw⟩ | ⟨hs, rfl⟩ | ⟨hs, _, rfl⟩
        · have hr := inv_running_of_state hI ht hs
          obtain ⟨hd, tl, hT, hl, hh, rfl⟩ := (blockSelf_iff hI hr ht hne g').1 hsw
          have hne2 := ready_ne_running hI hr
            (show hd ∈ g.scheduler._readyThreadsQueue by rw [hl]; simp)
          rw [invokes_true_of_state ht hs hne]
          exact Effect.selfBlocked tid t hd tl hT hr ht hne hl hh hne2
        · rw [invokes_false_of_state ht (by rw [hs]; decide)]
          exact Effect.blockedReady tid t ht hs hne
        · rw [invokes_false_of_state ht hs]
          exact Effect.unchanged
  | resume tid =>
    simp only [applyOp, Option.map_eq_some', Prod.exists, exists_eq_right] at h
    obtain ⟨r, h⟩ := h
    simp only [invokesSwitch]
    rcases (uthread_resume_iff g g' tid r).1 h with ⟨_, _, rfl⟩ | ⟨t, ht, _, hcase⟩
    · exact Effect.unchanged
    · rcases hcase with ⟨hs, rfl⟩ | ⟨_, rfl⟩
      · exact Effect.resumed tid t ht hs
      · exact Effect.unchanged
  | changePriority tid priority =>
    simp only [applyOp, Option.map_eq_some', Prod.exists, exists_eq_right] at h
    obtain ⟨r, h⟩ := h
    simp only [invokesSwitch]
    rcases (uthread_change_priority_iff g g' tid priority r).1 h with
      ⟨_, _, rfl⟩ | ⟨t, ht, hcase⟩
    · exact Effect.unchanged
    · rcases hcase with ⟨_, _, rfl⟩ | ⟨hp, _, rfl⟩
      · exact Effect.unchanged
      · exact Effect.reprioritised tid t priority ht hp
  | tick =>
    simp only [applyOp] at h
    simp only [invokesSwitch]
    obtain ⟨cur, curT, hr, hc, hcase⟩ := (tick_iff hI g').1 h
    rcases hcase with ⟨hq, _, rfl⟩ | ⟨hd, tl, hT, hl, hh, _, rfl⟩
    · exact Effect.stayed cur curT hr hc hq
    · have hne2 := ready_ne_running hI hr
        (show hd ∈ g.scheduler._readyThreadsQueue by rw [hl]; simp)
      exact Effect.preempted cur curT hd tl hT hr hc hl hh hne2

theorem effect_wf {g g' : Globals} {b : Bool} (he : Effect g b g') (hw : g.scheduler.WF) :
    g'.scheduler.WF := by
  cases he with
  | unchanged => exact hw
  | spawned r q priority hfree hid hr hq => exact wf_spawnedState q priority hw ⟨by omega, hr.2⟩
  | removedBlocked tid t ht hs => exact wf_removedBlocked tid hw
  | removedReady tid t ht hs hne => exact wf_removedReady tid hw
  | blockedReady tid t ht hs hne =>
    have hw' : (g.scheduler.removeFromReadyThreadsQueue tid).WF :=
      wf_congr (s := g.scheduler) rfl rfl hw
    exact wf_blockedState (g := ⟨g.timer, g.scheduler.removeFromReadyThreadsQueue tid⟩) hw' ht
  | resumed tid t ht hs => exact wf_resumedState hw ht
  | reprioritised tid t priority ht hp =>
    obtain ⟨_, _, c, d⟩ := wf_thread hw ht
    exact wf_put (t := t.setPriority priority) hw ⟨c, d⟩
  | selfTerminated tid t h tl hT hr ht hne hq hh hne2 =>
    refine wf_dispatched tl (wf_retiredState hw ht) ?_
    rw [thread_retiredState_ne ht hne2]; exact hh
  | selfBlocked tid t h tl hT hr ht hne hq hh hne2 =>
    refine wf_dispatched tl (wf_blockedState hw ht) ?_
    rw [thread_blockedState_ne ht hne2]; exact hh
  | stayed cur curT hr hc hq => exact wf_stayed hw hc
  | preempted cur curT h tl hT hr hc hq hh hne2 =>
    refine wf_dispatched _ (wf_preempted hw hc) ?_
    rw [thread_preempted_ne hc hne2]; exact hh

theorem reachable_wf {g : Globals} (h : Reachable g) : g.scheduler.WF := by
  induction h with
  | init quantum_usecs size g h =>
    obtain ⟨_, _, q, _, rfl⟩ := (uthread_init_iff _ _ _).1 h
    exact wf_initState _ _ _
  | step g g' hr hs ih =>
    obtain ⟨op, hop⟩ := (step_iff_applyOp g g').1 hs
    exact effect_wf (op_effect (reachable_inv hr) hop) ih

/-! ## Executions and example states -/

theorem run_reachable {g g' : Globals} (ops : List Op) (hr : Reachable g)
    (h : run g ops = some g') : Reachable g' := by
  induction ops generalizing g with
  | nil =>
    simp only [run, Option.some.injEq] at h
    subst h; exact hr
  | cons op ops ih =>
    simp only [run] at h
    split at h
    · cases h
    · rename_i g1 hop
      exact ih (Reachable.step g g1 hr ((step_iff_applyOp g g1).2 ⟨op, hop⟩)) h

theorem runFromInit_reachable {quantum_usecs : List Int} {size : Int} {ops : List Op}
    {g : Globals} (h : runFromInit quantum_usecs size ops = some g) : Reachable g := by
  unfold runFromInit at h
  cases hi : uthread_init quantum_usecs size with
  | none => rw [hi] at h; cases h
  | some res =>
    obtain ⟨r, og⟩ := res
    cases og with
    | none => rw [hi] at h; cases h
    | some g0 =>
      rw [hi] at h
      simp only at h
      have hr0 : r = SUCCESS := by
        unfold uthread_init at hi
        split at hi
        · cases hi
        · split at hi
          · cases hi
          · cases hi
          · simp only at hi
            split at hi
            · cases hi
            · split at hi
              · cases hi
              · cases hi; rfl
      subst hr0
      exact run_reachable ops (Reachable.init quantum_usecs size g0 hi) h

theorem exRoundRobin_run :
    runFromInit [100000, 200000] 2 [.spawn 0, .tick, .tick] = some exRoundRobin := by
  decide

theorem exThree_run :
    runFromInit [100000, 200000] 2 [.spawn 0, .spawn 0, .tick, .tick] = some exThree := by
  decide

theorem exBlocked_run :
    runFromInit [1000000] 1 [.spawn 0, .spawn 0, .spawn 0, .tick, .block 1, .tick]
      = some exBlocked := by
  decide

theorem exRoundRobin_reachable : Reachable exRoundRobin :=
  runFromInit_reachable exRoundRobin_run

theorem exThree_reachable : Reachable exThree := runFromInit_reachable exThree_run

theorem exBlocked_reachable : Reachable exBlocked := runFromInit_reachable exBlocked_run

/-! ## The ready queue across one operation -/

theorem filter_not_mem_nil (l : List Int) :
    l.filter (fun x => decide (x ∉ ([] : List Int))) = l := by
  simp

theorem erase_eq_filter_single {l : List Int} (hn : l.Nodup) (a : Int) :
    l.erase a = l.filter (fun x => decide (x ∉ [a])) := by
  rw [List.Nodup.erase_eq_filter hn]
  apply List.filter_congr
  intro x _
  by_cases hx : x = a <;> simp [hx]

theorem tail_eq_filter_single {h : Int} {tl : List Int} (hn : (h :: tl).Nodup) :
    tl = (h :: tl).filter (fun x => decide (x ∉ [h])) := by
  have := erase_eq_filter_single hn h
  simpa using this

theorem effect_queue {g g' : Globals} {b : Bool} (he : Effect g b g') (hI : Inv g) :
    ∃ removed added : List Int,
      g'.scheduler._readyThreadsQueue =
        g.scheduler._readyThreadsQueue.filter (fun x => decide (x ∉ removed)) ++ added ∧
      ∀ x, x ∈ added → x ∉ g.scheduler._readyThreadsQueue := by
  have hnd := hI.ready_nodup
  have hnot : ∀ (id : Int) (t : Thread), g.scheduler.thread id = some t → t._state ≠ READY →
      id ∉ g.scheduler._readyThreadsQueue := by
    intro id t ht hs hm
    obtain ⟨t', ht', hs'⟩ := (hI.ready_iff id).1 hm
    rw [ht] at ht'; cases ht'; exact hs hs'
  cases he with
  | unchanged => exact ⟨[], [], by simp, by simp⟩
  | spawned r q priority hfree hid hr hq =>
    refine ⟨[], [r], ?_, ?_⟩
    · show g.scheduler._readyThreadsQueue ++ [r] = _
      simp
    · intro x hx hm
      simp only [List.mem_singleton] at hx
      subst hx
      obtain ⟨t', ht', _⟩ := (hI.ready_iff x).1 hm
      rw [hfree] at ht'; cases ht'
  | removedBlocked tid t ht hs =>
    refine ⟨[], [], ?_, by simp⟩
    show g.scheduler._readyThreadsQueue = _
    simp
  | removedReady tid t ht hs hne =>
    refine ⟨[tid], [], ?_, by simp⟩
    show g.scheduler._readyThreadsQueue.erase tid = _
    rw [erase_eq_filter_single hnd]; simp
  | blockedReady tid t ht hs hne =>
    refine ⟨[tid], [], ?_, by simp⟩
    show g.scheduler._readyThreadsQueue.erase tid = _
    rw [erase_eq_filter_single hnd]; simp
  | resumed tid t ht hs =>
    refine ⟨[], [tid], ?_, ?_⟩
    · show g.scheduler._readyThreadsQueue ++ [tid] = _
      simp
    · intro x hx
      simp only [List.mem_singleton] at hx
      subst hx
      exact hnot x t ht (by rw [hs]; decide)
  | reprioritised tid t priority ht hp =>
    refine ⟨[], [], ?_, by simp⟩
    show g.scheduler._readyThreadsQueue = _
    simp
  | selfTerminated tid t h tl hT hr ht hne hq hh hne2 =>
    refine ⟨[h], [], ?_, by simp⟩
    show tl = _
    rw [hq] at hnd ⊢
    rw [← tail_eq_filter_single hnd]; simp
  | selfBlocked tid t h tl hT hr ht hne hq hh hne2 =>
    refine ⟨[h], [], ?_, by simp⟩
    show tl = _
    rw [hq] at hnd ⊢
    rw [← tail_eq_filter_single hnd]; simp
  | stayed cur curT hr hc hq =>
    refine ⟨[], [], ?_, by simp⟩
    show g.scheduler._readyThreadsQueue = _
    simp
  | preempted cur curT h tl hT hr hc hq hh hne2 =>
    refine ⟨[h], [cur], ?_, ?_⟩
    · show tl ++ [cur] = _
      rw [hq] at hnd ⊢
      rw [← tail_eq_filter_single hnd]
    · intro x hx
      simp only [List.mem_singleton] at hx
      subst hx
      exact hnot x curT hc (by rw [inv_running_state hI hr hc]; decide)

theorem effect_running {g g' : Globals} {b : Bool} (he : Effect g b g') :
    g'.scheduler._runningThread = g.scheduler._runningThread ∨
    ∃ h tl, g.scheduler._readyThreadsQueue = h :: tl ∧
      g'.scheduler._runningThread = some h := by
  cases he with
  | unchanged => exact Or.inl rfl
  | spawned r q priority hfree hid hr hq => exact Or.inl rfl
  | removedBlocked tid t ht hs => exact Or.inl rfl
  | removedReady tid t ht hs hne => exact Or.inl rfl
  | blockedReady tid t ht hs hne => exact Or.inl rfl
  | resumed tid t ht hs => exact Or.inl rfl
  | reprioritised tid t priority ht hp => exact Or.inl rfl
  | selfTerminated tid t h tl hT hr ht hne hq hh hne2 => exact Or.inr ⟨h, tl, hq, rfl⟩
  | selfBlocked tid t h tl hT hr ht hne hq hh hne2 => exact Or.inr ⟨h, tl, hq, rfl⟩
  | stayed cur curT hr hc hq => exact Or.inl rfl
  | preempted cur curT h tl hT hr hc hq hh hne2 => exact Or.inr ⟨h, tl, hq, rfl⟩

theorem step_effect {g g' : Globals} (hI : Inv g) (hs : Step g g') : ∃ b, Effect g b g' := by
  obtain ⟨op, hop⟩ := (step_iff_applyOp g g').1 hs
  exact ⟨_, op_effect hI hop⟩

theorem takeWhile_append_of_mem (a : Int) (l m : List Int) (h : a ∈ l) :
    (l ++ m).takeWhile (fun x => decide (x ≠ a)) = l.takeWhile (fun x => decide (x ≠ a)) := by
  induction l with
  | nil => cases h
  | cons y l ih =>
    by_cases hy : y = a
    · simp [List.takeWhile, hy]
    · have hm : a ∈ l := by
        rcases List.mem_cons.1 h with e | e
        · exact absurd e.symm hy
        · exact e
      have ih' := ih hm
      simp only [ne_eq, decide_not] at ih'
      simp [List.takeWhile, hy, ih']

theorem mem_takeWhile_filter (a : Int) (p : Int → Bool) (hp : p a = true) (l : List Int)
    (x : Int) (h : x ∈ (l.filter p).takeWhile (fun x => decide (x ≠ a))) :
    x ∈ l.takeWhile (fun x => decide (x ≠ a)) := by
  induction l with
  | nil => simp at h
  | cons y l ih =>
    by_cases hy : y = a
    · subst hy
      simp [List.filter, hp, List.takeWhile] at h
    · by_cases hpy : p y = true
      · simp only [List.filter, hpy, List.takeWhile, hy, ne_eq, not_false_eq_true, decide_True,
          List.mem_cons] at h ⊢
        rcases h with e | e
        · exact Or.inl e
        · exact Or.inr (ih e)
      · have hpy' : p y = false := by simpa using hpy
        simp only [List.filter, hpy'] at h
        simp only [List.takeWhile, hy, ne_eq, not_false_eq_true, decide_True, List.mem_cons]
        exact Or.inr (ih h)

theorem mem_takeWhile_mem (a x : Int) (l : List Int)
    (h : x ∈ l.takeWhile (fun x => decide (x ≠ a))) : x ∈ l :=
  (List.takeWhile_sublist _).subset h

/-! ## Properties of the specification -/

/-- C1: in every state reachable from a successful `uthread_init` by public
calls and timer ticks, the running id, the ids of the ready queue and the ids of
the blocked map are pairwise disjoint, and an id is a key of the thread table
exactly when it is one of them. -/
theorem C1_live_ids_partitioned (g : Globals) (h : Reachable g) :
    ∃ r, g.scheduler._runningThread = some r ∧
      r ∉ g.scheduler._readyThreadsQueue ∧ r ∉ g.scheduler._blockedThreadsMap ∧
      (∀ id, id ∈ g.scheduler._readyThreadsQueue → id ∉ g.scheduler._blockedThreadsMap) ∧
      (∀ id, g.scheduler.containsKeyThreadsMap id = true ↔
        (id = r ∨ id ∈ g.scheduler._readyThreadsQueue ∨
          id ∈ g.scheduler._blockedThreadsMap)) := by
  have hI := reachable_inv h
  obtain ⟨⟨r, hr⟩, h2, h3, h4, h5, _, _⟩ := (inv_iff g).1 hI
  have hrs : stateOf g r = some RUNNING := (h2 r).1 hr
  refine ⟨r, hr, ?_, ?_, ?_, ?_⟩
  · intro hm; have := (h3 r).1 hm; rw [hrs] at this; cases this
  · intro hm; have := (h4 r).1 hm; rw [hrs] at this; cases this
  · intro id hm hb
    have h1 := (h3 id).1 hm
    have h2' := (h4 id).1 hb
    rw [h1] at h2'; cases h2'
  · intro id
    rw [contains_iff]
    constructor
    · rintro ⟨t, ht⟩
      have hs := stateOf_of_thread ht
      cases hst : t._state with
      | RUNNING =>
        rw [hst] at hs
        have := (h2 id).2 hs
        rw [hr] at this
        exact Or.inl (Option.some.inj this).symm
      | BLOCKED => rw [hst] at hs; exact Or.inr (Or.inr ((h4 id).2 hs))
      | READY => rw [hst] at hs; exact Or.inr (Or.inl ((h3 id).2 hs))
      | TERMINATED => rw [hst] at hs; exact absurd hs (h5 id)
    · rintro (rfl | hm | hm)
      · obtain ⟨t, ht, _⟩ := (exists_state_iff g id RUNNING).2 hrs
        exact ⟨t, ht⟩
      · obtain ⟨t, ht, _⟩ := (exists_state_iff g id READY).2 ((h3 id).1 hm)
        exact ⟨t, ht⟩
      · obtain ⟨t, ht, _⟩ := (exists_state_iff g id BLOCKED).2 ((h4 id).1 hm)
        exact ⟨t, ht⟩

/-- Witness of C1 at the example state `exBlocked`, which has a running, two
ready and one blocked thread. -/
theorem C1_live_ids_partitioned_witness :
    Reachable exBlocked ∧
    ∃ r, exBlocked.scheduler._runningThread = some r ∧
      r ∉ exBlocked.scheduler._readyThreadsQueue ∧
      r ∉ exBlocked.scheduler._blockedThreadsMap ∧
      (∀ id, id ∈ exBlocked.scheduler._readyThreadsQueue →
        id ∉ exBlocked.scheduler._blockedThreadsMap) ∧
      (∀ id, exBlocked.scheduler.containsKeyThreadsMap id = true ↔
        (id = r ∨ id ∈ exBlocked.scheduler._readyThreadsQueue ∨
          id ∈ exBlocked.scheduler._blockedThreadsMap)) :=
  ⟨exBlocked_reachable, C1_live_ids_partitioned exBlocked exBlocked_reachable⟩

/-- C2: in every reachable state the running thread is live with state
RUNNING, no other live thread has state RUNNING, every thread of the ready
queue has state READY and every thread of the blocked map has state BLOCKED. -/
theorem C2_states_agree_with_placement (g : Globals) (h : Reachable g) :
    (∃ r t, g.scheduler._runningThread = some r ∧ g.scheduler.thread r = some t ∧
      t._state = RUNNING) ∧
    (∀ id t, g.scheduler.thread id = some t → t._state = RUNNING →
      g.scheduler._runningThread = some id) ∧
    (∀ id, id ∈ g.scheduler._readyThreadsQueue →
      ∃ t, g.scheduler.thread id = some t ∧ t._state = READY) ∧
    (∀ id, id ∈ g.scheduler._blockedThreadsMap →
      ∃ t, g.scheduler.thread id = some t ∧ t._state = BLOCKED) := by
  have hI := reachable_inv h
  refine ⟨?_, ?_, ?_, ?_⟩
  · obtain ⟨r, hr⟩ := hI.has_running
    obtain ⟨t, ht, hs⟩ := (hI.running_iff r).1 hr
    exact ⟨r, t, hr, ht, hs⟩
  · intro id t ht hs
    exact (hI.running_iff id).2 ⟨t, ht, hs⟩
  · intro id hm
    exact (hI.ready_iff id).1 hm
  · intro id hm
    exact (hI.blocked_iff id).1 hm

/-- Witness of C2 at the example state `exBlocked`. -/
theorem C2_states_agree_with_placement_witness :
    Reachable exBlocked ∧
    ((∃ r t, exBlocked.scheduler._runningThread = some r ∧
        exBlocked.scheduler.thread r = some t ∧ t._state = RUNNING) ∧
     (∀ id t, exBlocked.scheduler.thread id = some t → t._state = RUNNING →
        exBlocked.scheduler._runningThread = some id) ∧
     (∀ id, id ∈ exBlocked.scheduler._readyThreadsQueue →
        ∃ t, exBlocked.scheduler.thread id = some t ∧ t._state = READY) ∧
     (∀ id, id ∈ exBlocked.scheduler._blockedThreadsMap →
        ∃ t, exBlocked.scheduler.thread id = some t ∧ t._state = BLOCKED)) :=
  ⟨exBlocked_reachable, C2_states_agree_with_placement exBlocked exBlocked_reachable⟩

theorem chain_reachable (f : Nat → Globals) (n : Nat) (h0 : Reachable (f 0))
    (hstep : ∀ i, i < n → Step (f i) (f (i + 1))) : ∀ i, i ≤ n → Reachable (f i) := by
  intro i
  induction i with
  | zero => intro _; exact h0
  | succ k ih =>
    intro hk
    exact Reachable.step (f k) (f (k + 1)) (ih (by omega)) (hstep k (by omega))

/-- C3: along every execution from a reachable state, (1) whenever the running
thread changes, the new running thread is the front of the ready queue, and
a switch that finds the queue `h :: tl` makes `h` run; (2) the new queue is the
old one with some entries removed, in the same order, followed by entries that
were not in it (new READY threads go to the back); (3) hence, if `a` waits in
the queue during the execution and `b` was not yet in the queue at its start,
`b` is never dispatched from the queue during it: `a` is dispatched first. -/
theorem C3_fifo_dispatch (f : Nat → Globals) (n : Nat) (h0 : Reachable (f 0))
    (hstep : ∀ i, i < n → Step (f i) (f (i + 1))) :
    (∀ i, i < n →
      ((f (i + 1)).scheduler._runningThread ≠ (f i).scheduler._runningThread →
        (f (i + 1)).scheduler._runningThread = (f i).scheduler._readyThreadsQueue.head?) ∧
      (∀ h tl, (f i).scheduler._readyThreadsQueue = h :: tl →
        switchThreads (f i) = some (f (i + 1)) →
        (f (i + 1)).scheduler._runningThread = some h)) ∧
    (∀ i, i < n → ∃ removed added : List Int,
      (f (i + 1)).scheduler._readyThreadsQueue =
        (f i).scheduler._readyThreadsQueue.filter (fun x => decide (x ∉ removed)) ++ added ∧
      ∀ x, x ∈ added → x ∉ (f i).scheduler._readyThreadsQueue) ∧
    (∀ a b : Int, (∀ i, i < n → a ∈ (f i).scheduler._readyThreadsQueue) →
      b ∉ (f 0).scheduler._readyThreadsQueue →
      ∀ i, i < n → b ∈ (f i).scheduler._readyThreadsQueue →
        (f (i + 1)).scheduler._runningThread ≠ some b) := by
  have hreach := chain_reachable f n h0 hstep
  have hinv : ∀ i, i ≤ n → Inv (f i) := fun i hi => reachable_inv (hreach i hi)
  have heff : ∀ i, i < n → ∃ b, Effect (f i) b (f (i + 1)) :=
    fun i hi => step_effect (hinv i (by omega)) (hstep i hi)
  have h1 : ∀ i, i < n →
      (f (i + 1)).scheduler._runningThread ≠ (f i).scheduler._runningThread →
      (f (i + 1)).scheduler._runningThread = (f i).scheduler._readyThreadsQueue.head? := by
    intro i hi hne
    obtain ⟨b, he⟩ := heff i hi
    rcases effect_running he with e | ⟨h, tl, hq, hr⟩
    · exact absurd e hne
    · rw [hq, hr]; rfl
  have h2 : ∀ i, i < n → ∃ removed added : List Int,
      (f (i + 1)).scheduler._readyThreadsQueue =
        (f i).scheduler._readyThreadsQueue.filter (fun x => decide (x ∉ removed)) ++ added ∧
      ∀ x, x ∈ added → x ∉ (f i).scheduler._readyThreadsQueue := by
    intro i hi
    obtain ⟨b, he⟩ := heff i hi
    exact effect_queue he (hinv i (by omega))
  refine ⟨?_, h2, ?_⟩
  · intro i hi
    refine ⟨h1 i hi, ?_⟩
    intro h tl hq hsw
    obtain ⟨cur, curT, hr, hc, hcase⟩ := (tick_iff (hinv i (by omega)) _).1 hsw
    rcases hcase with ⟨hq', _⟩ | ⟨h', tl', hT, hq', _, e⟩
    · rw [hq] at hq'; cases hq'
    · rw [hq] at hq'
      cases hq'
      rw [e]; rfl
  · intro a b ha hb0
    have key : ∀ i, i < n →
        b ∉ ((f i).scheduler._readyThreadsQueue).takeWhile (fun x => decide (x ≠ a)) := by
      intro i
      induction i with
      | zero =>
        intro _ hm
        exact hb0 (mem_takeWhile_mem a b _ hm)
      | succ k ih =>
        intro hk hm
        have hk' : k < n := by omega
        obtain ⟨removed, added, hq, hadd⟩ := h2 k hk'
        have hak := ha k hk'
        have hak1 := ha (k + 1) hk
        rw [hq] at hak1 hm
        have hafil : a ∈ (f k).scheduler._readyThreadsQueue.filter
            (fun x => decide (x ∉ removed)) := by
          rcases List.mem_append.1 hak1 with e | e
          · exact e
          · exact absurd hak (hadd a e)
        rw [takeWhile_append_of_mem a _ _ hafil] at hm
        have hpa : (fun x => decide (x ∉ removed)) a = true := (List.mem_filter.1 hafil).2
        exact ih hk' (mem_takeWhile_filter a _ hpa _ b hm)
    intro i hi hbi hrun
    have hI := hinv i (by omega)
    have hne : (f (i + 1)).scheduler._runningThread ≠ (f i).scheduler._runningThread := by
      intro e
      rw [hrun] at e
      exact ready_ne_running hI e.symm hbi rfl
    have hhead := h1 i hi hne
    rw [hrun] at hhead
    have hab : b ≠ a := by
      intro e
      have h0' := ha 0 (by omega)
      rw [e] at hb0
      exact hb0 h0'
    cases hl : (f i).scheduler._readyThreadsQueue with
    | nil => rw [hl] at hbi; cases hbi
    | cons x tl =>
      rw [hl] at hhead
      simp only [List.head?_cons, Option.some.injEq] at hhead
      subst hhead
      apply key i hi
      rw [hl]
      simp [List.takeWhile, hab]

theorem exTicks_step : ∀ i, i < 2 → Step (exTicks i) (exTicks (i + 1)) := by
  intro i hi
  have hcases : i = 0 ∨ i = 1 := by omega
  rcases hcases with rfl | rfl
  · exact Step.tick _ _ (by decide)
  · exact Step.tick _ _ (by decide)

/-- Witness of C3: two timer ticks from `exThree` (queue `[0, 1]`, thread 2
running). -/
theorem C3_fifo_dispatch_witness :
    Reachable (exTicks 0) ∧ (∀ i, i < 2 → Step (exTicks i) (exTicks (i + 1))) ∧
    ((∀ i, i < 2 →
      ((exTicks (i + 1)).scheduler._runningThread ≠ (exTicks i).scheduler._runningThread →
        (exTicks (i + 1)).scheduler._runningThread
          = (exTicks i).scheduler._readyThreadsQueue.head?) ∧
      (∀ h tl, (exTicks i).scheduler._readyThreadsQueue = h :: tl →
        switchThreads (exTicks i) = some (exTicks (i + 1)) →
        (exTicks (i + 1)).scheduler._runningThread = some h)) ∧
    (∀ i, i < 2 → ∃ removed added : List Int,
      (exTicks (i + 1)).scheduler._readyThreadsQueue =
        (exTicks i).scheduler._readyThreadsQueue.filter (fun x => decide (x ∉ removed))
          ++ added ∧
      ∀ x, x ∈ added → x ∉ (exTicks i).scheduler._readyThreadsQueue) ∧
    (∀ a b : Int, (∀ i, i < 2 → a ∈ (exTicks i).scheduler._readyThreadsQueue) →
      b ∉ (exTicks 0).scheduler._readyThreadsQueue →
      ∀ i, i < 2 → b ∈ (exTicks i).scheduler._readyThreadsQueue →
        (exTicks (i + 1)).scheduler._runningThread ≠ some b)) :=
  ⟨exThree_reachable, exTicks_step,
    C3_fifo_dispatch exTicks 2 exThree_reachable exTicks_step⟩

theorem full_of_length (l : List Int) (hn : l.Nodup) (hr : ∀ x ∈ l, 0 ≤ x ∧ x < 100)
    (hlen : l.length = 100) : ∀ i : Int, 0 ≤ i → i < 100 → i ∈ l := by
  intro i h0 h100
  have hsub : l.toFinset ⊆ Finset.Ico (0 : Int) 100 := by
    intro x hx
    have := hr x (List.mem_toFinset.1 hx)
    exact Finset.mem_Ico.2 this
  have hcard : (Finset.Ico (0 : Int) 100).card ≤ l.toFinset.card := by
    rw [List.toFinset_card_of_nodup hn, hlen, Int.card_Ico]
    decide
  have heq := Finset.eq_of_subset_of_card_le hsub hcard
  have : i ∈ l.toFinset := by
    rw [heq]; exact Finset.mem_Ico.2 ⟨h0, h100⟩
  exact List.mem_toFinset.1 this

theorem contains_of_mem_keys (s : Scheduler) (i : Int)
    (h : i ∈ s._threadsMap.map Thread._ID) : s.containsKeyThreadsMap i = true := by
  unfold Scheduler.containsKeyThreadsMap Scheduler.thread
  obtain ⟨t, ht, hid⟩ := List.mem_map.1 h
  rw [Option.isSome_iff_exists]
  cases hf : s._threadsMap.find? (fun t => decide (t._ID = i)) with
  | some t' => exact ⟨t', rfl⟩
  | none =>
    have := (List.find?_eq_none.1 hf) t ht
    simp [hid] at this

theorem spawn_full {g : Globals}
    (h : ∀ i : Int, 0 ≤ i → i < 100 → g.scheduler.containsKeyThreadsMap i = true)
    (priority : Int) : uthread_spawn g priority = some (FAIL, g) := by
  have hf : g.scheduler.getAvailableID = FAIL := by
    rw [getAvailableID_fail_iff]
    intro i hi
    exact h i (by omega) (by omega)
  unfold uthread_spawn
  simp [hf]

/-- C4: `getAvailableID` returns -1 exactly when all of 0..99 are keys of the
thread table, and otherwise the smallest `i` in 0..99 that is not a key;
`uthread_spawn` returns the value of `getAvailableID`, and returns -1 leaving the
state as it is when all of 0..99 are keys, which is the case in a reachable
state that holds 100 thread records. -/
theorem C4_lowest_free_id (g : Globals) :
    (g.scheduler.getAvailableID = -1 ↔
      ∀ i : Int, 0 ≤ i → i < 100 → g.scheduler.containsKeyThreadsMap i = true) ∧
    (g.scheduler.getAvailableID ≠ -1 →
      0 ≤ g.scheduler.getAvailableID ∧ g.scheduler.getAvailableID < 100 ∧
      g.scheduler.containsKeyThreadsMap g.scheduler.getAvailableID = false ∧
      ∀ j : Int, 0 ≤ j → j < g.scheduler.getAvailableID →
        g.scheduler.containsKeyThreadsMap j = true) ∧
    (∀ priority r g', uthread_spawn g priority = some (r, g') →
      r = g.scheduler.getAvailableID) ∧
    (∀ priority,
      (∀ i : Int, 0 ≤ i → i < 100 → g.scheduler.containsKeyThreadsMap i = true) →
      uthread_spawn g priority = some (-1, g)) ∧
    (Reachable g → g.scheduler._threadsMap.length = 100 →
      ∀ priority, uthread_spawn g priority = some (-1, g)) := by
  refine ⟨?_, ?_, ?_, ?_, ?_⟩
  · have := getAvailableID_fail_iff g.scheduler
    simp only [FAIL] at this
    rw [this]
    constructor
    · intro h i h0 h100
      have := h i.toNat (by omega)
      rwa [Int.toNat_of_nonneg h0] at this
    · intro h i hi
      exact h i (by omega) (by omega)
  · intro h
    exact getAvailableID_spec g.scheduler h
  · intro priority r g' h
    rcases (uthread_spawn_iff g g' priority r).1 h with ⟨hf, hr, _⟩ | ⟨_, hr, _⟩
    · rw [hf, hr]
    · exact hr
  · intro priority h
    exact spawn_full h priority
  · intro hr hlen priority
    have hw := reachable_wf hr
    refine spawn_full ?_ priority
    intro i h0 h100
    apply contains_of_mem_keys
    refine full_of_length _ hw.1 ?_ (by simpa using hlen) i h0 h100
    intro x hx
    obtain ⟨t, ht, rfl⟩ := List.mem_map.1 hx
    obtain ⟨a, b, _, _⟩ := hw.2.1 t ht
    exact ⟨a, b⟩

/-- Witness of C4 at `exThree`, where ids 0, 1, 2 are live: the lowest free id
is 3. -/
theorem C4_lowest_free_id_witness :
    exThree.scheduler.getAvailableID = 3 ∧
    (exThree.scheduler.getAvailableID ≠ -1 →
      0 ≤ exThree.scheduler.getAvailableID ∧ exThree.scheduler.getAvailableID < 100 ∧
      exThree.scheduler.containsKeyThreadsMap exThree.scheduler.getAvailableID = false ∧
      ∀ j : Int, 0 ≤ j → j < exThree.scheduler.getAvailableID →
        exThree.scheduler.containsKeyThreadsMap j = true) :=
  ⟨by decide, (C4_lowest_free_id exThree).2.1⟩

/-! ## Quantum counts across one operation -/

theorem thread_blockedState_full {g : Globals} {tid : Int} {t : Thread}
    (ht : g.scheduler.thread tid = some t) (id : Int) :
    (blockedState g tid t).scheduler.thread id
      = if id = tid then some (t.setState BLOCKED) else g.scheduler.thread id := by
  by_cases h : id = tid
  · subst h
    show ((g.scheduler.addBlockedThreadsMap id).put (t.setState BLOCKED)).thread id = _
    rw [thread_put]
    simp only [Thread.setState, thread_id ht, if_true]
    have : (g.scheduler.addBlockedThreadsMap id).thread id = some t := ht
    rw [this]; rfl
  · rw [thread_blockedState_ne ht h]; simp [h]

theorem thread_retiredState_full {g : Globals} {tid : Int} {t : Thread}
    (ht : g.scheduler.thread tid = some t) (id : Int) :
    (retiredState g tid t).scheduler.thread id
      = if id = tid then none else g.scheduler.thread id := by
  by_cases h : id = tid
  · subst h
    show ((g.scheduler.put (t.setState TERMINATED)).removeFromThreadsMap id).thread id = _
    rw [thread_removeFromThreadsMap]; simp
  · rw [thread_retiredState_ne ht h]; simp [h]

theorem thread_preempted_full {g : Globals} {cur : Int} {curT : Thread}
    (hc : g.scheduler.thread cur = some curT) (id : Int) :
    (preempted g cur curT).scheduler.thread id
      = if id = cur then some (curT.setState READY) else g.scheduler.thread id := by
  by_cases h : id = cur
  · subst h
    show (g.scheduler.put (curT.setState READY)).thread id = _
    rw [thread_put]
    simp only [Thread.setState, thread_id hc, if_true, hc]; rfl
  · rw [thread_preempted_ne hc h]; simp [h]

theorem thread_resumedState_full {g : Globals} {tid : Int} {t : Thread}
    (ht : g.scheduler.thread tid = some t) (id : Int) :
    (resumedState g tid t).scheduler.thread id
      = if id = tid then some (t.setState READY) else g.scheduler.thread id := by
  show (g.scheduler.put (t.setState READY)).thread id = _
  rw [thread_put]
  by_cases h : id = tid
  · subst h
    simp only [Thread.setState, thread_id ht, if_true, ht]; rfl
  · simp [Thread.setState, thread_id ht, h]

theorem thread_reprioritised {g : Globals} {tid : Int} {t : Thread} (priority : Int)
    (ht : g.scheduler.thread tid = some t) (id : Int) :
    (g.scheduler.put (t.setPriority priority)).thread id
      = if id = tid then some (t.setPriority priority) else g.scheduler.thread id := by
  rw [thread_put]
  by_cases h : id = tid
  · subst h
    simp only [Thread.setPriority, thread_id ht, if_true, ht]; rfl
  · simp [Thread.setPriority, thread_id ht, h]

theorem thread_spawnedState (g : Globals) (r q priority id : Int) :
    (spawnedState g r q priority).scheduler.thread id
      = if id = r then some (Thread.new r q priority READY 0) else g.scheduler.thread id := by
  show ((g.scheduler.addReadyThreadsQueue r).addThreadsMap
    (Thread.new r q priority READY 0)).thread id = _
  rw [thread_addThreadsMap]
  rfl

theorem thread_removedBlocked (g : Globals) (tid id : Int) :
    (removedBlocked g tid).scheduler.thread id
      = if id = tid then none else g.scheduler.thread id := by
  show ((g.scheduler.removeFromBlockedThreadsMap tid).removeFromThreadsMap tid).thread id = _
  rw [thread_removeFromThreadsMap]; rfl

theorem thread_removedReady (g : Globals) (tid id : Int) :
    (removedReady g tid).scheduler.thread id
      = if id = tid then none else g.scheduler.thread id := by
  show ((g.scheduler.removeFromReadyThreadsQueue tid).removeFromThreadsMap tid).thread id = _
  rw [thread_removeFromThreadsMap]; rfl

/-- The quantum counts after an operation that did not call `switchThreads`:
the total is the same and no thread that is live before and after has
a different count. -/
theorem effect_counts_quiet {g g' : Globals} (he : Effect g false g') :
    g'.scheduler._totalQuantums = g.scheduler._totalQuantums ∧
    ∀ id c c', countOf g id = some c → countOf g' id = some c' → c' = c := by
  generalize hb : false = b at he
  cases he with
  | unchanged =>
    refine ⟨rfl, ?_⟩
    intro id c c' h1 h2
    rw [h1] at h2; exact (Option.some.inj h2).symm
  | spawned r q priority hfree hid hr hq =>
    refine ⟨rfl, ?_⟩
    intro id c c' h1 h2
    unfold countOf at h1 h2
    rw [thread_spawnedState] at h2
    by_cases h : id = r
    · subst h; rw [hfree] at h1; cases h1
    · simp only [h, if_false] at h2
      rw [h1] at h2; exact (Option.some.inj h2).symm
  | removedBlocked tid t ht hs =>
    refine ⟨rfl, ?_⟩
    intro id c c' h1 h2
    unfold countOf at h1 h2
    rw [thread_removedBlocked] at h2
    by_cases h : id = tid
    · simp [h] at h2
    · simp only [h, if_false] at h2
      rw [h1] at h2; exact (Option.some.inj h2).symm
  | removedReady tid t ht hs hne =>
    refine ⟨rfl, ?_⟩
    intro id c c' h1 h2
    unfold countOf at h1 h2
    rw [thread_removedReady] at h2
    by_cases h : id = tid
    · simp [h] at h2
    · simp only [h, if_false] at h2
      rw [h1] at h2; exact (Option.some.inj h2).symm
  | blockedReady tid t ht hs hne =>
    refine ⟨rfl, ?_⟩
    intro id c c' h1 h2
    unfold countOf at h1 h2
    have ht' : (⟨g.timer, g.scheduler.removeFromReadyThreadsQueue tid⟩ :
        Globals).scheduler.thread tid = some t := ht
    rw [thread_blockedState_full ht'] at h2
    by_cases h : id = tid
    · subst h
      rw [ht] at h1
      simp only [if_true, Option.map_some', Option.some.injEq] at h1 h2
      rw [← h1, ← h2]; rfl
    · simp only [h, if_false] at h2
      have h1' : Option.map Thread.getCountQuantums
          ((⟨g.timer, g.scheduler.removeFromReadyThreadsQueue tid⟩ :
            Globals).scheduler.thread id) = some c := h1
      rw [h1'] at h2; exact (Option.some.inj h2).symm
  | resumed tid t ht hs =>
    refine ⟨rfl, ?_⟩
    intro id c c' h1 h2
    unfold countOf at h1 h2
    rw [thread_resumedState_full ht] at h2
    by_cases h : id = tid
    · subst h
      rw [ht] at h1
      simp only [if_true, Option.map_some', Option.some.injEq] at h1 h2
      rw [← h1, ← h2]; rfl
    · simp only [h, if_false] at h2
      rw [h1] at h2; exact (Option.some.inj h2).symm
  | reprioritised tid t priority ht hp =>
    refine ⟨rfl, ?_⟩
    intro id c c' h1 h2
    unfold countOf at h1 h2
    simp only at h2
    rw [thread_reprioritised priority ht] at h2
    by_cases h : id = tid
    · subst h
      rw [ht] at h1
      simp only [if_true, Option.map_some', Option.some.injEq] at h1 h2
      rw [← h1, ← h2]; rfl
    · simp only [h, if_false] at h2
      rw [h1] at h2; exact (Option.some.inj h2).symm
  | selfTerminated tid t h tl hT hr ht hne hq hh hne2 => cases hb
  | selfBlocked tid t h tl hT hr ht hne hq hh hne2 => cases hb
  | stayed cur curT hr hc hq => cases hb
  | preempted cur curT h tl hT hr hc hq hh hne2 => cases hb

/-- The quantum counts after an operation that called `switchThreads`: the
total and the count of the thread that runs afterwards are one larger, and
every other thread that is live afterwards has the count it had. -/
theorem effect_counts_switch {g g' : Globals} (he : Effect g true g') :
    g'.scheduler._totalQuantums = g.scheduler._totalQuantums + 1 ∧
    ∃ r c, g'.scheduler._runningThread = some r ∧ countOf g r = some c ∧
      countOf g' r = some (c + 1) ∧
      ∀ id, id ≠ r → ∀ c', countOf g' id = some c' → countOf g id = some c' := by
  generalize hb : true = b at he
  cases he with
  | unchanged => cases hb
  | spawned r q priority hfree hid hr hq => cases hb
  | removedBlocked tid t ht hs => cases hb
  | removedReady tid t ht hs hne => cases hb
  | blockedReady tid t ht hs hne => cases hb
  | resumed tid t ht hs => cases hb
  | reprioritised tid t priority ht hp => cases hb
  | selfTerminated tid t h tl hT hr ht hne hq hh hne2 =>
    have hh' : (retiredState g tid t).scheduler.thread h = some hT := by
      rw [thread_retiredState_ne ht hne2]; exact hh
    refine ⟨rfl, h, hT._countQuantums, rfl, ?_, ?_, ?_⟩
    · unfold countOf; rw [hh]; rfl
    · unfold countOf; rw [thread_dispatched tl hh']; simp [Thread.getCountQuantums]
    · intro id hid c' hc'
      unfold countOf at hc' ⊢
      rw [thread_dispatched tl hh'] at hc'
      simp only [hid, if_false] at hc'
      rw [thread_retiredState_full ht] at hc'
      by_cases h2 : id = tid
      · simp [h2] at hc'
      · simpa [h2] using hc'
  | selfBlocked tid t h tl hT hr ht hne hq hh hne2 =>
    have hh' : (blockedState g tid t).scheduler.thread h = some hT := by
      rw [thread_blockedState_ne ht hne2]; exact hh
    refine ⟨rfl, h, hT._countQuantums, rfl, ?_, ?_, ?_⟩
    · unfold countOf; rw [hh]; rfl
    · unfold countOf; rw [thread_dispatched tl hh']; simp [Thread.getCountQuantums]
    · intro id hid c' hc'
      unfold countOf at hc' ⊢
      rw [thread_dispatched tl hh'] at hc'
      simp only [hid, if_false] at hc'
      rw [thread_blockedState_full ht] at hc'
      by_cases h2 : id = tid
      · subst h2
        rw [ht]
        simpa [Thread.setState, Thread.getCountQuantums] using hc'
      · simpa [h2] using hc'
  | stayed cur curT hr hc hq =>
    refine ⟨rfl, cur, curT._countQuantums, hr, ?_, ?_, ?_⟩
    · unfold countOf; rw [hc]; rfl
    · unfold countOf; rw [thread_stayed hc]; simp [Thread.getCountQuantums]
    · intro id hid c' hc'
      unfold countOf at hc' ⊢
      rw [thread_stayed hc] at hc'
      simpa [hid] using hc'
  | preempted cur curT h tl hT hr hc hq hh hne2 =>
    have hh' : (preempted g cur curT).scheduler.thread h = some hT := by
      rw [thread_preempted_ne hc hne2]; exact hh
    refine ⟨rfl, h, hT._countQuantums, rfl, ?_, ?_, ?_⟩
    · unfold countOf; rw [hh]; rfl
    · unfold countOf; rw [thread_dispatched _ hh']; simp [Thread.getCountQuantums]
    · intro id hid c' hc'
      unfold countOf at hc' ⊢
      rw [thread_dispatched _ hh'] at hc'
      simp only [hid, if_false] at hc'
      rw [thread_preempted_full hc] at hc'
      by_cases h2 : id = cur
      · subst h2
        rw [hc]
        simpa [Thread.setState, Thread.getCountQuantums] using hc'
      · simpa [h2] using hc'

theorem run_total {g g' : Globals} (ops : List Op) (hr : Reachable g)
    (h : run g ops = some g') :
    g'.scheduler._totalQuantums = g.scheduler._totalQuantums + switchCount g ops := by
  induction ops generalizing g with
  | nil =>
    simp only [run, Option.some.injEq] at h
    subst h
    simp [switchCount]
  | cons op ops ih =>
    simp only [run] at h
    cases hop : applyOp g op with
    | none => rw [hop] at h; cases h
    | some g1 =>
      rw [hop] at h
      simp only at h
      have hr1 : Reachable g1 :=
        Reachable.step g g1 hr ((step_iff_applyOp g g1).2 ⟨op, hop⟩)
      have he := op_effect (reachable_inv hr) hop
      rw [ih hr1 h]
      simp only [switchCount, hop]
      cases hb : invokesSwitch g op with
      | true =>
        rw [hb] at he
        rw [(effect_counts_switch he).1]
        simp only [if_true]
        push_cast
        ring
      | false =>
        rw [hb] at he
        rw [(effect_counts_quiet he).1]
        simp

/-- C5: for every operation on a reachable state, if the operation calls
`switchThreads` (a timer tick, or `uthread_block` / `uthread_terminate` of the
running thread, other than main) then the total is one larger, the count of the
thread that runs afterwards is one larger and every other thread that is live
afterwards has the count it had; otherwise the total is the same and no thread
live before and after has a different count.  Hence after `uthread_init` and
any run of operations the total is 1 plus the number of calls of
`switchThreads`. -/
theorem C5_quantum_accounting :
    (∀ (g : Globals) (op : Op) (g' : Globals), Reachable g → applyOp g op = some g' →
      (invokesSwitch g op = true →
        g'.scheduler._totalQuantums = g.scheduler._totalQuantums + 1 ∧
        ∃ r c, g'.scheduler._runningThread = some r ∧ countOf g r = some c ∧
          countOf g' r = some (c + 1) ∧
          ∀ id, id ≠ r → ∀ c', countOf g' id = some c' → countOf g id = some c') ∧
      (invokesSwitch g op = false →
        g'.scheduler._totalQuantums = g.scheduler._totalQuantums ∧
        ∀ id c c', countOf g id = some c → countOf g' id = some c' → c' = c)) ∧
    (∀ (g : Globals) (tid : Int), Reachable g →
      (invokesSwitch g (.block tid) = true ↔
        (tid ≠ MAIN_THREAD ∧ g.scheduler._runningThread = some tid)) ∧
      (invokesSwitch g (.terminate tid) = true ↔
        (tid ≠ MAIN_THREAD ∧ g.scheduler._runningThread = some tid))) ∧
    (∀ (quantum_usecs : List Int) (size : Int) (g0 : Globals) (ops : List Op) (g : Globals),
      uthread_init quantum_usecs size = some (SUCCESS, some g0) → run g0 ops = some g →
      g.scheduler._totalQuantums = 1 + switchCount g0 ops) := by
  refine ⟨?_, ?_, ?_⟩
  · intro g op g' hr hop
    have he := op_effect (reachable_inv hr) hop
    constructor
    · intro hb
      rw [hb] at he
      exact effect_counts_switch he
    · intro hb
      rw [hb] at he
      exact effect_counts_quiet he
  · intro g tid hr
    have hI := reachable_inv hr
    have h2 := ((inv_iff g).1 hI).2.1 tid
    simp only [invokesSwitch, Bool.and_eq_true, decide_eq_true_eq]
    rw [h2]
    exact ⟨Iff.rfl, Iff.rfl⟩
  · intro quantum_usecs size g0 ops g hinit hrun
    have hr0 := Reachable.init quantum_usecs size g0 hinit
    rw [run_total ops hr0 hrun]
    obtain ⟨_, _, q, _, rfl⟩ := (uthread_init_iff _ _ _).1 hinit
    rfl

/-- Witness of C5: the timer tick at `exThree` and the run that leads to
`exThree`. -/
theorem C5_quantum_accounting_witness :
    (Reachable exThree ∧ applyOp exThree .tick = some (exTicks 1) ∧
      invokesSwitch exThree .tick = true ∧
      (exTicks 1).scheduler._totalQuantums = exThree.scheduler._totalQuantums + 1) ∧
    (runFromInit [100000, 200000] 2 [.spawn 0, .spawn 0, .tick, .tick] = some exThree ∧
      exThree.scheduler._totalQuantums
        = 1 + switchCount (initState [100000, 200000] 2 100000)
            [.spawn 0, .spawn 0, .tick, .tick]) :=
  ⟨⟨exThree_reachable, by decide, rfl,
      ((C5_quantum_accounting.1 exThree .tick (exTicks 1) exThree_reachable (by decide)).1
        rfl).1⟩,
    exThree_run,
    C5_quantum_accounting.2.2 [100000, 200000] 2 (initState [100000, 200000] 2 100000)
      [.spawn 0, .spawn 0, .tick, .tick] exThree (by decide) (by decide)⟩

/-- C6 (the code departs from the specification): after `init([100000, 200000])`,
`spawn(f, 0) = 1` and `uthread_change_priority(1, 1) = 0`, the timer tick that
dispatches thread 1 arms the timer with 100000, the quantum of the priority the
thread was created with, although its priority is 1 and `quantum_usecs[1]` is
200000: `getNextThread` does not refresh `_quantum`.  The timer in flight is
left as it was by the priority change. -/
theorem C6_dispatch_keeps_creation_quantum :
    ∃ g1 g2 g3 : Globals,
      runFromInit [100000, 200000] 2 [.spawn 0] = some g1 ∧
      uthread_change_priority g1 1 1 = some (0, g2) ∧
      g2.timer = g1.timer ∧
      switchThreads g2 = some g3 ∧
      g3.scheduler._runningThread = some 1 ∧
      (g3.scheduler.thread 1).map Thread._priority = some 1 ∧
      arrayAt g3.scheduler._quantum_usecs 1 = some 200000 ∧
      g3.timer = (setTimer g3 100000).timer ∧
      g3.timer ≠ (setTimer g3 200000).timer := by
  refine ⟨_, _, _, rfl, rfl, rfl, rfl, ?_, ?_, ?_, ?_, ?_⟩ <;> decide

theorem getAvailableID_eq {s : Scheduler} {k : Int} (h0 : 0 ≤ k) (h100 : k < 100)
    (hfree : s.containsKeyThreadsMap k = false)
    (hbelow : ∀ j : Int, 0 ≤ j → j < k → s.containsKeyThreadsMap j = true) :
    s.getAvailableID = k := by
  have hne : s.getAvailableID ≠ FAIL := by
    intro hf
    have := (getAvailableID_fail_iff s).1 hf k.toNat (by omega)
    rw [Int.toNat_of_nonneg h0, hfree] at this
    cases this
  obtain ⟨a0, a100, afree, abelow⟩ := getAvailableID_spec s hne
  by_contra hneq
  rcases lt_or_gt_of_ne hneq with hlt | hgt
  · have := hbelow _ a0 hlt
    rw [afree] at this; cases this
  · have := abelow k h0 hgt
    rw [hfree] at this; cases this

/-! ## The timer of the next dispatch -/

theorem setTimer_accepted (g : Globals) {q : Int} (hq : 0 < q) :
    (setTimer g q).timer.it_value.tv_sec * 1000000
      + (setTimer g q).timer.it_value.tv_usec = q ∧
    0 ≤ (setTimer g q).timer.it_value.tv_sec ∧
    0 ≤ (setTimer g q).timer.it_value.tv_usec ∧
    (setTimer g q).timer.it_value.tv_usec < 1000000 ∧
    (setTimer g q).timer.it_interval = (setTimer g q).timer.it_value := by
  have h0 : (0 : Int) ≤ q := by omega
  have hd : Int.tdiv q 1000000 = q / 1000000 := Int.tdiv_eq_ediv h0 (by decide)
  have hm : Int.tmod q 1000000 = q % 1000000 := Int.tmod_eq_emod h0 (by decide)
  refine ⟨?_, ?_, ?_, ?_, rfl⟩
  · show Int.tdiv q 1000000 * 1000000 + Int.tmod q 1000000 = q
    rw [hd, hm]; omega
  · show 0 ≤ Int.tdiv q 1000000
    rw [hd]; omega
  · show 0 ≤ Int.tmod q 1000000
    rw [hm]; omega
  · show Int.tmod q 1000000 < 1000000
    rw [hm]; omega

theorem next_quantum_pos {g : Globals} {h : Int} {tl : List Int} {hT : Thread}
    (hp : nextQuantumPositive g = true) (hq : g.scheduler._readyThreadsQueue = h :: tl)
    (hh : g.scheduler.thread h = some hT) : 0 < hT._quantum := by
  unfold nextQuantumPositive at hp
  simpa [Scheduler.getReadyThreadsQueue, hq, hh, Thread.getQuantum] using hp

theorem mem_put_quantum {s : Scheduler} {t0 t x : Thread} (ht : s.thread t._ID = some t0)
    (hq : t._quantum = t0._quantum) (hx : x ∈ (s.put t)._threadsMap) :
    ∃ y ∈ s._threadsMap, x._quantum = y._quantum := by
  rcases mem_put hx with h | ⟨h, _⟩
  · exact ⟨x, h, rfl⟩
  · exact ⟨t0, thread_mem ht, by rw [h, hq]⟩

theorem arrayAt_mem {a : List Int} {i q : Int} (h : arrayAt a i = some q) : q ∈ a := by
  unfold arrayAt at h
  split at h
  · exact List.getElem?_mem h
  · cases h

theorem mem_dispatched_quantum {g : Globals} {h : Int} {hT x : Thread} (rest : List Int)
    (hh : g.scheduler.thread h = some hT)
    (hx : x ∈ (dispatched g h hT rest).scheduler._threadsMap) :
    ∃ y ∈ g.scheduler._threadsMap, x._quantum = y._quantum := by
  have hid : hT._ID = h := thread_id hh
  have hh' : Scheduler.thread
      { g.scheduler with
        _readyThreadsQueue := rest, _runningThread := some h,
        _totalQuantums := g.scheduler._totalQuantums + 1 }
      ({ hT with _state := RUNNING, _countQuantums := hT._countQuantums + 1 } : Thread)._ID
        = some hT := by
    show g.scheduler.thread hT._ID = some hT
    rw [hid]; exact hh
  exact mem_put_quantum hh' rfl hx

theorem effect_quanta {g g' : Globals} {b : Bool} (he : Effect g b g')
    (hpos : ∀ q ∈ g.scheduler._quantum_usecs, 0 < q)
    (ht : ∀ t ∈ g.scheduler._threadsMap, 0 < t._quantum) :
    g'.scheduler._quantum_usecs = g.scheduler._quantum_usecs ∧
    ∀ t ∈ g'.scheduler._threadsMap, 0 < t._quantum := by
  have hput : ∀ (s : Scheduler) (t0 t : Thread), s._threadsMap = g.scheduler._threadsMap →
      s.thread t._ID = some t0 → t._quantum = t0._quantum →
      ∀ x ∈ (s.put t)._threadsMap, 0 < x._quantum := by
    intro s t0 t hs h1 h2 x hx
    obtain ⟨y, hy, e⟩ := mem_put_quantum h1 h2 hx
    rw [e]; exact ht y (hs ▸ hy)
  cases he with
  | unchanged => exact ⟨rfl, ht⟩
  | spawned r q priority hfree hid hr hq =>
    refine ⟨rfl, ?_⟩
    intro x hx
    have hx' : x = Thread.new r q priority READY 0 ∨
        x ∈ g.scheduler._threadsMap.filter (fun t => decide (t._ID ≠ r)) :=
      List.mem_cons.1 hx
    rcases hx' with e | e
    · rw [e]; exact hpos q (arrayAt_mem hq)
    · exact ht x (List.mem_filter.1 e).1
  | removedBlocked tid t htid hs =>
    exact ⟨rfl, fun x hx => ht x (List.mem_filter.1 hx).1⟩
  | removedReady tid t htid hs hne =>
    exact ⟨rfl, fun x hx => ht x (List.mem_filter.1 hx).1⟩
  | blockedReady tid t htid hs hne =>
    have hid : t._ID = tid := thread_id htid
    exact ⟨rfl, hput ((g.scheduler.removeFromReadyThreadsQueue tid).addBlockedThreadsMap tid) t
      (t.setState BLOCKED) rfl (by show g.scheduler.thread t._ID = some t; rw [hid]; exact htid)
      rfl⟩
  | resumed tid t htid hs =>
    have hid : t._ID = tid := thread_id htid
    exact ⟨rfl, hput g.scheduler t (t.setState READY) rfl
      (by show g.scheduler.thread t._ID = some t; rw [hid]; exact htid) rfl⟩
  | reprioritised tid t priority htid hp =>
    have hid : t._ID = tid := thread_id htid
    exact ⟨rfl, hput g.scheduler t (t.setPriority priority) rfl
      (by show g.scheduler.thread t._ID = some t; rw [hid]; exact htid) rfl⟩
  | selfTerminated tid t h tl hT hr htid hne hq hh hne2 =>
    have hid : t._ID = tid := thread_id htid
    have hh' : (retiredState g tid t).scheduler.thread h = some hT := by
      rw [thread_retiredState_ne htid hne2]; exact hh
    refine ⟨rfl, ?_⟩
    intro x hx
    obtain ⟨y, hy, e⟩ := mem_dispatched_quantum tl hh' hx
    rw [e]
    have hy' : y ∈ (g.scheduler.put (t.setState TERMINATED))._threadsMap :=
      (List.mem_filter.1 hy).1
    exact hput g.scheduler t (t.setState TERMINATED) rfl
      (by show g.scheduler.thread t._ID = some t; rw [hid]; exact htid) rfl y hy'
  | selfBlocked tid t h tl hT hr htid hne hq hh hne2 =>
    have hid : t._ID = tid := thread_id htid
    have hh' : (blockedState g tid t).scheduler.thread h = some hT := by
      rw [thread_blockedState_ne htid hne2]; exact hh
    refine ⟨rfl, ?_⟩
    intro x hx
    obtain ⟨y, hy, e⟩ := mem_dispatched_quantum tl hh' hx
    rw [e]
    exact hput (g.scheduler.addBlockedThreadsMap tid) t (t.setState BLOCKED) rfl
      (by show g.scheduler.thread t._ID = some t; rw [hid]; exact htid) rfl y hy
  | stayed cur curT hr hc hq =>
    have hid : curT._ID = cur := thread_id hc
    refine ⟨rfl, ?_⟩
    exact hput { g.scheduler with _totalQuantums := g.scheduler._totalQuantums + 1 } curT
      { curT with _countQuantums := curT._countQuantums + 1 } rfl
      (by show g.scheduler.thread curT._ID = some curT; rw [hid]; exact hc) rfl
  | preempted cur curT h tl hT hr hc hq hh hne2 =>
    have hid : curT._ID = cur := thread_id hc
    have hh' : (preempted g cur curT).scheduler.thread h = some hT := by
      rw [thread_preempted_ne hc hne2]; exact hh
    refine ⟨rfl, ?_⟩
    intro x hx
    obtain ⟨y, hy, e⟩ := mem_dispatched_quantum (tl ++ [cur]) hh' hx
    rw [e]
    exact hput g.scheduler curT (curT.setState READY) rfl
      (by show g.scheduler.thread curT._ID = some curT; rw [hid]; exact hc) rfl y hy

theorem reachable_quanta_pos {g : Globals} (hr : Reachable g)
    (hpos : ∀ q ∈ g.scheduler._quantum_usecs, 0 < q) :
    ∀ t ∈ g.scheduler._threadsMap, 0 < t._quantum := by
  induction hr with
  | init quantum_usecs size g h =>
    obtain ⟨_, _, q, hq, rfl⟩ := (uthread_init_iff quantum_usecs size g).1 h
    intro t ht
    have : t = Thread.new MAIN_THREAD q MAIN_THREAD RUNNING 1 := by
      have ht' : t ∈ [Thread.new MAIN_THREAD q MAIN_THREAD RUNNING 1] := ht
      simpa using ht'
    rw [this]
    exact hpos q (arrayAt_mem hq)
  | step g g' hr hs ih =>
    obtain ⟨b, he⟩ := step_effect (reachable_inv hr) hs
    have htab : g'.scheduler._quantum_usecs = g.scheduler._quantum_usecs := by
      cases he <;> rfl
    have ih' := ih (htab ▸ hpos)
    exact (effect_quanta he (htab ▸ hpos) ih').2

theorem reachable_next_quantum_pos {g : Globals} (hr : Reachable g)
    (hpos : ∀ q ∈ g.scheduler._quantum_usecs, 0 < q) : nextQuantumPositive g = true := by
  unfold nextQuantumPositive
  cases hq : g.scheduler.getReadyThreadsQueue.head? with
  | none => rfl
  | some h =>
    cases hh : g.scheduler.thread h with
    | none => simp only [hh]
    | some hT =>
      simp only [hh, decide_eq_true_eq]
      exact reachable_quanta_pos hr hpos hT (thread_mem hh)

/-- The condition can fail in a reachable state: `uthread_spawn` reads
`quantum_usecs[priority]` without comparing `priority` with the size given to
`uthread_init`, which checks the first `size` entries only. -/
theorem next_quantum_negative_reachable :
    (runFromInit [100000, -5] 1 [.spawn 1]).map nextQuantumPositive = some false := by
  decide

/-- C7: in a reachable state whose ready queue is `h :: tl`, whose running
thread is `r` (its state is RUNNING) and where the quantum of `h` is positive
(`setitimer` rejects a negative one, and `setTimer` then ends the process), a
timer tick yields a state where `h` runs with state RUNNING, `r` is READY, the
queue is `tl ++ [r]`, the total and the count of `h` are one larger and the
timer holds the quantum of `h`: both intervals are its seconds and
microseconds, which `setitimer` accepts.  In the scenario `init([100000, 200000])`, `spawn(f, 0)`
returns 1, one tick gives tid 1, total 2, count(1) = 1 and a second tick gives
tid 0, total 3, count(0) = 2. -/
theorem C7_round_robin_preemption :
    (∀ (g : Globals) (h : Int) (tl : List Int) (r : Int), Reachable g →
      g.scheduler._readyThreadsQueue = h :: tl → g.scheduler._runningThread = some r →
      nextQuantumPositive g = true →
      ∃ g', switchThreads g = some g' ∧
        g'.scheduler._runningThread = some h ∧ stateOf g' h = some RUNNING ∧
        stateOf g r = some RUNNING ∧ stateOf g' r = some READY ∧
        g'.scheduler._readyThreadsQueue = tl ++ [r] ∧
        g'.scheduler._totalQuantums = g.scheduler._totalQuantums + 1 ∧
        (∃ c, countOf g h = some c ∧ countOf g' h = some (c + 1)) ∧
        (∃ hT, g.scheduler.thread h = some hT ∧ g'.timer = (setTimer g hT._quantum).timer ∧
          0 < hT._quantum ∧
          g'.timer.it_value.tv_sec * 1000000 + g'.timer.it_value.tv_usec = hT._quantum ∧
          0 ≤ g'.timer.it_value.tv_sec ∧ 0 ≤ g'.timer.it_value.tv_usec ∧
          g'.timer.it_value.tv_usec < 1000000 ∧
          g'.timer.it_interval = g'.timer.it_value)) ∧
    ((runFromInit [100000, 200000] 2 []).bind (fun g => uthread_spawn g 0)).map Prod.fst
      = some 1 ∧
    (runFromInit [100000, 200000] 2 [.spawn 0, .tick]).bind uthread_get_tid = some 1 ∧
    (runFromInit [100000, 200000] 2 [.spawn 0, .tick]).map uthread_get_total_quantums
      = some 2 ∧
    (runFromInit [100000, 200000] 2 [.spawn 0, .tick]).bind (fun g => uthread_get_quantums g 1)
      = some 1 ∧
    (runFromInit [100000, 200000] 2 [.spawn 0, .tick, .tick]).bind uthread_get_tid = some 0 ∧
    (runFromInit [100000, 200000] 2 [.spawn 0, .tick, .tick]).map uthread_get_total_quantums
      = some 3 ∧
    (runFromInit [100000, 200000] 2 [.spawn 0, .tick, .tick]).bind
      (fun g => uthread_get_quantums g 0) = some 2 := by
  refine ⟨?_, by decide, by decide, by decide, by decide, by decide, by decide, by decide⟩
  intro g h tl r hr hq hrun hpos
  have hI := reachable_inv hr
  obtain ⟨rT, hrT, hrs⟩ := (hI.running_iff r).1 hrun
  obtain ⟨hT, hhT, hhs⟩ := (hI.ready_iff h).1 (by rw [hq]; simp)
  have hne : h ≠ r := ready_ne_running hI hrun (by rw [hq]; simp)
  have hne' : r ≠ h := fun e => hne e.symm
  have hh' : (preempted g r rT).scheduler.thread h = some hT := by
    rw [thread_preempted_ne hrT hne]; exact hhT
  refine ⟨dispatched (preempted g r rT) h hT (tl ++ [r]), ?_, rfl, ?_, ?_, ?_, rfl, rfl, ?_, ?_⟩
  · exact (tick_iff hI _).2
      ⟨r, rT, hrun, hrT, Or.inr ⟨h, tl, hT, hq, hhT, rfl⟩⟩
  · rw [stateOf_dispatched _ hh']; simp
  · rw [stateOf_of_thread hrT, hrs]
  · rw [stateOf_dispatched _ hh', stateOf_preempted hrT]; simp [hne']
  · refine ⟨hT._countQuantums, ?_, ?_⟩
    · unfold countOf; rw [hhT]; rfl
    · unfold countOf; rw [thread_dispatched _ hh']; simp [Thread.getCountQuantums]
  · have hp := next_quantum_pos hpos hq hhT
    obtain ⟨a, b, c, d, e⟩ := setTimer_accepted g hp
    exact ⟨hT, hhT, rfl, hp, a, b, c, d, e⟩

/-- Witness of C7 at `exThree`: queue `[0, 1]`, thread 2 running. -/
theorem C7_round_robin_preemption_witness :
    Reachable exThree ∧ exThree.scheduler._readyThreadsQueue = 0 :: [1] ∧
    exThree.scheduler._runningThread = some 2 ∧ nextQuantumPositive exThree = true ∧
    ∃ g', switchThreads exThree = some g' ∧
      g'.scheduler._runningThread = some 0 ∧ stateOf g' 0 = some RUNNING ∧
      stateOf exThree 2 = some RUNNING ∧ stateOf g' 2 = some READY ∧
      g'.scheduler._readyThreadsQueue = [1] ++ [2] ∧
      g'.scheduler._totalQuantums = exThree.scheduler._totalQuantums + 1 ∧
      (∃ c, countOf exThree 0 = some c ∧ countOf g' 0 = some (c + 1)) ∧
      (∃ hT, exThree.scheduler.thread 0 = some hT ∧
        g'.timer = (setTimer exThree hT._quantum).timer ∧
        0 < hT._quantum ∧
        g'.timer.it_value.tv_sec * 1000000 + g'.timer.it_value.tv_usec = hT._quantum ∧
        0 ≤ g'.timer.it_value.tv_sec ∧ 0 ≤ g'.timer.it_value.tv_usec ∧
        g'.timer.it_value.tv_usec < 1000000 ∧
        g'.timer.it_interval = g'.timer.it_value) :=
  ⟨exThree_reachable, rfl, rfl, by decide,
    C7_round_robin_preemption.1 exThree 0 [1] 2 exThree_reachable rfl rfl (by decide)⟩

/-- C8: in a reachable state whose running thread is `tid`, not main, the
ready queue is not empty; when the quantum of the thread at its front is
positive (`setitimer` rejects a negative one, and `setTimer` then ends the
process), `uthread_block(tid)` succeeds with a state where `tid` is in the
blocked map with state BLOCKED and not in the ready queue, the running thread
is the former front of the ready queue (thread 0 when the queue was `[0]`),
the total is one larger, and the timer holds the quantum of the new running
thread, an interval that `setitimer` accepts. -/
theorem C8_self_block_yields (g : Globals) (tid : Int) (hr : Reachable g)
    (hrun : g.scheduler._runningThread = some tid) (hne : tid ≠ MAIN_THREAD)
    (hpos : nextQuantumPositive g = true) :
    ∃ g' h tl, g.scheduler._readyThreadsQueue = h :: tl ∧
      uthread_block g tid = some (SUCCESS, g') ∧
      tid ∈ g'.scheduler._blockedThreadsMap ∧ stateOf g' tid = some BLOCKED ∧
      tid ∉ g'.scheduler._readyThreadsQueue ∧
      g'.scheduler._runningThread = some h ∧
      (g.scheduler._readyThreadsQueue = [MAIN_THREAD] →
        g'.scheduler._runningThread = some MAIN_THREAD) ∧
      g'.scheduler._totalQuantums = g.scheduler._totalQuantums + 1 ∧
      (∃ hT, g.scheduler.thread h = some hT ∧ 0 < hT._quantum ∧
        g'.timer.it_value.tv_sec * 1000000 + g'.timer.it_value.tv_usec = hT._quantum ∧
        0 ≤ g'.timer.it_value.tv_sec ∧ 0 ≤ g'.timer.it_value.tv_usec ∧
        g'.timer.it_value.tv_usec < 1000000 ∧
        g'.timer.it_interval = g'.timer.it_value) := by
  have hI := reachable_inv hr
  obtain ⟨t, ht, hts⟩ := (hI.running_iff tid).1 hrun
  have hP := parked_blockedState hI hrun ht hne
  have hmain : MAIN_THREAD ∈ g.scheduler._readyThreadsQueue := by
    have := parked_ready_main hP
    exact this
  cases hq : g.scheduler._readyThreadsQueue with
  | nil => rw [hq] at hmain; cases hmain
  | cons h tl =>
    obtain ⟨hT, hhT, _⟩ := (hI.ready_iff h).1 (by rw [hq]; simp)
    have hne2 : h ≠ tid := ready_ne_running hI hrun (by rw [hq]; simp)
    have hne3 : tid ≠ h := fun e => hne2 e.symm
    have hh' : (blockedState g tid t).scheduler.thread h = some hT := by
      rw [thread_blockedState_ne ht hne2]; exact hhT
    have hsw : switchThreads (blockedState g tid t)
        = some (dispatched (blockedState g tid t) h hT tl) :=
      (blockSelf_iff hI hrun ht hne _).2 ⟨h, tl, hT, hq, hhT, rfl⟩
    have hInv' : Inv (dispatched (blockedState g tid t) h hT tl) :=
      dispatched_inv hP hq hh'
    have hst : stateOf (dispatched (blockedState g tid t) h hT tl) tid = some BLOCKED := by
      rw [stateOf_dispatched _ hh', stateOf_blockedState ht]; simp [hne3]
    refine ⟨dispatched (blockedState g tid t) h hT tl, h, tl, rfl, ?_, ?_, hst, ?_, rfl, ?_,
      rfl, ?_⟩
    · exact (uthread_block_iff g _ tid SUCCESS).2
        (Or.inr ⟨t, ht, Or.inr ⟨hne, rfl, Or.inl ⟨hts, hsw⟩⟩⟩)
    · exact ((inv_iff _).1 hInv').2.2.2.1 tid |>.2 hst
    · intro hm
      have := (((inv_iff _).1 hInv').2.2.1 tid).1 hm
      rw [hst] at this; cases this
    · intro hq1
      simp only [List.cons.injEq] at hq1
      rw [← hq1.1]; rfl
    · have hp := next_quantum_pos hpos hq hhT
      obtain ⟨a, b, c, d, e⟩ := setTimer_accepted (blockedState g tid t) hp
      exact ⟨hT, hhT, hp, a, b, c, d, e⟩

/-- Witness of C8: thread 3 blocks itself at `exBlocked` (queue `[0, 2]`). -/
theorem C8_self_block_yields_witness :
    Reachable exBlocked ∧ exBlocked.scheduler._runningThread = some 3 ∧
    (3 : Int) ≠ MAIN_THREAD ∧ nextQuantumPositive exBlocked = true ∧
    ∃ g' h tl, exBlocked.scheduler._readyThreadsQueue = h :: tl ∧
      uthread_block exBlocked 3 = some (SUCCESS, g') ∧
      (3 : Int) ∈ g'.scheduler._blockedThreadsMap ∧ stateOf g' 3 = some BLOCKED ∧
      (3 : Int) ∉ g'.scheduler._readyThreadsQueue ∧
      g'.scheduler._runningThread = some h ∧
      (exBlocked.scheduler._readyThreadsQueue = [MAIN_THREAD] →
        g'.scheduler._runningThread = some MAIN_THREAD) ∧
      g'.scheduler._totalQuantums = exBlocked.scheduler._totalQuantums + 1 ∧
      (∃ hT, exBlocked.scheduler.thread h = some hT ∧ 0 < hT._quantum ∧
        g'.timer.it_value.tv_sec * 1000000 + g'.timer.it_value.tv_usec = hT._quantum ∧
        0 ≤ g'.timer.it_value.tv_sec ∧ 0 ≤ g'.timer.it_value.tv_usec ∧
        g'.timer.it_value.tv_usec < 1000000 ∧
        g'.timer.it_interval = g'.timer.it_value) :=
  ⟨exBlocked_reachable, rfl, by decide, by decide,
    C8_self_block_yields exBlocked 3 exBlocked_reachable rfl (by decide) (by decide)⟩

/-- C9: in a reachable state whose running thread is `tid`, not main, the
ready queue is not empty; when the quantum of the thread at its front is
positive (`setitimer` rejects a negative one, and `setTimer` then ends the
process), `uthread_terminate(tid)` switches away for good to a state where
`tid` is not a key of the table and is in neither the queue nor the blocked
map, the former front of the queue runs and the timer holds its quantum, an
interval that `setitimer` accepts; a following
`uthread_spawn` returns the smallest free id, which is `tid` when all ids below
`tid` are live.  With threads 0, 1, 2 live and 2 terminating itself, the next
spawn returns 2. -/
theorem C9_self_terminate :
    (∀ (g : Globals) (tid : Int), Reachable g → g.scheduler._runningThread = some tid →
      tid ≠ MAIN_THREAD → nextQuantumPositive g = true →
      ∃ g' h tl, g.scheduler._readyThreadsQueue = h :: tl ∧
        uthread_terminate g tid = some (.switched g') ∧
        g'.scheduler.containsKeyThreadsMap tid = false ∧
        tid ∉ g'.scheduler._readyThreadsQueue ∧ tid ∉ g'.scheduler._blockedThreadsMap ∧
        g'.scheduler._runningThread = some h ∧
        (∃ hT, g.scheduler.thread h = some hT ∧ 0 < hT._quantum ∧
          g'.timer.it_value.tv_sec * 1000000 + g'.timer.it_value.tv_usec = hT._quantum ∧
          0 ≤ g'.timer.it_value.tv_sec ∧ 0 ≤ g'.timer.it_value.tv_usec ∧
          g'.timer.it_value.tv_usec < 1000000 ∧
          g'.timer.it_interval = g'.timer.it_value) ∧
        (∀ priority r g'', uthread_spawn g' priority = some (r, g'') →
          r = g'.scheduler.getAvailableID ∧ 0 ≤ r ∧ r < 100 ∧
          g'.scheduler.containsKeyThreadsMap r = false ∧
          ∀ j : Int, 0 ≤ j → j < r → g'.scheduler.containsKeyThreadsMap j = true) ∧
        ((∀ j : Int, 0 ≤ j → j < tid → g.scheduler.containsKeyThreadsMap j = true) →
          g'.scheduler.getAvailableID = tid ∧
          ∀ priority q, arrayAt g'.scheduler._quantum_usecs priority = some q →
            ∃ g'', uthread_spawn g' priority = some (tid, g''))) ∧
    ((applyOp exThree (.terminate 2)).bind (fun g => uthread_spawn g 0)).map Prod.fst
      = some 2 := by
  refine ⟨?_, by decide⟩
  intro g tid hr hrun hne hpos
  have hI := reachable_inv hr
  have hw := reachable_wf hr
  obtain ⟨t, ht, hts⟩ := (hI.running_iff tid).1 hrun
  obtain ⟨tid0, tid100, _, _⟩ := wf_thread hw ht
  have hP := parked_retiredState hI hrun ht hne
  have hmain : MAIN_THREAD ∈ g.scheduler._readyThreadsQueue := by
    have := parked_ready_main hP
    exact this
  cases hq : g.scheduler._readyThreadsQueue with
  | nil => rw [hq] at hmain; cases hmain
  | cons h tl =>
    obtain ⟨hT, hhT, _⟩ := (hI.ready_iff h).1 (by rw [hq]; simp)
    have hne2 : h ≠ tid := ready_ne_running hI hrun (by rw [hq]; simp)
    have hne3 : tid ≠ h := fun e => hne2 e.symm
    have hh' : (retiredState g tid t).scheduler.thread h = some hT := by
      rw [thread_retiredState_ne ht hne2]; exact hhT
    have hsw : switchThreads { g with scheduler := g.scheduler.put (t.setState TERMINATED) }
        = some (dispatched (retiredState g tid t) h hT tl) :=
      (terminateSelf_iff hI hrun ht hne _).2 ⟨h, tl, hT, hq, hhT, rfl⟩
    have hInv' : Inv (dispatched (retiredState g tid t) h hT tl) :=
      dispatched_inv hP hq hh'
    have hth : ∀ id, (dispatched (retiredState g tid t) h hT tl).scheduler.thread id
        = if id = h then some { hT with _state := RUNNING,
                                        _countQuantums := hT._countQuantums + 1 }
          else if id = tid then none else g.scheduler.thread id := by
      intro id
      rw [thread_dispatched _ hh', thread_retiredState_full ht]
    have hgone : (dispatched (retiredState g tid t) h hT tl).scheduler.thread tid = none := by
      rw [hth]; simp [hne3]
    have hcont : ∀ j, j ≠ tid → g.scheduler.containsKeyThreadsMap j = true →
        (dispatched (retiredState g tid t) h hT tl).scheduler.containsKeyThreadsMap j
          = true := by
      intro j hj hc
      rw [contains_iff] at hc ⊢
      obtain ⟨tj, htj⟩ := hc
      rw [hth]
      by_cases hjh : j = h
      · simp [hjh]
      · simp only [hjh, if_false, hj]
        exact ⟨tj, htj⟩
    have hst : stateOf (dispatched (retiredState g tid t) h hT tl) tid = none := by
      unfold stateOf; rw [hgone]; rfl
    have htimer : ∃ hT', g.scheduler.thread h = some hT' ∧ 0 < hT'._quantum ∧
        (dispatched (retiredState g tid t) h hT tl).timer.it_value.tv_sec * 1000000
          + (dispatched (retiredState g tid t) h hT tl).timer.it_value.tv_usec
            = hT'._quantum ∧
        0 ≤ (dispatched (retiredState g tid t) h hT tl).timer.it_value.tv_sec ∧
        0 ≤ (dispatched (retiredState g tid t) h hT tl).timer.it_value.tv_usec ∧
        (dispatched (retiredState g tid t) h hT tl).timer.it_value.tv_usec < 1000000 ∧
        (dispatched (retiredState g tid t) h hT tl).timer.it_interval
          = (dispatched (retiredState g tid t) h hT tl).timer.it_value := by
      have hp := next_quantum_pos hpos hq hhT
      obtain ⟨a, b, c, d, e⟩ := setTimer_accepted (retiredState g tid t) hp
      exact ⟨hT, hhT, hp, a, b, c, d, e⟩
    refine ⟨dispatched (retiredState g tid t) h hT tl, h, tl, rfl, ?_, ?_, ?_, ?_, rfl, htimer,
      ?_, ?_⟩
    · refine (uthread_terminate_iff g tid _).2 (Or.inr ⟨t, ht, Or.inr ⟨hne, Or.inl ⟨hts, _,
        hsw, ?_⟩⟩⟩)
      rw [hq]; simp
    · exact (contains_false_iff _ _).2 hgone
    · intro hm
      have := (((inv_iff _).1 hInv').2.2.1 tid).1 hm
      rw [hst] at this; cases this
    · intro hm
      have := (((inv_iff _).1 hInv').2.2.2.1 tid).1 hm
      rw [hst] at this; cases this
    · intro priority r g'' hsp
      rcases (uthread_spawn_iff _ g'' priority r).1 hsp with ⟨hf, _, _⟩ | ⟨hf, hrid, _⟩
      · exfalso
        have := (getAvailableID_fail_iff _).1 hf tid.toNat (by omega)
        rw [Int.toNat_of_nonneg tid0, (contains_false_iff _ _).2 hgone] at this
        cases this
      · obtain ⟨a, b, c, d⟩ := getAvailableID_spec _ hf
        rw [← hrid] at a b c d
        exact ⟨hrid, a, b, c, d⟩
    · intro hbelow
      have hid : (dispatched (retiredState g tid t) h hT tl).scheduler.getAvailableID = tid :=
        getAvailableID_eq tid0 tid100 ((contains_false_iff _ _).2 hgone)
          (fun j hj0 hjt => hcont j (by omega) (hbelow j hj0 hjt))
      refine ⟨hid, ?_⟩
      intro priority q hq'
      refine ⟨_, (uthread_spawn_iff _ _ priority tid).2 (Or.inr ⟨?_, hid.symm, q, hq',
        Or.inr ⟨hne, rfl⟩⟩)⟩
      rw [hid]
      simp only [FAIL]
      omega

/-- Witness of C9: thread 2 terminates itself at `exThree`. -/
theorem C9_self_terminate_witness :
    Reachable exThree ∧ exThree.scheduler._runningThread = some 2 ∧
    (2 : Int) ≠ MAIN_THREAD ∧ nextQuantumPositive exThree = true ∧
    ∃ g' h tl, exThree.scheduler._readyThreadsQueue = h :: tl ∧
      uthread_terminate exThree 2 = some (.switched g') ∧
      g'.scheduler.containsKeyThreadsMap 2 = false ∧
      (2 : Int) ∉ g'.scheduler._readyThreadsQueue ∧
      (2 : Int) ∉ g'.scheduler._blockedThreadsMap ∧
      g'.scheduler._runningThread = some h ∧
      (∃ hT, exThree.scheduler.thread h = some hT ∧ 0 < hT._quantum ∧
        g'.timer.it_value.tv_sec * 1000000 + g'.timer.it_value.tv_usec = hT._quantum ∧
        0 ≤ g'.timer.it_value.tv_sec ∧ 0 ≤ g'.timer.it_value.tv_usec ∧
        g'.timer.it_value.tv_usec < 1000000 ∧
        g'.timer.it_interval = g'.timer.it_value) ∧
      (∀ priority r g'', uthread_spawn g' priority = some (r, g'') →
        r = g'.scheduler.getAvailableID ∧ 0 ≤ r ∧ r < 100 ∧
        g'.scheduler.containsKeyThreadsMap r = false ∧
        ∀ j : Int, 0 ≤ j → j < r → g'.scheduler.containsKeyThreadsMap j = true) ∧
      ((∀ j : Int, 0 ≤ j → j < 2 → exThree.scheduler.containsKeyThreadsMap j = true) →
        g'.scheduler.getAvailableID = 2 ∧
        ∀ priority q, arrayAt g'.scheduler._quantum_usecs priority = some q →
          ∃ g'', uthread_spawn g' priority = some (2, g'')) :=
  ⟨exThree_reachable, rfl, by decide, by decide,
    C9_self_terminate.1 exThree 2 exThree_reachable rfl (by decide) (by decide)⟩

/-- C10: when `tid` is live with state BLOCKED, `uthread_resume(tid)` returns
0 with a state where `tid` is READY, is not in the blocked map, and the ready
queue is the old one with `tid` appended; the running thread, the total, the
timer, the other entries of the blocked map and the records of all other
threads are the same, and the record of `tid` differs in its state only.  When
`tid` is live with state RUNNING or READY the call returns 0 and the state is
the same.  At `exBlocked` (queue `[0, 2]`, thread 1 blocked) `resume(1)` gives
the queue `[0, 2, 1]`. -/
theorem C10_resume :
    (∀ (g : Globals) (tid : Int) (t : Thread), g.scheduler.thread tid = some t →
      (t._state = BLOCKED →
        ∃ g', uthread_resume g tid = some (SUCCESS, g') ∧
          stateOf g' tid = some READY ∧
          g'.scheduler.thread tid = some (t.setState READY) ∧
          tid ∉ g'.scheduler._blockedThreadsMap ∧
          (∀ id, id ≠ tid →
            (id ∈ g'.scheduler._blockedThreadsMap ↔ id ∈ g.scheduler._blockedThreadsMap)) ∧
          g'.scheduler._readyThreadsQueue = g.scheduler._readyThreadsQueue ++ [tid] ∧
          g'.scheduler._runningThread = g.scheduler._runningThread ∧
          g'.scheduler._totalQuantums = g.scheduler._totalQuantums ∧
          g'.timer = g.timer ∧
          (∀ id, id ≠ tid → g'.scheduler.thread id = g.scheduler.thread id)) ∧
      ((t._state = RUNNING ∨ t._state = READY) →
        uthread_resume g tid = some (SUCCESS, g))) ∧
    (exBlocked.scheduler._readyThreadsQueue = [0, 2] ∧ stateOf exBlocked 1 = some BLOCKED ∧
      (uthread_resume exBlocked 1).map (fun p => p.2.scheduler._readyThreadsQueue)
        = some [0, 2, 1]) := by
  refine ⟨?_, by decide, by decide, by decide⟩
  intro g tid t ht
  constructor
  · intro hs
    refine ⟨resumedState g tid t, ?_, ?_, ?_, ?_, ?_, rfl, rfl, rfl, rfl, ?_⟩
    · exact (uthread_resume_iff g _ tid SUCCESS).2 (Or.inr ⟨t, ht, rfl, Or.inl ⟨hs, rfl⟩⟩)
    · rw [stateOf_resumedState ht]; simp
    · rw [thread_resumedState_full ht]; simp
    · show tid ∉ g.scheduler._blockedThreadsMap.filter (fun k => decide (k ≠ tid))
      simp
    · intro id hid
      show id ∈ g.scheduler._blockedThreadsMap.filter (fun k => decide (k ≠ tid)) ↔ _
      simp [hid]
    · intro id hid
      rw [thread_resumedState_full ht]; simp [hid]
  · intro hs
    refine (uthread_resume_iff g g tid SUCCESS).2 (Or.inr ⟨t, ht, rfl, Or.inr ⟨?_, rfl⟩⟩)
    rcases hs with h | h <;> rw [h] <;> decide

/-- Witness of C10: `resume(1)` at `exBlocked`, where thread 1 is BLOCKED. -/
theorem C10_resume_witness :
    exBlocked.scheduler.thread 1
      = some { _ID := 1, _quantum := 1000000, _priority := 0, _state := BLOCKED,
               _countQuantums := 1 } ∧
    ∃ g', uthread_resume exBlocked 1 = some (SUCCESS, g') ∧
      stateOf g' 1 = some READY ∧
      g'.scheduler.thread 1
        = some (Thread.setState { _ID := 1, _quantum := 1000000, _priority := 0,
                                  _state := BLOCKED, _countQuantums := 1 } READY) ∧
      (1 : Int) ∉ g'.scheduler._blockedThreadsMap ∧
      (∀ id, id ≠ 1 →
        (id ∈ g'.scheduler._blockedThreadsMap ↔ id ∈ exBlocked.scheduler._blockedThreadsMap)) ∧
      g'.scheduler._readyThreadsQueue = exBlocked.scheduler._readyThreadsQueue ++ [1] ∧
      g'.scheduler._runningThread = exBlocked.scheduler._runningThread ∧
      g'.scheduler._totalQuantums = exBlocked.scheduler._totalQuantums ∧
      g'.timer = exBlocked.timer ∧
      (∀ id, id ≠ 1 → g'.scheduler.thread id = exBlocked.scheduler.thread id) :=
  ⟨by decide, (C10_resume.1 exBlocked 1 _ (by decide)).1 rfl⟩

theorem filter_ne_of_not_mem {l : List Int} {a : Int} (h : a ∉ l) :
    l.filter (fun k => decide (k ≠ a)) = l := by
  apply List.filter_eq_self.2
  intro x hx
  simp only [ne_eq, decide_eq_true_eq]
  rintro rfl
  exact h hx

theorem erase_eq_filter_ne {l : List Int} (hn : l.Nodup) (a : Int) :
    l.erase a = l.filter (fun k => decide (k ≠ a)) := by
  rw [erase_eq_filter_single hn]
  congr 1
  funext x
  simp

/-- C11: in a reachable state, `uthread_terminate(tid)` for a live `tid` other
than 0 that is not the running thread returns 0 with a state where `tid` has
no record and is in neither the ready queue nor the blocked map.  The table is
the old one without the record of `tid`; the ready queue and the blocked map
are the old ones without `tid`, in the same order; the running thread, the
total, the timer, the quantum table, the list of records awaiting deletion and
the records of all other threads are the same. -/
theorem C11_terminate_other (g : Globals) (tid : Int) (t : Thread) (hr : Reachable g)
    (ht : g.scheduler.thread tid = some t) (hne : tid ≠ MAIN_THREAD)
    (hrun : g.scheduler._runningThread ≠ some tid) :
    ∃ g', uthread_terminate g tid = some (.returned SUCCESS g') ∧
      g'.scheduler.containsKeyThreadsMap tid = false ∧
      tid ∉ g'.scheduler._readyThreadsQueue ∧ tid ∉ g'.scheduler._blockedThreadsMap ∧
      g'.scheduler._threadsMap
        = g.scheduler._threadsMap.filter (fun x => decide (x._ID ≠ tid)) ∧
      g'.scheduler._readyThreadsQueue
        = g.scheduler._readyThreadsQueue.filter (fun k => decide (k ≠ tid)) ∧
      g'.scheduler._blockedThreadsMap
        = g.scheduler._blockedThreadsMap.filter (fun k => decide (k ≠ tid)) ∧
      g'.scheduler._runningThread = g.scheduler._runningThread ∧
      g'.scheduler._totalQuantums = g.scheduler._totalQuantums ∧
      g'.timer = g.timer ∧
      g'.scheduler._quantum_usecs = g.scheduler._quantum_usecs ∧
      g'.scheduler._recentlyDeleted = g.scheduler._recentlyDeleted ∧
      (∀ id, id ≠ tid → g'.scheduler.thread id = g.scheduler.thread id) := by
  have hI := reachable_inv hr
  have hnr : t._state ≠ RUNNING := fun h => hrun ((hI.running_iff tid).2 ⟨t, ht, h⟩)
  have hnt : t._state ≠ TERMINATED := hI.not_terminated tid t ht
  cases hs : t._state with
  | RUNNING => exact absurd hs hnr
  | TERMINATED => exact absurd hs hnt
  | BLOCKED =>
    have hnotready : tid ∉ g.scheduler._readyThreadsQueue := by
      intro hm
      obtain ⟨t', ht', hs'⟩ := (hI.ready_iff tid).1 hm
      rw [ht] at ht'; cases ht'
      rw [hs] at hs'; cases hs'
    refine ⟨removedBlocked g tid, ?_, ?_, ?_, ?_, rfl, ?_, rfl, rfl, rfl, rfl, rfl, rfl, ?_⟩
    · exact (uthread_terminate_iff g tid _).2
        (Or.inr ⟨t, ht, Or.inr ⟨hne, Or.inr (Or.inl ⟨hs, rfl⟩)⟩⟩)
    · rw [contains_false_iff, thread_removedBlocked]; simp
    · exact hnotready
    · show tid ∉ g.scheduler._blockedThreadsMap.filter (fun k => decide (k ≠ tid))
      simp
    · exact (filter_ne_of_not_mem hnotready).symm
    · intro id hid
      rw [thread_removedBlocked]; simp [hid]
  | READY =>
    have hnotblocked : tid ∉ g.scheduler._blockedThreadsMap := by
      intro hm
      obtain ⟨t', ht', hs'⟩ := (hI.blocked_iff tid).1 hm
      rw [ht] at ht'; cases ht'
      rw [hs] at hs'; cases hs'
    have hq : (removedReady g tid).scheduler._readyThreadsQueue
        = g.scheduler._readyThreadsQueue.filter (fun k => decide (k ≠ tid)) :=
      erase_eq_filter_ne hI.ready_nodup tid
    refine ⟨removedReady g tid, ?_, ?_, ?_, ?_, rfl, hq, ?_, rfl, rfl, rfl, rfl, rfl, ?_⟩
    · exact (uthread_terminate_iff g tid _).2
        (Or.inr ⟨t, ht, Or.inr ⟨hne, Or.inr (Or.inr (Or.inl ⟨hs, rfl⟩))⟩⟩)
    · rw [contains_false_iff, thread_removedReady]; simp
    · rw [hq]; simp
    · exact hnotblocked
    · exact (filter_ne_of_not_mem hnotblocked).symm
    · intro id hid
      rw [thread_removedReady]; simp [hid]

/-- Witness of C11: `terminate(1)` at `exBlocked`, where thread 1 is BLOCKED
and thread 3 runs. -/
theorem C11_terminate_other_witness :
    Reachable exBlocked ∧ (1 : Int) ≠ MAIN_THREAD ∧
    exBlocked.scheduler._runningThread ≠ some 1 ∧
    ∃ g', uthread_terminate exBlocked 1 = some (.returned SUCCESS g') ∧
      g'.scheduler.containsKeyThreadsMap 1 = false ∧
      (1 : Int) ∉ g'.scheduler._readyThreadsQueue ∧
      (1 : Int) ∉ g'.scheduler._blockedThreadsMap ∧
      g'.scheduler._threadsMap
        = exBlocked.scheduler._threadsMap.filter (fun x => decide (x._ID ≠ 1)) ∧
      g'.scheduler._readyThreadsQueue
        = exBlocked.scheduler._readyThreadsQueue.filter (fun k => decide (k ≠ 1)) ∧
      g'.scheduler._blockedThreadsMap
        = exBlocked.scheduler._blockedThreadsMap.filter (fun k => decide (k ≠ 1)) ∧
      g'.scheduler._runningThread = exBlocked.scheduler._runningThread ∧
      g'.scheduler._totalQuantums = exBlocked.scheduler._totalQuantums ∧
      g'.timer = exBlocked.timer ∧
      g'.scheduler._quantum_usecs = exBlocked.scheduler._quantum_usecs ∧
      g'.scheduler._recentlyDeleted = exBlocked.scheduler._recentlyDeleted ∧
      (∀ id, id ≠ 1 → g'.scheduler.thread id = exBlocked.scheduler.thread id) :=
  ⟨exBlocked_reachable, by decide, by decide,
    C11_terminate_other exBlocked 1 _ exBlocked_reachable
      rfl (by decide) (by decide)⟩

theorem filter_keys_of_free {s : Scheduler} {r : Int} (h : s.thread r = none) :
    s._threadsMap.filter (fun t => decide (t._ID ≠ r)) = s._threadsMap := by
  apply List.filter_eq_self.2
  intro x hx
  have := List.find?_eq_none.1 h x hx
  simpa using this

/-- C12: in a reachable state where `getAvailableID` finds a free id and
`priority` is an index of the quantum table with entry `q`, `uthread_spawn`
returns that id `r`, which is not 0 and had no record.  The new table is the
old one with one more record: id `r`, quantum `q`, the given priority, state
READY, count 0.  The ready queue is the old one with `r` appended; the running
thread, the total, the blocked map, the timer, the quantum table, the list of
records awaiting deletion and all existing records are the same. -/
theorem C12_spawn (g : Globals) (priority q : Int) (hr : Reachable g)
    (hfree : g.scheduler.getAvailableID ≠ FAIL)
    (hq : arrayAt g.scheduler._quantum_usecs priority = some q) :
    ∃ r g', uthread_spawn g priority = some (r, g') ∧
      r = g.scheduler.getAvailableID ∧ r ≠ MAIN_THREAD ∧
      g.scheduler.containsKeyThreadsMap r = false ∧
      g'.scheduler._threadsMap
        = { _ID := r, _quantum := q, _priority := priority, _state := READY,
            _countQuantums := 0 } :: g.scheduler._threadsMap ∧
      g'.scheduler.thread r
        = some { _ID := r, _quantum := q, _priority := priority, _state := READY,
                 _countQuantums := 0 } ∧
      g'.scheduler._readyThreadsQueue = g.scheduler._readyThreadsQueue ++ [r] ∧
      g'.scheduler._runningThread = g.scheduler._runningThread ∧
      g'.scheduler._totalQuantums = g.scheduler._totalQuantums ∧
      g'.scheduler._blockedThreadsMap = g.scheduler._blockedThreadsMap ∧
      g'.timer = g.timer ∧
      g'.scheduler._quantum_usecs = g.scheduler._quantum_usecs ∧
      g'.scheduler._recentlyDeleted = g.scheduler._recentlyDeleted ∧
      (∀ id, id ≠ r → g'.scheduler.thread id = g.scheduler.thread id) := by
  have hI := reachable_inv hr
  obtain ⟨_, _, hnew, _⟩ := getAvailableID_spec _ hfree
  have hne : g.scheduler.getAvailableID ≠ MAIN_THREAD := by
    intro h0
    rw [h0, inv_main_live hI] at hnew
    cases hnew
  have hnone := (contains_false_iff _ _).1 hnew
  refine ⟨g.scheduler.getAvailableID, spawnedState g g.scheduler.getAvailableID q priority,
    ?_, rfl, hne, hnew, ?_, ?_, rfl, rfl, rfl, rfl, rfl, rfl, rfl, ?_⟩
  · exact (uthread_spawn_iff g _ priority _).2
      (Or.inr ⟨hfree, rfl, q, hq, Or.inr ⟨hne, rfl⟩⟩)
  · show Thread.new _ q priority READY 0
        :: g.scheduler._threadsMap.filter
            (fun t => decide (t._ID ≠ g.scheduler.getAvailableID)) = _
    rw [filter_keys_of_free hnone]
    rfl
  · rw [thread_spawnedState]; simp [Thread.new]
  · intro id hid
    rw [thread_spawnedState]; simp [hid]

/-- Witness of C12: `spawn(f, 1)` at `exThree`, where ids 0, 1, 2 are live. -/
theorem C12_spawn_witness :
    Reachable exThree ∧ exThree.scheduler.getAvailableID ≠ FAIL ∧
    arrayAt exThree.scheduler._quantum_usecs 1 = some 200000 ∧
    ∃ r g', uthread_spawn exThree 1 = some (r, g') ∧
      r = exThree.scheduler.getAvailableID ∧ r ≠ MAIN_THREAD ∧
      exThree.scheduler.containsKeyThreadsMap r = false ∧
      g'.scheduler._threadsMap
        = { _ID := r, _quantum := 200000, _priority := 1, _state := READY,
            _countQuantums := 0 } :: exThree.scheduler._threadsMap ∧
      g'.scheduler.thread r
        = some { _ID := r, _quantum := 200000, _priority := 1, _state := READY,
                 _countQuantums := 0 } ∧
      g'.scheduler._readyThreadsQueue = exThree.scheduler._readyThreadsQueue ++ [r] ∧
      g'.scheduler._runningThread = exThree.scheduler._runningThread ∧
      g'.scheduler._totalQuantums = exThree.scheduler._totalQuantums ∧
      g'.scheduler._blockedThreadsMap = exThree.scheduler._blockedThreadsMap ∧
      g'.timer = exThree.timer ∧
      g'.scheduler._quantum_usecs = exThree.scheduler._quantum_usecs ∧
      g'.scheduler._recentlyDeleted = exThree.scheduler._recentlyDeleted ∧
      (∀ id, id ≠ r → g'.scheduler.thread id = exThree.scheduler.thread id) :=
  ⟨exThree_reachable, by decide, by decide,
    C12_spawn exThree 1 200000 exThree_reachable (by decide) (by decide)⟩

theorem isNonPositiveFrom_eq (a : List Int) (n i : Nat) (h : i + n ≤ a.length) :
    isNonPositiveFrom a n i
      = some (((a.drop i).take n).any (fun q => decide (q ≤ 0))) := by
  induction n generalizing i with
  | zero => simp [isNonPositiveFrom]
  | succ n ih =>
    have hi : i < a.length := by omega
    have hd : a.drop i = a[i] :: a.drop (i + 1) := List.drop_eq_getElem_cons hi
    rw [isNonPositiveFrom, List.getElem?_eq_getElem hi, hd, List.take_succ_cons,
      List.any_cons]
    by_cases hq : a[i] ≤ 0
    · simp [hq]
    · simp only [hq, if_false, decide_False, Bool.false_or]
      exact ih (i + 1) (by omega)

theorem isNonPositive_eq (a : List Int) (size : Int) (h : size.toNat ≤ a.length) :
    isNonPositive a size = some ((a.take size.toNat).any (fun q => decide (q ≤ 0))) := by
  unfold isNonPositive
  rw [isNonPositiveFrom_eq a size.toNat 0 (by omega)]
  simp

theorem isNonPositive_false_iff (a : List Int) (size : Int) (h : size.toNat ≤ a.length) :
    isNonPositive a size = some false ↔ ∀ q ∈ a.take size.toNat, 0 < q := by
  rw [isNonPositive_eq a size h]
  simp only [Option.some.injEq, List.any_eq_false, decide_eq_true_eq, not_le]

theorem isNonPositive_true_iff (a : List Int) (size : Int) (h : size.toNat ≤ a.length) :
    isNonPositive a size = some true ↔ ∃ q ∈ a.take size.toNat, q ≤ 0 := by
  rw [isNonPositive_eq a size h]
  simp only [Option.some.injEq, List.any_eq_true, decide_eq_true_eq]

/-- C13: when `size` is positive, the array has at least `size` entries and
the first `size` of them are positive, `uthread_init` returns 0 and creates a
state whose table holds one record: id 0, state RUNNING, count 1, quantum
`quantum_usecs[0]`.  Thread 0 is the running thread, the ready queue and the
blocked map are empty, the total is 1, and both timer intervals are
`quantum_usecs[0]` split into seconds and microseconds.  In that state
`uthread_get_tid` returns 0, `uthread_get_total_quantums` returns 1 and
`uthread_get_quantums(0)` returns 1. -/
theorem C13_init (quantum_usecs : List Int) (size : Int) (hs : 0 < size)
    (hlen : size.toNat ≤ quantum_usecs.length)
    (hpos : ∀ q ∈ quantum_usecs.take size.toNat, 0 < q) :
    ∃ q g, quantum_usecs[0]? = some q ∧
      uthread_init quantum_usecs size = some (SUCCESS, some g) ∧
      g.scheduler._threadsMap
        = [{ _ID := 0, _quantum := q, _priority := 0, _state := RUNNING,
             _countQuantums := 1 }] ∧
      g.scheduler._runningThread = some 0 ∧
      stateOf g 0 = some RUNNING ∧
      g.scheduler._readyThreadsQueue = [] ∧
      g.scheduler._blockedThreadsMap = [] ∧
      g.scheduler._totalQuantums = 1 ∧
      g.timer.it_value
        = { tv_sec := Int.tdiv q 1000000, tv_usec := Int.tmod q 1000000 } ∧
      g.timer.it_interval
        = { tv_sec := Int.tdiv q 1000000, tv_usec := Int.tmod q 1000000 } ∧
      uthread_get_tid g = some 0 ∧
      uthread_get_total_quantums g = 1 ∧
      uthread_get_quantums g 0 = some 1 := by
  have hf := (isNonPositive_false_iff quantum_usecs size hlen).2 hpos
  obtain ⟨q, hq, _⟩ := isNonPositive_zero hs hf
  refine ⟨q, initState quantum_usecs size q, ?_, ?_, rfl, rfl, rfl, rfl, rfl, rfl, rfl, rfl,
    rfl, rfl, rfl⟩
  · simpa [arrayAt] using hq
  · exact (uthread_init_iff quantum_usecs size _).2 ⟨hs, hf, q, hq, rfl⟩

/-- Witness of C13: `init([100000, 200000], 2)`. -/
theorem C13_init_witness :
    (0 : Int) < 2 ∧ (2 : Int).toNat ≤ [(100000 : Int), 200000].length ∧
    (∀ q ∈ [(100000 : Int), 200000].take (2 : Int).toNat, 0 < q) ∧
    ∃ q g, [(100000 : Int), 200000][0]? = some q ∧
      uthread_init [100000, 200000] 2 = some (SUCCESS, some g) ∧
      g.scheduler._threadsMap
        = [{ _ID := 0, _quantum := q, _priority := 0, _state := RUNNING,
             _countQuantums := 1 }] ∧
      g.scheduler._runningThread = some 0 ∧
      stateOf g 0 = some RUNNING ∧
      g.scheduler._readyThreadsQueue = [] ∧
      g.scheduler._blockedThreadsMap = [] ∧
      g.scheduler._totalQuantums = 1 ∧
      g.timer.it_value
        = { tv_sec := Int.tdiv q 1000000, tv_usec := Int.tmod q 1000000 } ∧
      g.timer.it_interval
        = { tv_sec := Int.tdiv q 1000000, tv_usec := Int.tmod q 1000000 } ∧
      uthread_get_tid g = some 0 ∧
      uthread_get_total_quantums g = 1 ∧
      uthread_get_quantums g 0 = some 1 :=
  ⟨by decide, by decide, by decide,
    C13_init [100000, 200000] 2 (by decide) (by decide) (by decide)⟩

/-- C14: when the array has at least `size` entries, `uthread_init` returns,
and it returns -1 exactly when `size ≤ 0` or one of the first `size` entries
is not positive; in every other case it returns 0 and creates the globals.
When it returns -1 it creates none.  With `size ≤ 0` the array is not read and
the length does not matter. -/
theorem C14_init_rejects (quantum_usecs : List Int) (size : Int) :
    (size.toNat ≤ quantum_usecs.length →
      ∃ r og, uthread_init quantum_usecs size = some (r, og) ∧
        (r = FAIL ↔ size ≤ 0 ∨ ∃ q ∈ quantum_usecs.take size.toNat, q ≤ 0) ∧
        (r ≠ FAIL → r = SUCCESS ∧ og.isSome = true) ∧
        (r = FAIL → og = none)) ∧
    (size ≤ 0 → uthread_init quantum_usecs size = some (FAIL, none)) := by
  have hz : size ≤ 0 → uthread_init quantum_usecs size = some (FAIL, none) := by
    intro h
    simp [uthread_init, h]
  refine ⟨?_, hz⟩
  intro hlen
  by_cases hs : size ≤ 0
  · exact ⟨FAIL, none, hz hs, by simp [hs], by simp, by simp⟩
  · cases hb : (quantum_usecs.take size.toNat).any (fun q => decide (q ≤ 0)) with
    | true =>
      have ht : isNonPositive quantum_usecs size = some true := by
        rw [isNonPositive_eq _ _ hlen, hb]
      refine ⟨FAIL, none, ?_, ?_, by simp, by simp⟩
      · simp [uthread_init, hs, ht]
      · simp only [true_iff]
        exact Or.inr ((isNonPositive_true_iff _ _ hlen).1 ht)
    | false =>
      have hf : isNonPositive quantum_usecs size = some false := by
        rw [isNonPositive_eq _ _ hlen, hb]
      obtain ⟨q, hq, _⟩ := isNonPositive_zero (by omega) hf
      have hne : SUCCESS ≠ FAIL := by decide
      refine ⟨SUCCESS, some (initState quantum_usecs size q), ?_, ?_, by simp, ?_⟩
      · exact (uthread_init_iff quantum_usecs size _).2 ⟨by omega, hf, q, hq, rfl⟩
      · constructor
        · intro h; exact absurd h hne
        · rintro (h | h)
          · exact absurd h hs
          · have := (isNonPositive_true_iff _ _ hlen).2 h
            rw [hf] at this; cases this
      · intro h; exact absurd h hne

/-- Witness of C14: `init([100000, 0, 5], 2)` has a zero among its first two
entries. -/
theorem C14_init_rejects_witness :
    (2 : Int).toNat ≤ [(100000 : Int), 0, 5].length ∧
    ∃ r og, uthread_init [100000, 0, 5] 2 = some (r, og) ∧
      (r = FAIL ↔ (2 : Int) ≤ 0 ∨ ∃ q ∈ [(100000 : Int), 0, 5].take (2 : Int).toNat, q ≤ 0) ∧
      (r ≠ FAIL → r = SUCCESS ∧ og.isSome = true) ∧
      (r = FAIL → og = none) :=
  ⟨by decide, (C14_init_rejects [100000, 0, 5] 2).1 (by decide)⟩

/-! ## Results of the calls in a consistent state -/

/-- C16: in every state, reachable or not, a call of `uthread_spawn`,
`uthread_terminate`, `uthread_block`, `uthread_resume` or
`uthread_change_priority` that returns -1 leaves the globals (timer, table and
records, ready queue, blocked map, running thread, total, records awaiting
deletion) as they were.  `uthread_get_quantums` writes nothing on any path, so
its model has no resulting state; it returns -1 when `tid` is not a key. -/
theorem C16_errors_leave_state (g : Globals) (tid priority : Int) :
    (∀ g', uthread_spawn g priority = some (FAIL, g') → g' = g) ∧
    (∀ g', uthread_terminate g tid = some (.returned FAIL g') → g' = g) ∧
    (∀ g', uthread_block g tid = some (FAIL, g') → g' = g) ∧
    (∀ g', uthread_resume g tid = some (FAIL, g') → g' = g) ∧
    (∀ g', uthread_change_priority g tid priority = some (FAIL, g') → g' = g) ∧
    (g.scheduler.containsKeyThreadsMap tid = false → uthread_get_quantums g tid = some FAIL) := by
  have hne : FAIL ≠ SUCCESS := by decide
  refine ⟨?_, ?_, ?_, ?_, ?_, ?_⟩
  · intro g' h
    rcases (uthread_spawn_iff g g' priority FAIL).1 h with ⟨_, _, h3⟩ | ⟨h1, h2, _⟩
    · exact h3
    · exact absurd h2.symm h1
  · intro g' h
    rcases (uthread_terminate_iff g tid _).1 h with ⟨_, h2⟩ | ⟨t, _, h2⟩
    · simp only [TerminateResult.returned.injEq] at h2
      exact h2.2
    · rcases h2 with ⟨_, h3⟩ | ⟨_, h3⟩
      · cases h3
      · rcases h3 with ⟨_, g'', _, h4⟩ | ⟨_, h4⟩ | ⟨_, h4⟩ | ⟨_, h4⟩
        · split at h4
          · simp only [TerminateResult.returned.injEq] at h4
            exact absurd h4.1 hne
          · cases h4
        all_goals
          simp only [TerminateResult.returned.injEq] at h4
          exact absurd h4.1 hne
  · intro g' h
    rcases (uthread_block_iff g g' tid FAIL).1 h with ⟨_, _, h3⟩ | ⟨t, _, h2⟩
    · exact h3
    · rcases h2 with ⟨_, _, h3⟩ | ⟨_, h3, _⟩
      · exact h3
      · exact absurd h3 hne
  · intro g' h
    rcases (uthread_resume_iff g g' tid FAIL).1 h with ⟨_, _, h3⟩ | ⟨t, _, h2, _⟩
    · exact h3
    · exact absurd h2 hne
  · intro g' h
    rcases (uthread_change_priority_iff g g' tid priority FAIL).1 h with
      ⟨_, _, h3⟩ | ⟨t, _, h2⟩
    · exact h3
    · rcases h2 with ⟨_, _, h3⟩ | ⟨_, h3, _⟩
      · exact h3
      · exact absurd h3 hne
  · intro h
    simp [uthread_get_quantums, h]

/-- Witness of C16: at `exBlocked`, where 7 is not live, `terminate(7)`,
`block(7)`, `resume(7)` and `change_priority(7, 0)` return -1. -/
theorem C16_errors_leave_state_witness :
    (∃ g', uthread_terminate exBlocked 7 = some (.returned FAIL g') ∧ g' = exBlocked) ∧
    (∃ g', uthread_block exBlocked 7 = some (FAIL, g') ∧ g' = exBlocked) ∧
    (∃ g', uthread_resume exBlocked 7 = some (FAIL, g') ∧ g' = exBlocked) ∧
    (∃ g', uthread_change_priority exBlocked 7 0 = some (FAIL, g') ∧ g' = exBlocked) ∧
    uthread_get_quantums exBlocked 7 = some FAIL :=
  ⟨⟨_, rfl, (C16_errors_leave_state exBlocked 7 0).2.1 _ rfl⟩,
   ⟨_, rfl, (C16_errors_leave_state exBlocked 7 0).2.2.1 _ rfl⟩,
   ⟨_, rfl, (C16_errors_leave_state exBlocked 7 0).2.2.2.1 _ rfl⟩,
   ⟨_, rfl, (C16_errors_leave_state exBlocked 7 0).2.2.2.2.1 _ rfl⟩,
   (C16_errors_leave_state exBlocked 7 0).2.2.2.2.2 (by decide)⟩

/-- C19: in a reachable state whose ready queue is empty the running thread
is thread 0, and a timer tick (`switchThreads`) returns with the same running
thread, still RUNNING.  Its record differs in the count only, which is one
larger; the records of all other threads, the keys of the table, the ready
queue (empty), the blocked map and the list of records awaiting deletion are
the same; the total is one larger; and both timer intervals are the quantum of
the running thread split into seconds and microseconds.  After
`init([1000000], 1)` and one tick, `uthread_get_total_quantums` returns 2 and
`uthread_get_quantums(0)` returns 2. -/
theorem C19_empty_queue_tick :
    (∀ g : Globals, Reachable g → g.scheduler._readyThreadsQueue = [] →
      ∃ curT g', g.scheduler._runningThread = some MAIN_THREAD ∧
        g.scheduler.thread MAIN_THREAD = some curT ∧
        switchThreads g = some g' ∧
        g'.scheduler._runningThread = some MAIN_THREAD ∧
        stateOf g MAIN_THREAD = some RUNNING ∧ stateOf g' MAIN_THREAD = some RUNNING ∧
        g'.scheduler.thread MAIN_THREAD
          = some { curT with _countQuantums := curT._countQuantums + 1 } ∧
        (∀ id, id ≠ MAIN_THREAD → g'.scheduler.thread id = g.scheduler.thread id) ∧
        g'.scheduler._threadsMap.map Thread._ID = g.scheduler._threadsMap.map Thread._ID ∧
        g'.scheduler._readyThreadsQueue = [] ∧
        g'.scheduler._blockedThreadsMap = g.scheduler._blockedThreadsMap ∧
        g'.scheduler._recentlyDeleted = g.scheduler._recentlyDeleted ∧
        g'.scheduler._totalQuantums = g.scheduler._totalQuantums + 1 ∧
        g'.timer.it_value = { tv_sec := Int.tdiv curT._quantum 1000000,
                              tv_usec := Int.tmod curT._quantum 1000000 } ∧
        g'.timer.it_interval = { tv_sec := Int.tdiv curT._quantum 1000000,
                                 tv_usec := Int.tmod curT._quantum 1000000 }) ∧
    ((runFromInit [1000000] 1 [.tick]).map uthread_get_total_quantums = some 2 ∧
      (runFromInit [1000000] 1 [.tick]).bind (fun g => uthread_get_quantums g 0) = some 2) := by
  refine ⟨?_, by decide, by decide⟩
  intro g hr hq
  have hI := reachable_inv hr
  obtain ⟨curT, hc, hs⟩ := hI.main_runnable
  have hrun : curT._state = RUNNING := by
    rcases hs with hs | hs
    · exact hs
    · have := (hI.ready_iff MAIN_THREAD).2 ⟨curT, hc, hs⟩
      rw [hq] at this; cases this
  have hr0 : g.scheduler._runningThread = some MAIN_THREAD :=
    (hI.running_iff MAIN_THREAD).2 ⟨curT, hc, hrun⟩
  have hth := thread_stayed hc
  refine ⟨curT, stayed g curT, hr0, hc, ?_, hr0, ?_, ?_, ?_, ?_, ?_, hq, rfl, rfl, rfl, rfl,
    rfl⟩
  · exact (tick_iff hI _).2 ⟨MAIN_THREAD, curT, hr0, hc, Or.inl ⟨hq, rfl⟩⟩
  · rw [stateOf_of_thread hc, hrun]
  · unfold stateOf
    rw [hth]
    simp [Thread.getState, hrun]
  · rw [hth]; simp
  · intro id hid
    rw [hth]; simp [hid]
  · exact put_keys _ _

/-- Witness of C19: the state right after `init([1000000], 1)`. -/
theorem C19_empty_queue_tick_witness :
    Reachable (initState [1000000] 1 1000000) ∧
    (initState [1000000] 1 1000000).scheduler._readyThreadsQueue = [] ∧
    ∃ curT g', (initState [1000000] 1 1000000).scheduler._runningThread = some MAIN_THREAD ∧
      (initState [1000000] 1 1000000).scheduler.thread MAIN_THREAD = some curT ∧
      switchThreads (initState [1000000] 1 1000000) = some g' ∧
      g'.scheduler._runningThread = some MAIN_THREAD ∧
      stateOf (initState [1000000] 1 1000000) MAIN_THREAD = some RUNNING ∧
      stateOf g' MAIN_THREAD = some RUNNING ∧
      g'.scheduler.thread MAIN_THREAD
        = some { curT with _countQuantums := curT._countQuantums + 1 } ∧
      (∀ id, id ≠ MAIN_THREAD →
        g'.scheduler.thread id = (initState [1000000] 1 1000000).scheduler.thread id) ∧
      g'.scheduler._threadsMap.map Thread._ID
        = (initState [1000000] 1 1000000).scheduler._threadsMap.map Thread._ID ∧
      g'.scheduler._readyThreadsQueue = [] ∧
      g'.scheduler._blockedThreadsMap
        = (initState [1000000] 1 1000000).scheduler._blockedThreadsMap ∧
      g'.scheduler._recentlyDeleted
        = (initState [1000000] 1 1000000).scheduler._recentlyDeleted ∧
      g'.scheduler._totalQuantums
        = (initState [1000000] 1 1000000).scheduler._totalQuantums + 1 ∧
      g'.timer.it_value = { tv_sec := Int.tdiv curT._quantum 1000000,
                            tv_usec := Int.tmod curT._quantum 1000000 } ∧
      g'.timer.it_interval = { tv_sec := Int.tdiv curT._quantum 1000000,
                               tv_usec := Int.tmod curT._quantum 1000000 } :=
  ⟨Reachable.init [1000000] 1 _ (by decide), rfl,
    C19_empty_queue_tick.1 _ (Reachable.init [1000000] 1 _ (by decide)) rfl⟩

/-! ## Sums of quantum counts -/

theorem sum_replace (l : List Thread) (id : Int) (t t' : Thread)
    (hn : (l.map Thread._ID).Nodup)
    (h : l.find? (fun x => decide (x._ID = id)) = some t) :
    ((l.map (fun x => if x._ID = id then t' else x)).map Thread.getCountQuantums).sum
      = (l.map Thread.getCountQuantums).sum - t._countQuantums + t'._countQuantums := by
  induction l with
  | nil => simp at h
  | cons a l ih =>
    simp only [List.map_cons, List.nodup_cons, List.mem_map, not_exists, not_and] at hn
    simp only [List.map_cons, List.sum_cons]
    by_cases ha : a._ID = id
    · have hat : a = t := by
        simp only [List.find?_cons, ha, decide_True] at h
        exact Option.some.inj h
      have hrest : l.map (fun x => if x._ID = id then t' else x) = l := by
        conv_rhs => rw [← List.map_id l]
        apply List.map_congr_left
        intro x hx
        have : x._ID ≠ id := fun e => hn.1 x hx (e.trans ha.symm)
        simp [this]
      rw [hrest]
      simp only [ha, if_true, ← hat, Thread.getCountQuantums]
      omega
    · have h2 : l.find? (fun x => decide (x._ID = id)) = some t := by
        simpa [List.find?_cons, ha] using h
      rw [ih hn.2 h2]
      simp only [ha, if_false]
      omega

theorem sum_remove (l : List Thread) (id : Int) (t : Thread)
    (hn : (l.map Thread._ID).Nodup)
    (h : l.find? (fun x => decide (x._ID = id)) = some t) :
    ((l.filter (fun x => decide (x._ID ≠ id))).map Thread.getCountQuantums).sum
      = (l.map Thread.getCountQuantums).sum - t._countQuantums := by
  induction l with
  | nil => simp at h
  | cons a l ih =>
    simp only [List.map_cons, List.nodup_cons, List.mem_map, not_exists, not_and] at hn
    by_cases ha : a._ID = id
    · have hat : a = t := by
        simp only [List.find?_cons, ha, decide_True] at h
        exact Option.some.inj h
      have hrest : l.filter (fun x => decide (x._ID ≠ id)) = l := by
        apply List.filter_eq_self.2
        intro x hx
        have : x._ID ≠ id := fun e => hn.1 x hx (e.trans ha.symm)
        simpa using this
      simp only [List.filter_cons, ha, ne_eq, not_true_eq_false, decide_False, Bool.false_eq_true,
        if_false, List.map_cons, List.sum_cons]
      have hrest' : l.filter (fun x => !decide (x._ID = id)) = l := by
        rw [← hrest]; congr 1; funext x; simp
      simp only [ne_eq, decide_not] at hrest ⊢
      rw [hrest', ← hat]
      simp only [Thread.getCountQuantums]
      omega
    · have h2 : l.find? (fun x => decide (x._ID = id)) = some t := by
        simpa [List.find?_cons, ha] using h
      have := ih hn.2 h2
      simp only [List.filter_cons, ha, ne_eq, not_false_eq_true, decide_True, if_true,
        List.map_cons, List.sum_cons]
      simp only [ne_eq] at this
      rw [this]
      omega

theorem filter_key_single (l : List Thread) (id : Int) (t : Thread)
    (hn : (l.map Thread._ID).Nodup)
    (h : l.find? (fun x => decide (x._ID = id)) = some t) :
    l.filter (fun x => decide (x._ID = id)) = [t] := by
  induction l with
  | nil => simp at h
  | cons a l ih =>
    simp only [List.map_cons, List.nodup_cons, List.mem_map, not_exists, not_and] at hn
    by_cases ha : a._ID = id
    · have hat : a = t := by
        simp only [List.find?_cons, ha, decide_True] at h
        exact Option.some.inj h
      have hrest : l.filter (fun x => decide (x._ID = id)) = [] := by
        apply List.filter_eq_nil_iff.2
        intro x hx
        have : x._ID ≠ id := fun e => hn.1 x hx (e.trans ha.symm)
        simpa using this
      subst hat
      simp only [List.filter_cons, ha, decide_True, if_true, hrest]
    · have h2 : l.find? (fun x => decide (x._ID = id)) = some t := by
        simpa [List.find?_cons, ha] using h
      simp only [List.filter_cons, ha, decide_False, Bool.false_eq_true, if_false]
      exact ih hn.2 h2

theorem live_put (s : Scheduler) (t' : Thread) {tid : Int} {t : Thread}
    (hn : (s._threadsMap.map Thread._ID).Nodup) (ht : s.thread tid = some t)
    (hid : t'._ID = tid) :
    liveQuantums (s.put t') = liveQuantums s - t._countQuantums + t'._countQuantums := by
  subst hid
  exact sum_replace s._threadsMap t'._ID t t' hn ht

theorem live_remove {s : Scheduler} {tid : Int} {t : Thread}
    (hn : (s._threadsMap.map Thread._ID).Nodup) (ht : s.thread tid = some t) :
    liveQuantums (s.removeFromThreadsMap tid) = liveQuantums s - t._countQuantums :=
  sum_remove s._threadsMap tid t hn ht

theorem live_add {s : Scheduler} {t : Thread} (h : s.thread t._ID = none) :
    liveQuantums (s.addThreadsMap t) = liveQuantums s + t._countQuantums := by
  unfold liveQuantums Scheduler.addThreadsMap
  simp only [Thread.getID, List.map_cons, List.sum_cons, filter_keys_of_free h,
    Thread.getCountQuantums]
  omega

theorem retired_zero {g g' : Globals}
    (h : ∀ id, g.scheduler.containsKeyThreadsMap id = true →
      g'.scheduler.containsKeyThreadsMap id = true) :
    retiredQuantums g g' = 0 := by
  unfold retiredQuantums
  have : g.scheduler._threadsMap.filter
      (fun t => !g'.scheduler.containsKeyThreadsMap t._ID) = [] := by
    apply List.filter_eq_nil_iff.2
    intro x hx
    simp [h x._ID (contains_of_mem_keys _ _ (List.mem_map_of_mem _ hx))]
  rw [this]; rfl

theorem retired_one {g g' : Globals} {tid : Int} {t : Thread}
    (hn : (g.scheduler._threadsMap.map Thread._ID).Nodup)
    (ht : g.scheduler.thread tid = some t)
    (hgone : g'.scheduler.containsKeyThreadsMap tid = false)
    (hkeep : ∀ id, id ≠ tid → g.scheduler.containsKeyThreadsMap id = true →
      g'.scheduler.containsKeyThreadsMap id = true) :
    retiredQuantums g g' = t._countQuantums := by
  unfold retiredQuantums
  have : g.scheduler._threadsMap.filter
      (fun t => !g'.scheduler.containsKeyThreadsMap t._ID)
        = g.scheduler._threadsMap.filter (fun x => decide (x._ID = tid)) := by
    apply List.filter_congr
    intro x hx
    by_cases hx2 : x._ID = tid
    · simp [hx2, hgone]
    · simp [hx2, hkeep x._ID hx2 (contains_of_mem_keys _ _ (List.mem_map_of_mem _ hx))]
  rw [this, filter_key_single _ tid t hn ht]
  simp [Thread.getCountQuantums]

theorem contains_congr {s u : Scheduler} {id : Int} (h : u.thread id = s.thread id) :
    u.containsKeyThreadsMap id = s.containsKeyThreadsMap id := by
  unfold Scheduler.containsKeyThreadsMap
  rw [h]

theorem live_dispatched {g : Globals} {h : Int} {hT : Thread} (rest : List Int)
    (hw : g.scheduler.WF) (hh : g.scheduler.thread h = some hT) :
    liveQuantums (dispatched g h hT rest).scheduler = liveQuantums g.scheduler + 1 ∧
    (dispatched g h hT rest).scheduler._totalQuantums = g.scheduler._totalQuantums + 1 := by
  refine ⟨?_, rfl⟩
  have hid := thread_id hh
  have := live_put
    { g.scheduler with
      _readyThreadsQueue := rest, _runningThread := some h,
      _totalQuantums := g.scheduler._totalQuantums + 1 }
    { hT with _state := RUNNING, _countQuantums := hT._countQuantums + 1 } hw.1 hh hid
  show liveQuantums (Scheduler.put _ _) = _
  rw [this]
  show liveQuantums g.scheduler - _ + (hT._countQuantums + 1) = _
  omega

theorem contains_of_ite {s u : Scheduler} {a : Int} {x : Thread}
    (h : ∀ id, u.thread id = if id = a then some x else s.thread id) (id : Int)
    (hc : s.containsKeyThreadsMap id = true) : u.containsKeyThreadsMap id = true := by
  unfold Scheduler.containsKeyThreadsMap at hc ⊢
  rw [h]
  by_cases e : id = a
  · simp [e]
  · simpa [e] using hc

theorem contains_of_ite_none {s u : Scheduler} {a : Int}
    (h : ∀ id, u.thread id = if id = a then none else s.thread id) :
    u.containsKeyThreadsMap a = false ∧
    ∀ id, id ≠ a → s.containsKeyThreadsMap id = true → u.containsKeyThreadsMap id = true := by
  unfold Scheduler.containsKeyThreadsMap
  refine ⟨by rw [h]; simp, ?_⟩
  intro id e hc
  rw [h]
  simpa [e] using hc

theorem effect_quantums {g g' : Globals} {b : Bool} (he : Effect g b g')
    (hw : g.scheduler.WF) :
    g'.scheduler._totalQuantums - liveQuantums g'.scheduler
      = g.scheduler._totalQuantums - liveQuantums g.scheduler + retiredQuantums g g' := by
  cases he with
  | unchanged => rw [retired_zero (fun _ h => h)]; omega
  | spawned r q priority hfree hid hr hq =>
    rw [retired_zero (contains_of_ite (thread_spawnedState g r q priority))]
    have : liveQuantums (spawnedState g r q priority).scheduler
        = liveQuantums g.scheduler + 0 :=
      live_add (s := g.scheduler.addReadyThreadsQueue r) hfree
    rw [this]
    show g.scheduler._totalQuantums - _ = _
    omega
  | removedBlocked tid t ht hs =>
    obtain ⟨h1, h2⟩ := contains_of_ite_none (thread_removedBlocked g tid)
    rw [retired_one hw.1 ht h1 h2]
    have : liveQuantums (removedBlocked g tid).scheduler
        = liveQuantums g.scheduler - t._countQuantums :=
      live_remove (s := g.scheduler.removeFromBlockedThreadsMap tid) hw.1 ht
    rw [this]
    show g.scheduler._totalQuantums - _ = _
    omega
  | removedReady tid t ht hs hne =>
    obtain ⟨h1, h2⟩ := contains_of_ite_none (thread_removedReady g tid)
    rw [retired_one hw.1 ht h1 h2]
    have : liveQuantums (removedReady g tid).scheduler
        = liveQuantums g.scheduler - t._countQuantums :=
      live_remove (s := g.scheduler.removeFromReadyThreadsQueue tid) hw.1 ht
    rw [this]
    show g.scheduler._totalQuantums - _ = _
    omega
  | blockedReady tid t ht hs hne =>
    have ht' : (⟨g.timer, g.scheduler.removeFromReadyThreadsQueue tid⟩ : Globals).scheduler.thread
        tid = some t := ht
    have hz : retiredQuantums g (blockedState
        { timer := g.timer, scheduler := g.scheduler.removeFromReadyThreadsQueue tid } tid t)
          = 0 :=
      retired_zero (fun id hc => contains_of_ite (thread_blockedState_full ht') id hc)
    rw [hz]
    have := live_put ((g.scheduler.removeFromReadyThreadsQueue tid).addBlockedThreadsMap tid)
      (t.setState BLOCKED) hw.1 ht (thread_id ht : t._ID = tid)
    show g.scheduler._totalQuantums - liveQuantums (Scheduler.put _ _) = _
    rw [this]
    show _ - (liveQuantums g.scheduler - _ + t._countQuantums) = _
    omega
  | resumed tid t ht hs =>
    rw [retired_zero (contains_of_ite (thread_resumedState_full ht))]
    have := live_put g.scheduler (t.setState READY) hw.1 ht (thread_id ht : t._ID = tid)
    show g.scheduler._totalQuantums - liveQuantums (Scheduler.put _ _) = _
    rw [this]
    show _ - (liveQuantums g.scheduler - _ + t._countQuantums) = _
    omega
  | reprioritised tid t priority ht hp =>
    rw [retired_zero (contains_of_ite (thread_reprioritised priority ht))]
    have := live_put g.scheduler (t.setPriority priority) hw.1 ht (thread_id ht : t._ID = tid)
    show g.scheduler._totalQuantums - liveQuantums (Scheduler.put _ _) = _
    rw [this]
    show _ - (liveQuantums g.scheduler - _ + t._countQuantums) = _
    omega
  | selfTerminated tid t h tl hT hr ht hne hq hh hne2 =>
    have hh' : (retiredState g tid t).scheduler.thread h = some hT := by
      rw [thread_retiredState_ne ht hne2]; exact hh
    have hne3 : tid ≠ h := fun e => hne2 e.symm
    have hth : ∀ id, (dispatched (retiredState g tid t) h hT tl).scheduler.thread id
        = if id = tid then none
          else (if id = h then some { hT with _state := RUNNING,
                                              _countQuantums := hT._countQuantums + 1 }
                else g.scheduler.thread id) := by
      intro id
      rw [thread_dispatched _ hh', thread_retiredState_full ht]
      by_cases e : id = tid
      · simp [e, hne3]
      · simp [e]
    have hgone : (dispatched (retiredState g tid t) h hT tl).scheduler.containsKeyThreadsMap tid
        = false := by
      unfold Scheduler.containsKeyThreadsMap; rw [hth]; simp
    have hkeep : ∀ id, id ≠ tid → g.scheduler.containsKeyThreadsMap id = true →
        (dispatched (retiredState g tid t) h hT tl).scheduler.containsKeyThreadsMap id
          = true := by
      intro id e hc
      unfold Scheduler.containsKeyThreadsMap at hc ⊢
      rw [hth]
      by_cases e2 : id = h
      · simp [e2, hne2]
      · simpa [e, e2] using hc
    rw [retired_one hw.1 ht hgone hkeep]
    obtain ⟨h1, h2⟩ := live_dispatched tl (wf_retiredState hw ht) hh'
    rw [h1, h2]
    have h3 := live_put g.scheduler (t.setState TERMINATED) hw.1 ht (thread_id ht : t._ID = tid)
    have h4 : (g.scheduler.put (t.setState TERMINATED)).thread tid
        = some (t.setState TERMINATED) := by
      rw [thread_put]
      simp [Thread.setState, thread_id ht, ht]
    have hn' : ((g.scheduler.put (t.setState TERMINATED))._threadsMap.map Thread._ID).Nodup := by
      rw [put_keys]; exact hw.1
    have h5 := live_remove hn' h4
    have h6 : liveQuantums (retiredState g tid t).scheduler
        = liveQuantums ((g.scheduler.put (t.setState TERMINATED)).removeFromThreadsMap tid) :=
      rfl
    have h7 : (retiredState g tid t).scheduler._totalQuantums = g.scheduler._totalQuantums :=
      rfl
    rw [h6, h5, h3, h7]
    simp only [Thread.setState]
    omega
  | selfBlocked tid t h tl hT hr ht hne hq hh hne2 =>
    have hh' : (blockedState g tid t).scheduler.thread h = some hT := by
      rw [thread_blockedState_ne ht hne2]; exact hh
    have hth : ∀ id, (dispatched (blockedState g tid t) h hT tl).scheduler.thread id
        = if id = h then some { hT with _state := RUNNING,
                                        _countQuantums := hT._countQuantums + 1 }
          else (blockedState g tid t).scheduler.thread id := thread_dispatched _ hh'
    rw [retired_zero (fun id hc => contains_of_ite hth id
      (contains_of_ite (thread_blockedState_full ht) id hc))]
    obtain ⟨h1, h2⟩ := live_dispatched tl (wf_blockedState hw ht) hh'
    rw [h1, h2]
    have h3 := live_put (g.scheduler.addBlockedThreadsMap tid) (t.setState BLOCKED) hw.1 ht
      (thread_id ht : t._ID = tid)
    have h6 : liveQuantums (blockedState g tid t).scheduler
        = liveQuantums ((g.scheduler.addBlockedThreadsMap tid).put (t.setState BLOCKED)) := rfl
    have h7 : (blockedState g tid t).scheduler._totalQuantums = g.scheduler._totalQuantums :=
      rfl
    have h8 : liveQuantums (g.scheduler.addBlockedThreadsMap tid) = liveQuantums g.scheduler :=
      rfl
    rw [h6, h3, h7, h8]
    simp only [Thread.setState]
    omega
  | stayed cur curT hr hc hq =>
    rw [retired_zero (contains_of_ite (thread_stayed hc))]
    have h3 := live_put
      { g.scheduler with _totalQuantums := g.scheduler._totalQuantums + 1 }
      { curT with _countQuantums := curT._countQuantums + 1 } hw.1 hc (thread_id hc : curT._ID = cur)
    show (g.scheduler._totalQuantums + 1) - liveQuantums (Scheduler.put _ _) = _
    rw [h3]
    show _ - (liveQuantums g.scheduler - _ + (curT._countQuantums + 1)) = _
    omega
  | preempted cur curT h tl hT hr hc hq hh hne2 =>
    have hh' : (preempted g cur curT).scheduler.thread h = some hT := by
      rw [thread_preempted_ne hc hne2]; exact hh
    have hth : ∀ id, (dispatched (preempted g cur curT) h hT (tl ++ [cur])).scheduler.thread id
        = if id = h then some { hT with _state := RUNNING,
                                        _countQuantums := hT._countQuantums + 1 }
          else (preempted g cur curT).scheduler.thread id := thread_dispatched _ hh'
    rw [retired_zero (fun id hc' => contains_of_ite hth id
      (contains_of_ite (thread_preempted_full hc) id hc'))]
    obtain ⟨h1, h2⟩ := live_dispatched (tl ++ [cur]) (wf_preempted hw hc) hh'
    rw [h1, h2]
    have h3 := live_put g.scheduler (curT.setState READY) hw.1 hc (thread_id hc : curT._ID = cur)
    have h6 : liveQuantums (preempted g cur curT).scheduler
        = liveQuantums (g.scheduler.put (curT.setState READY)) := rfl
    have h7 : (preempted g cur curT).scheduler._totalQuantums = g.scheduler._totalQuantums :=
      rfl
    rw [h6, h3, h7]
    simp only [Thread.setState]
    omega

theorem run_quantums {g g' : Globals} (ops : List Op) (hr : Reachable g)
    (h : run g ops = some g') :
    g'.scheduler._totalQuantums - liveQuantums g'.scheduler
      = g.scheduler._totalQuantums - liveQuantums g.scheduler + retiredAlong g ops := by
  induction ops generalizing g with
  | nil =>
    simp only [run, Option.some.injEq] at h
    subst h
    simp [retiredAlong]
  | cons op ops ih =>
    cases ha : applyOp g op with
    | none => simp [run, ha] at h
    | some g1 =>
      simp only [run, ha] at h
      have hr1 : Reachable g1 :=
        Reachable.step g g1 hr ((step_iff_applyOp g g1).2 ⟨op, ha⟩)
      have h1 := effect_quantums (op_effect (reachable_inv hr) ha) (reachable_wf hr)
      have h2 := ih hr1 h
      simp only [retiredAlong, ha]
      omega

theorem init_quantums {quantum_usecs : List Int} {size : Int} {g : Globals}
    (h : uthread_init quantum_usecs size = some (SUCCESS, some g)) :
    g.scheduler._totalQuantums = 1 ∧ liveQuantums g.scheduler = 1 := by
  obtain ⟨_, _, q, _, rfl⟩ := (uthread_init_iff quantum_usecs size g).1 h
  exact ⟨rfl, rfl⟩

/-- Counterexample of C18 (the specification's formula fails): after
`init([100000, 200000], 2)`, `spawn(f, 0)` and two ticks, threads 0 and 1 have
both run, with counts 2 and 1.  The total is 3, and
`1 + ((2 - 1) + (1 - 1))` is 2. -/
theorem C18_spec_formula_fails :
    runFromInit [100000, 200000] 2 [.spawn 0, .tick, .tick] = some exRoundRobin ∧
    countOf exRoundRobin 0 = some 2 ∧ countOf exRoundRobin 1 = some 1 ∧
    exRoundRobin.scheduler._totalQuantums = 3 ∧
    specTotalQuantums exRoundRobin = 2 ∧
    exRoundRobin.scheduler._totalQuantums ≠ specTotalQuantums exRoundRobin := by
  decide

/-- C18 as amended: in every state reached from a successful `uthread_init`
by public calls and timer ticks, the total equals the sum of the quantum
counts of the live threads plus the counts that terminated threads had when
their records left the table. -/
theorem C18_total_is_live_plus_retired (quantum_usecs : List Int) (size : Int)
    (ops : List Op) (g0 g : Globals)
    (hinit : uthread_init quantum_usecs size = some (SUCCESS, some g0))
    (hrun : run g0 ops = some g) :
    g.scheduler._totalQuantums = liveQuantums g.scheduler + retiredAlong g0 ops := by
  have h1 := run_quantums ops (Reachable.init quantum_usecs size g0 hinit) hrun
  obtain ⟨h2, h3⟩ := init_quantums hinit
  omega

/-- Witness of C18 as amended: `init([100000, 200000], 2)`, `spawn(f, 0)`, two
ticks, then `terminate(1)`, which removes a thread with count 1: the total 3 is
the count 2 of thread 0 plus 1. -/
theorem C18_total_is_live_plus_retired_witness :
    ∃ g0 g, uthread_init [100000, 200000] 2 = some (SUCCESS, some g0) ∧
      run g0 [.spawn 0, .tick, .tick, .terminate 1] = some g ∧
      g.scheduler._totalQuantums
        = liveQuantums g.scheduler + retiredAlong g0 [.spawn 0, .tick, .tick, .terminate 1] ∧
      g.scheduler._totalQuantums = 3 ∧ liveQuantums g.scheduler = 2 ∧
      retiredAlong g0 [.spawn 0, .tick, .tick, .terminate 1] = 1 :=
  ⟨initState [100000, 200000] 2 100000, removedReady exRoundRobin 1, by decide, by decide,
    C18_total_is_live_plus_retired [100000, 200000] 2 [.spawn 0, .tick, .tick, .terminate 1]
      (initState [100000, 200000] 2 100000) (removedReady exRoundRobin 1)
      (by decide) (by decide),
    by decide, by decide, by decide⟩

/-- C20 (the code departs from the specification): `uthread_change_priority`
never masks the timer signal.  At `exThree`, `uthread_change_priority(1, 1)`
returns 0 and changes the record of thread 1, and its events are two reads and
a write with the signal unmasked.  On every path the function touches the
scheduler state unmasked.  Its siblings `uthread_spawn` and `uthread_resume`
keep the discipline on every path.  `uthread_get_tid` and
`uthread_get_total_quantums` read unmasked, `uthread_get_quantums` keeps the
discipline on its error path only, and a successful `uthread_init` writes after
the nested `uthread_spawn` has unmasked the signal. -/
theorem C20_change_priority_unmasked :
    ((∃ g', uthread_change_priority exThree 1 1 = some (SUCCESS, g') ∧
        g'.scheduler.thread 1 ≠ exThree.scheduler.thread 1) ∧
      uthread_change_priority_events exThree 1 1 = [.read, .read, .write] ∧
      writesUnmasked false (uthread_change_priority_events exThree 1 1) = true ∧
      disciplined (uthread_change_priority_events exThree 1 1) = false) ∧
    (∀ g tid priority, disciplined (uthread_change_priority_events g tid priority) = false) ∧
    (∀ g priority, disciplined (uthread_spawn_events g priority) = true) ∧
    (∀ g tid, disciplined (uthread_resume_events g tid) = true) ∧
    disciplined uthread_get_tid_events = false ∧
    disciplined uthread_get_total_quantums_events = false ∧
    (∀ g tid, disciplined (uthread_get_quantums_events g tid)
      = !g.scheduler.containsKeyThreadsMap tid) ∧
    (writesUnmasked false (uthread_init_events [100000, 200000] 2) = true ∧
      disciplined (uthread_init_events [100000, 200000] 2) = false ∧
      disciplined (uthread_init_events [100000, 0] 2) = true) := by
  refine ⟨⟨⟨_, rfl, by decide⟩, by decide, by decide, by decide⟩, ?_, ?_, ?_, by decide,
    by decide, ?_, by decide, by decide, by decide⟩
  · intro g tid priority
    rfl
  · intro g priority
    unfold uthread_spawn_events
    by_cases h1 : g.scheduler.getAvailableID = FAIL
    · simp [h1, disciplined, maskAfter]
    · by_cases h2 : g.scheduler.getAvailableID = MAIN_THREAD <;>
        simp [h1, h2, disciplined, maskAfter]
  · intro g tid
    unfold uthread_resume_events
    cases h1 : g.scheduler.containsKeyThreadsMap tid
    · simp [disciplined, maskAfter]
    · by_cases h2 : stateOf g tid = some BLOCKED <;> simp [h2, disciplined, maskAfter]
  · intro g tid
    unfold uthread_get_quantums_events
    cases h1 : g.scheduler.containsKeyThreadsMap tid <;> simp [disciplined, maskAfter]

/-- C21: for a positive `quantum`, `setTimer` writes the same pair into
`it_value` and `it_interval`: seconds `quantum / 1000000` and microseconds
`quantum % 1000000` (C++ truncating division, which for a positive dividend is
the floor division).  Seconds times 1000000 plus microseconds is `quantum`,
the microseconds are in `0 .. 999999` and the seconds are not negative; the
scheduler is not touched. -/
theorem C21_setTimer (g : Globals) (quantum : Int) (hq : 0 < quantum) :
    (setTimer g quantum).timer.it_value
      = { tv_sec := Int.tdiv quantum 1000000, tv_usec := Int.tmod quantum 1000000 } ∧
    (setTimer g quantum).timer.it_interval = (setTimer g quantum).timer.it_value ∧
    (setTimer g quantum).timer.it_value.tv_sec = quantum / 1000000 ∧
    (setTimer g quantum).timer.it_value.tv_usec = quantum % 1000000 ∧
    (setTimer g quantum).timer.it_value.tv_sec * 1000000
      + (setTimer g quantum).timer.it_value.tv_usec = quantum ∧
    0 ≤ (setTimer g quantum).timer.it_value.tv_usec ∧
    (setTimer g quantum).timer.it_value.tv_usec < 1000000 ∧
    0 ≤ (setTimer g quantum).timer.it_value.tv_sec ∧
    (setTimer g quantum).scheduler = g.scheduler := by
  have h0 : (0 : Int) ≤ quantum := by omega
  have hd : Int.tdiv quantum 1000000 = quantum / 1000000 :=
    Int.tdiv_eq_ediv h0 (by decide)
  have hm : Int.tmod quantum 1000000 = quantum % 1000000 :=
    Int.tmod_eq_emod h0 (by decide)
  refine ⟨rfl, rfl, hd, hm, ?_, ?_, ?_, ?_, rfl⟩
  · show Int.tdiv quantum 1000000 * 1000000 + Int.tmod quantum 1000000 = quantum
    rw [hd, hm]; omega
  · show 0 ≤ Int.tmod quantum 1000000
    rw [hm]; omega
  · show Int.tmod quantum 1000000 < 1000000
    rw [hm]; omega
  · show 0 ≤ Int.tdiv quantum 1000000
    rw [hd]; omega

/-- Witness of C21: `setTimer(1500000)` gives 1 second and 500000
microseconds. -/
theorem C21_setTimer_witness :
    (0 : Int) < 1500000 ∧
    (setTimer exThree 1500000).timer.it_value = { tv_sec := 1, tv_usec := 500000 } ∧
    (setTimer exThree 1500000).timer.it_interval = { tv_sec := 1, tv_usec := 500000 } ∧
    (setTimer exThree 1500000).timer.it_value.tv_sec * 1000000
      + (setTimer exThree 1500000).timer.it_value.tv_usec = 1500000 :=
  ⟨by decide, by decide, by decide, (C21_setTimer exThree 1500000 (by decide)).2.2.2.2.1⟩

theorem effect_deleted {g g' : Globals} {b : Bool} (he : Effect g b g') :
    g'.scheduler._recentlyDeleted = g.scheduler._recentlyDeleted ∨
    ∃ t : Thread, g'.scheduler._recentlyDeleted = g.scheduler._recentlyDeleted ++ [t] := by
  cases he with
  | selfTerminated tid t h tl hT hr ht hne hq hh hne2 =>
    exact Or.inr ⟨t.setState TERMINATED, rfl⟩
  | _ => exact Or.inl rfl

theorem step_deleted {g g' : Globals} (hr : Reachable g) (hs : Step g g') :
    g.scheduler._recentlyDeleted <+: g'.scheduler._recentlyDeleted := by
  obtain ⟨b, he⟩ := step_effect (reachable_inv hr) hs
  rcases effect_deleted he with h | ⟨t, h⟩
  · rw [h]
  · rw [h]; exact List.prefix_append _ _

/-- C23 (the code departs from the specification): `switchThreads` clears the
copy that `getRecentlyDeleted` returns by value, and `_recentlyDeleted` keeps
its records.  After `init([100000], 1)`, two spawns, a tick, and threads 1 and
2 terminating themselves one after the other, the list holds the records of
both threads; after thread 1 has terminated itself and two more ticks have
passed, its record is still there. -/
theorem C23_deferred_free_not_drained :
    (runFromInit [100000] 1
        [.spawn 0, .spawn 0, .tick, .terminate 1, .terminate 2]).map
      (fun g => g.scheduler._recentlyDeleted.map Thread._ID) = some [1, 2] ∧
    (runFromInit [100000] 1 [.spawn 0, .spawn 0, .tick, .terminate 1]).map
      (fun g => g.scheduler._recentlyDeleted.map Thread._ID) = some [1] ∧
    (runFromInit [100000] 1 [.spawn 0, .spawn 0, .tick, .terminate 1, .tick, .tick]).map
      (fun g => g.scheduler._recentlyDeleted.map Thread._ID) = some [1] ∧
    (runFromInit [100000] 1 [.spawn 0, .spawn 0, .tick]).map
      (fun g => g.scheduler._runningThread) = some (some 1) ∧
    (runFromInit [100000] 1 [.spawn 0, .spawn 0, .tick, .terminate 1]).map
      (fun g => g.scheduler._runningThread) = some (some 2) := by
  decide

/-! ## Steps that keep every key of the table -/

theorem contains_dispatched {g : Globals} {h : Int} {hT : Thread} (rest : List Int)
    (hh : g.scheduler.thread h = some hT) (id : Int)
    (hc : g.scheduler.containsKeyThreadsMap id = true) :
    (dispatched g h hT rest).scheduler.containsKeyThreadsMap id = true :=
  contains_of_ite (thread_dispatched rest hh) id hc

theorem keys_kept {g g' : Globals} {op : Op} (hI : Inv g) (h : applyOp g op = some g')
    (hn : terminateSucceeds g op = false) (id : Int)
    (hc : g.scheduler.containsKeyThreadsMap id = true) :
    g'.scheduler.containsKeyThreadsMap id = true := by
  cases op with
  | spawn priority =>
    simp only [applyOp, Option.map_eq_some', Prod.exists, exists_eq_right] at h
    obtain ⟨r, h⟩ := h
    rcases (uthread_spawn_iff g g' priority r).1 h with ⟨_, _, e⟩ | ⟨_, _, q, _, h2⟩
    · rw [e]; exact hc
    · rcases h2 with ⟨_, e⟩ | ⟨_, e⟩
      · rw [e]
        exact contains_of_ite (thread_addThreadsMap g.scheduler _) id hc
      · rw [e]
        exact contains_of_ite (thread_spawnedState g r q priority) id hc
  | terminate tid =>
    have hc' : g.scheduler.containsKeyThreadsMap tid = false := hn
    simp only [applyOp, uthread_terminate, hc', Bool.not_false, if_true] at h
    cases h
    exact hc
  | block tid =>
    simp only [applyOp, Option.map_eq_some', Prod.exists, exists_eq_right] at h
    obtain ⟨r, h⟩ := h
    rcases (uthread_block_iff g g' tid r).1 h with ⟨_, _, e⟩ | ⟨t, ht, h2⟩
    · rw [e]; exact hc
    · rcases h2 with ⟨_, _, e⟩ | ⟨hne, _, h3⟩
      · rw [e]; exact hc
      · rcases h3 with ⟨hs, hsw⟩ | ⟨_, e⟩ | ⟨_, _, e⟩
        · have hrun := (hI.running_iff tid).2 ⟨t, ht, hs⟩
          obtain ⟨hd, tl, hT, hq, hh, e⟩ := (blockSelf_iff hI hrun ht hne g').1 hsw
          have hne2 : hd ≠ tid := ready_ne_running hI hrun (by rw [hq]; simp)
          rw [e]
          refine contains_dispatched tl ?_ id
            (contains_of_ite (thread_blockedState_full ht) id hc)
          rw [thread_blockedState_ne ht hne2]; exact hh
        · rw [e]
          have ht' : (⟨g.timer, g.scheduler.removeFromReadyThreadsQueue tid⟩ :
              Globals).scheduler.thread tid = some t := ht
          exact contains_of_ite (thread_blockedState_full ht') id hc
        · rw [e]; exact hc
  | resume tid =>
    simp only [applyOp, Option.map_eq_some', Prod.exists, exists_eq_right] at h
    obtain ⟨r, h⟩ := h
    rcases (uthread_resume_iff g g' tid r).1 h with ⟨_, _, e⟩ | ⟨t, ht, _, h2⟩
    · rw [e]; exact hc
    · rcases h2 with ⟨_, e⟩ | ⟨_, e⟩
      · rw [e]; exact contains_of_ite (thread_resumedState_full ht) id hc
      · rw [e]; exact hc
  | changePriority tid priority =>
    simp only [applyOp, Option.map_eq_some', Prod.exists, exists_eq_right] at h
    obtain ⟨r, h⟩ := h
    rcases (uthread_change_priority_iff g g' tid priority r).1 h with
      ⟨_, _, e⟩ | ⟨t, ht, h2⟩
    · rw [e]; exact hc
    · rcases h2 with ⟨_, _, e⟩ | ⟨_, _, e⟩
      · rw [e]; exact hc
      · rw [e]
        exact contains_of_ite (thread_reprioritised priority ht) id hc
  | tick =>
    obtain ⟨cur, curT, hr, hcur, h2⟩ := (tick_iff hI g').1 h
    rcases h2 with ⟨_, e⟩ | ⟨hd, tl, hT, hq, hh, e⟩
    · rw [e]; exact contains_of_ite (thread_stayed hcur) id hc
    · have hne2 : hd ≠ cur := ready_ne_running hI hr (by rw [hq]; simp)
      rw [e]
      refine contains_dispatched _ ?_ id
        (contains_of_ite (thread_preempted_full hcur) id hc)
      rw [thread_preempted_ne hcur hne2]; exact hh

theorem retired_nonneg {g : Globals} (g' : Globals) (hw : g.scheduler.WF) :
    0 ≤ retiredQuantums g g' := by
  unfold retiredQuantums
  apply List.sum_nonneg
  intro x hx
  obtain ⟨t, ht, rfl⟩ := List.mem_map.1 hx
  exact (hw.2.1 t (List.mem_filter.1 ht).1).2.2.1

theorem reachable_live_le {g : Globals} (hr : Reachable g) :
    liveQuantums g.scheduler ≤ g.scheduler._totalQuantums := by
  induction hr with
  | init quantum_usecs size g h =>
    obtain ⟨h1, h2⟩ := init_quantums h
    omega
  | step g g' hr hs ih =>
    obtain ⟨b, he⟩ := step_effect (reachable_inv hr) hs
    have h1 := effect_quantums he (reachable_wf hr)
    have h2 := retired_nonneg g' (reachable_wf hr)
    omega

theorem retiredAlong_zero {g g' : Globals} (ops : List Op) (hr : Reachable g)
    (h : run g ops = some g') (hn : noTerminateAlong g ops = true) :
    retiredAlong g ops = 0 := by
  induction ops generalizing g with
  | nil => rfl
  | cons op ops ih =>
    cases ha : applyOp g op with
    | none => simp [run, ha] at h
    | some g1 =>
      simp only [run, ha] at h
      simp only [noTerminateAlong, ha, Bool.and_eq_true, Bool.not_eq_true'] at hn
      have hr1 : Reachable g1 :=
        Reachable.step g g1 hr ((step_iff_applyOp g g1).2 ⟨op, ha⟩)
      simp only [retiredAlong, ha]
      rw [retired_zero (keys_kept (reachable_inv hr) ha hn.1), ih hr1 h hn.2]
      rfl

/-- C24: in every reachable state the sum of the quantum counts of the live
threads is at most the total.  In a state reached from a successful
`uthread_init` by a run in which no call of `uthread_terminate` succeeded, the
two are equal.  After `init([100000, 200000], 2)`, `spawn(f, 0)`, two ticks
and `terminate(1)` the total is 3 and the sum is 2. -/
theorem C24_live_sum_le_total :
    (∀ g : Globals, Reachable g →
      liveQuantums g.scheduler ≤ g.scheduler._totalQuantums) ∧
    (∀ (quantum_usecs : List Int) (size : Int) (ops : List Op) (g0 g : Globals),
      uthread_init quantum_usecs size = some (SUCCESS, some g0) →
      run g0 ops = some g → noTerminateAlong g0 ops = true →
      liveQuantums g.scheduler = g.scheduler._totalQuantums) ∧
    ((runFromInit [100000, 200000] 2 [.spawn 0, .tick, .tick, .terminate 1]).map
        (fun g => (liveQuantums g.scheduler, g.scheduler._totalQuantums)) = some (2, 3)) := by
  refine ⟨fun g hr => reachable_live_le hr, ?_, by decide⟩
  intro quantum_usecs size ops g0 g hinit hrun hn
  have hr0 := Reachable.init quantum_usecs size g0 hinit
  have h1 := run_quantums ops hr0 hrun
  have h2 := retiredAlong_zero ops hr0 hrun hn
  obtain ⟨h3, h4⟩ := init_quantums hinit
  omega

/-- Witness of C24: `exRoundRobin`, reached by `init([100000, 200000], 2)`,
`spawn(f, 0)` and two ticks, with counts 1 and 2 and total 3. -/
theorem C24_live_sum_le_total_witness :
    Reachable exRoundRobin ∧
    liveQuantums exRoundRobin.scheduler ≤ exRoundRobin.scheduler._totalQuantums ∧
    uthread_init [100000, 200000] 2
      = some (SUCCESS, some (initState [100000, 200000] 2 100000)) ∧
    run (initState [100000, 200000] 2 100000) [.spawn 0, .tick, .tick] = some exRoundRobin ∧
    noTerminateAlong (initState [100000, 200000] 2 100000) [.spawn 0, .tick, .tick] = true ∧
    liveQuantums exRoundRobin.scheduler = exRoundRobin.scheduler._totalQuantums ∧
    exRoundRobin.scheduler._totalQuantums = 3 :=
  ⟨exRoundRobin_reachable, C24_live_sum_le_total.1 exRoundRobin exRoundRobin_reachable,
    by decide, by decide, by decide,
    C24_live_sum_le_total.2.1 [100000, 200000] 2 [.spawn 0, .tick, .tick]
      (initState [100000, 200000] 2 100000) exRoundRobin (by decide) (by decide) (by decide),
    rfl⟩

/-- C25: in a reachable state the ready queue holds no id twice.  So
`removeFromReadyThreadsQueue(tid)`, which erases the first entry equal to
`tid`, leaves a queue without `tid`: the old queue with `tid` filtered out,
the other ids in their order, and the old queue itself when `tid` was not in
it; no other field of the scheduler changes.  On a queue with a duplicate,
`[1, 2, 1]`, the method leaves `[2, 1]`. -/
theorem C25_ready_queue_no_duplicates :
    (∀ g : Globals, Reachable g →
      g.scheduler._readyThreadsQueue.Nodup ∧
      ∀ tid,
        tid ∉ (g.scheduler.removeFromReadyThreadsQueue tid)._readyThreadsQueue ∧
        (g.scheduler.removeFromReadyThreadsQueue tid)._readyThreadsQueue
          = g.scheduler._readyThreadsQueue.filter (fun k => decide (k ≠ tid)) ∧
        (tid ∉ g.scheduler._readyThreadsQueue →
          g.scheduler.removeFromReadyThreadsQueue tid = g.scheduler) ∧
        (g.scheduler.removeFromReadyThreadsQueue tid)._threadsMap = g.scheduler._threadsMap ∧
        (g.scheduler.removeFromReadyThreadsQueue tid)._blockedThreadsMap
          = g.scheduler._blockedThreadsMap ∧
        (g.scheduler.removeFromReadyThreadsQueue tid)._runningThread
          = g.scheduler._runningThread) ∧
    (Scheduler.removeFromReadyThreadsQueue
        { exBlocked.scheduler with _readyThreadsQueue := [1, 2, 1] } 1)._readyThreadsQueue
      = [2, 1] := by
  refine ⟨?_, by decide⟩
  intro g hr
  have hn := (reachable_inv hr).ready_nodup
  refine ⟨hn, ?_⟩
  intro tid
  have hq : (g.scheduler.removeFromReadyThreadsQueue tid)._readyThreadsQueue
      = g.scheduler._readyThreadsQueue.filter (fun k => decide (k ≠ tid)) :=
    erase_eq_filter_ne hn tid
  refine ⟨?_, hq, ?_, rfl, rfl, rfl⟩
  · rw [hq]; simp
  · intro hm
    show ({ g.scheduler with _readyThreadsQueue := g.scheduler._readyThreadsQueue.erase tid }
      : Scheduler) = g.scheduler
    rw [List.erase_of_not_mem hm]

/-- Witness of C25: `exBlocked`, whose ready queue is `[0, 2]`. -/
theorem C25_ready_queue_no_duplicates_witness :
    Reachable exBlocked ∧ exBlocked.scheduler._readyThreadsQueue = [0, 2] ∧
    exBlocked.scheduler._readyThreadsQueue.Nodup ∧
    (2 : Int) ∉ (exBlocked.scheduler.removeFromReadyThreadsQueue 2)._readyThreadsQueue ∧
    (exBlocked.scheduler.removeFromReadyThreadsQueue 2)._readyThreadsQueue = [0] ∧
    exBlocked.scheduler.removeFromReadyThreadsQueue 1 = exBlocked.scheduler :=
  ⟨exBlocked_reachable, rfl, (C25_ready_queue_no_duplicates.1 exBlocked exBlocked_reachable).1,
    ((C25_ready_queue_no_duplicates.1 exBlocked exBlocked_reachable).2 2).1, by decide,
    ((C25_ready_queue_no_duplicates.1 exBlocked exBlocked_reachable).2 1).2.2.1 (by decide)⟩

end UThreads
